import Mathlib

/-!
# Reseller Portal: file ingestion and enrichment pipeline

A shallow embedding of `FileParserService.js`, `BaseService.js` and
`EnrichmentService.js`, followed by theorems about the embedded functions.

Modelling conventions

* A JavaScript string is a `Str`, the list of its code units, each written as a `Char`.
* A JavaScript value is a `JsVal`; a plain object is the list of its own properties
  (`JsObj`). Where the source uses a fixed property name, `getProp` and `setProp` read and
  write the own property; where the name is data (a header, a column, a mapped field),
  `jsRead` and `jsAssign` follow `Object.prototype` and the order of enumeration.
* Where the identity of an object matters, objects live in a `Store` and are passed by
  reference.
* A function that can throw (or an `async` function whose promise can reject) returns
  `Except Str _`, the error carrying `error.message`.
* The network, the clock and the rate limiter are fields of an explicit `Env`.
-/

namespace ResellerPortal

/-- A JavaScript string, as the list of its code units. -/
abbrev Str := List Char

/-! ## String primitives used by the services -/

/-- The code points `String.prototype.trim` removes: ECMAScript WhiteSpace and
LineTerminator. -/
def isJsWhitespace (c : Char) : Bool :=
  c.toNat == 0x09 || c.toNat == 0x0A || c.toNat == 0x0B || c.toNat == 0x0C ||
  c.toNat == 0x0D || c.toNat == 0x20 || c.toNat == 0xA0 || c.toNat == 0x1680 ||
  (0x2000 ≤ c.toNat && c.toNat ≤ 0x200A) || c.toNat == 0x2028 || c.toNat == 0x2029 ||
  c.toNat == 0x202F || c.toNat == 0x205F || c.toNat == 0x3000 || c.toNat == 0xFEFF

/-- Embeds `String.prototype.trimStart`. -/
def trimStart (s : Str) : Str := s.dropWhile isJsWhitespace

/-- Embeds `String.prototype.trimEnd`. -/
def trimEnd (s : Str) : Str := (s.reverse.dropWhile isJsWhitespace).reverse

/-- Embeds `String.prototype.trim`. -/
def trim (s : Str) : Str := trimEnd (trimStart s)

/-- Embeds `s.split(sep)` for a one-character separator: always at least one piece. -/
def split (sep : Char) : Str → List Str
  | [] => [[]]
  | c :: cs =>
    if c = sep then [] :: split sep cs
    else
      match split sep cs with
      | [] => [[c]]
      | piece :: pieces => (c :: piece) :: pieces

/-- Embeds `xs.join(sep)` on an array of strings. -/
def join (sep : Str) : List Str → Str
  | [] => []
  | [x] => x
  | x :: y :: rest => x ++ sep ++ join sep (y :: rest)

/-! ## JavaScript values and objects -/

/-- The JavaScript values the services handle. Numbers are modelled as integers. `fn name`
is a built-in function whose `name` property is `name`, and `objectPrototype` is the object
`Object.prototype`: the values a plain object inherits. -/
inductive JsVal where
  | undefined
  | null
  | bool (b : Bool)
  | num (n : Int)
  | str (s : Str)
  | arr (xs : List JsVal)
  | obj (fields : List (Str × JsVal))
  | fn (name : Str)
  | objectPrototype

instance : Inhabited JsVal := ⟨JsVal.undefined⟩

/-- A plain object, whose prototype is `Object.prototype`: its own enumerable string-keyed
properties, in the order of enumeration. -/
abbrev JsObj := List (Str × JsVal)

/-- The test `v !== undefined`, negated. -/
def JsVal.isUndefined : JsVal → Bool
  | .undefined => true
  | _ => false

/-- JavaScript truthiness (`ToBoolean`). -/
def JsVal.truthy : JsVal → Bool
  | .undefined => false
  | .null => false
  | .bool b => b
  | .num n => n != 0
  | .str s => s != []
  | .arr _ => true
  | .obj _ => true
  | .fn _ => true
  | .objectPrototype => true

/-- The own property `k` of a plain object, `undefined` when there is none. For a name that
`Object.prototype` does not define, such as the fixed names the enrichment code reads, this
is the read `o.k`. -/
def getProp : JsObj → Str → JsVal
  | [], _ => .undefined
  | (k', v) :: rest, k => if k' = k then v else getProp rest k

/-- Writes the own property `k`: overwrite in place, or append a new key. For a name that is
neither `__proto__` nor an array index, such as the fixed names the enrichment code writes,
this is the assignment `o.k = v`. -/
def setProp : JsObj → Str → JsVal → JsObj
  | [], k, v => [(k, v)]
  | (k', v') :: rest, k, v => if k' = k then (k', v) :: rest else (k', v') :: setProp rest k v

/-- The names of the members of `Object.prototype` other than `__proto__` and
`constructor`, all of them functions. -/
def objectPrototypeMethods : List Str :=
  ["hasOwnProperty".toList, "isPrototypeOf".toList, "propertyIsEnumerable".toList,
   "toLocaleString".toList, "toString".toList, "valueOf".toList,
   "__defineGetter__".toList, "__defineSetter__".toList, "__lookupGetter__".toList,
   "__lookupSetter__".toList]

/-- The value a plain object inherits from `Object.prototype` under the name `k`:
`__proto__` reads the prototype itself, `constructor` is the function `Object`, the other
members are methods, and any other name is `undefined`. -/
def inheritedMember (k : Str) : JsVal :=
  if k = "__proto__".toList then .objectPrototype
  else if k = "constructor".toList then .fn "Object".toList
  else if k ∈ objectPrototypeMethods then .fn k
  else .undefined

/-- Embeds the read `o[k]` for a computed name `k` on a plain object: the own property when
there is one, the member inherited from `Object.prototype` otherwise. -/
def jsRead (o : JsObj) (k : Str) : JsVal :=
  if k ∈ o.map Prod.fst then getProp o k else inheritedMember k

/-- The array index a property name denotes, if any: the name is the canonical decimal text
of an integer below `2^32 - 1`. Such names are enumerated first, in ascending order. -/
def arrayIndex (k : Str) : Option Nat :=
  match k with
  | [] => none
  | c :: rest =>
    if k.all Char.isDigit && (c != '0' || rest.isEmpty) then
      if k.foldl (fun n d => 10 * n + (d.toNat - 48)) 0 < 4294967295 then
        some (k.foldl (fun n d => 10 * n + (d.toNat - 48)) 0)
      else none
    else none

/-- Adds the new own property `k`, whose array index is `n`, where enumeration puts it:
after the array indices below `n` and before every other key. -/
def insertIndexed (n : Nat) (k : Str) (v : JsVal) : JsObj → JsObj
  | [] => [(k, v)]
  | (k', v') :: rest =>
    match arrayIndex k' with
    | some m =>
      if m < n then (k', v') :: insertIndexed n k v rest else (k, v) :: (k', v') :: rest
    | none => (k, v) :: (k', v') :: rest

/-- Embeds the assignment `o[k] = v` for a computed name `k` on a plain object. An own
property is overwritten in place. Without one, the name `__proto__` reaches the setter
inherited from `Object.prototype`, which creates no property (it ignores a value that is not
an object, and for an object it replaces the prototype, which this list of own properties
does not record); an array index is added among the array indices in ascending order; any
other name is appended. -/
def jsAssign (o : JsObj) (k : Str) (v : JsVal) : JsObj :=
  if k ∈ o.map Prod.fst then setProp o k v
  else if k = "__proto__".toList then o
  else
    match arrayIndex k with
    | some n => insertIndexed n k v o
    | none => o ++ [(k, v)]

/-- Embeds `Object.assign(target, source)`. -/
def objectAssign (target source : JsObj) : JsObj :=
  source.foldl (fun acc kv => setProp acc kv.1 kv.2) target

/-- Embeds `Object.keys(o)` as an array value. -/
def objectKeys (o : JsObj) : JsVal := .arr (o.map (fun kv => .str kv.1))

/-! ## FileParserService -/

/-- The object returned by `parseCSV`. -/
structure ParsedData where
  headers : List Str
  sampleData : List JsObj
  totalRows : Nat
  delimiter : Str

/-- The scanner state of `parseCSVLine`'s `for` loop over the remaining characters:
`result`, `current`, `inQuotes`. The `i++` of the escaped-quote branch consumes the
character after the quote. -/
def parseCSVLineLoop (delimiter : Str) : Str → List Str → Str → Bool → List Str
  | [], result, current, _ => result ++ [trim current]
  | c :: rest, result, current, inQuotes =>
    if c = '"' then
      match rest with
      | [] => parseCSVLineLoop delimiter [] result current (!inQuotes)
      | c2 :: rest2 =>
        if inQuotes && c2 = '"' then
          parseCSVLineLoop delimiter rest2 result (current ++ ['"']) inQuotes
        else
          parseCSVLineLoop delimiter (c2 :: rest2) result current (!inQuotes)
    else if [c] = delimiter && !inQuotes then
      parseCSVLineLoop delimiter rest (result ++ [trim current]) [] inQuotes
    else
      parseCSVLineLoop delimiter rest result (current ++ [c]) inQuotes

/-- Embeds `parseCSVLine(line, delimiter)`. -/
def parseCSVLine (line : Str) (delimiter : Str) : List Str :=
  parseCSVLineLoop delimiter line [] [] false

/-- Embeds `detectCSVDelimiter(firstLine)`: each candidate's regular expression is the escaped
literal character, so `match(...).length` is the number of occurrences. -/
def detectCSVDelimiter (firstLine : Str) : Str :=
  ([',', ';', '\t', '|'].foldl
    (fun (best : Str × Nat) (delimiter : Char) =>
      let count := firstLine.count delimiter
      if count > best.2 then ([delimiter], count) else best)
    ([','], 0)).1

/-- The `rowObject` built by `headers.forEach((header, index) => ...)`; `row[index] || ''`
is the field, or the empty string when the field is missing or empty. -/
def rowObject (headers : List Str) (row : List Str) : JsObj :=
  headers.enum.foldl
    (fun (o : JsObj) (ih : Nat × Str) => jsAssign o ih.2 (.str (row.getD ih.1 [])))
    []

/-- The sample loop of `parseCSV`: `for (let i = 1; i < maxSamples; i++)`. -/
def sampleLoop (lines : List Str) (headers : List Str) (delimiter : Str)
    (maxSamples : Nat) : List JsObj :=
  (List.range' 1 (maxSamples - 1)).foldl
    (fun (sampleData : List JsObj) (i : Nat) =>
      let line := lines.getD i []
      if line != [] && trim line != [] then
        sampleData ++ [rowObject headers (parseCSVLine line delimiter)]
      else sampleData)
    []

/-- The non-blank lines `content.split('\n').filter(line => line.trim())`. -/
def contentLines (content : Str) : List Str :=
  (split '\n' content).filter (fun line => trim line != [])

/-- Embeds `parseCSV(content)`; a thrown `ValidationError` is `Except.error` with its message. -/
def parseCSV (content : Str) : Except Str ParsedData :=
  let lines := contentLines content
  if lines.length = 0 then
    .error "File appears to be empty".toList
  else
    let delimiter := detectCSVDelimiter (lines.getD 0 [])
    let headers := parseCSVLine (lines.getD 0 []) delimiter
    if headers.length = 0 then
      .error "No headers found in CSV file".toList
    else
      let maxSamples := min 6 lines.length
      .ok { headers := headers.map trim
            sampleData := sampleLoop lines headers delimiter maxSamples
            totalRows := lines.length - 1
            delimiter := delimiter }

/-- Embeds `convertToStandardFormat(parsedData, columnMapping)`; the mapping is an object from
canonical field to source column, given as the list `Object.entries` iterates. Each standard
row is the list of its own properties. -/
def convertToStandardFormat (parsedData : ParsedData) (columnMapping : List (Str × Str)) :
    List JsObj :=
  parsedData.sampleData.foldl
    (fun (standardized : List JsObj) (row : JsObj) =>
      let standardRow := columnMapping.foldl
        (fun (standardRow : JsObj) (entry : Str × Str) =>
          if !(jsRead row entry.2).isUndefined then
            jsAssign standardRow entry.1 (jsRead row entry.2)
          else standardRow)
        []
      standardized ++ [standardRow])
    []

/-! ## BaseService and EnrichmentService -/

/-- The flags `config.apis.<name>.enabled` of `environment.js`. -/
structure ApiFlags where
  emailCheck : Bool
  whois : Bool
  lakeB2B : Bool
  localBusiness : Bool
  webScraper : Bool

/-- The requests the service sends through `makeRequest`, identified by endpoint and by
the data placed in the body or query string. -/
inductive Request where
  | emailValidation (email : JsVal)
  | whois (domain : JsVal)
  | companySearch (companyName : JsVal)
  | localBusinessSearch (query phone location : Option JsVal)
  | scrape (domain : JsVal)

/-- Everything outside the process: configuration, network, rate limiter and clock. -/
structure Env where
  /-- The value of `config.apis`. -/
  apis : ApiFlags
  /-- The result of `makeRequest`: the parsed body, or the thrown `ServiceError` message. -/
  makeRequest : Request → Except Str JsVal
  /-- The result of `checkRateLimit(key, limit)`: passes, or throws `RateLimitError`. -/
  checkRateLimit : Str → Except Str Unit
  /-- The result of `this.verifySocialProfiles(profiles)`. The service classes define no
  method of this name, so the call is kept as a collaborator that may raise. -/
  verifySocialProfiles : JsObj → Except Str JsObj
  /-- The value of `new Date().toISOString()`. -/
  now : Str
  /-- The value of `Math.floor((new Date() - new Date(createdDate)) / msPerYear)`. -/
  ageYears : JsVal → JsVal
  /-- The comparison `v > 0` for an operand that is a string, array or object, which
  needs `ToNumber` on text. -/
  textGtZero : JsVal → Bool

/-- The message of `new APIKeyError(service)`. -/
def apiKeyError (service : Str) : Str := "API key not configured for ".toList ++ service

/-- Property read `v.k` (and `v.length` on arrays and strings): a `TypeError` on
`undefined` and `null`. It is applied to parsed responses, with fixed names that
`Object.prototype` does not define. -/
def JsVal.member (v : JsVal) (k : Str) : Except Str JsVal :=
  match v with
  | .undefined =>
    .error ("Cannot read properties of undefined (reading '".toList ++ k ++ "')".toList)
  | .null => .error ("Cannot read properties of null (reading '".toList ++ k ++ "')".toList)
  | .obj fields => .ok (getProp fields k)
  | .arr xs => .ok (if k = "length".toList then .num xs.length else .undefined)
  | .str s => .ok (if k = "length".toList then .num s.length else .undefined)
  | .bool _ => .ok .undefined
  | .num _ => .ok .undefined
  | .fn name => .ok (if k = "name".toList then .str name else .undefined)
  | .objectPrototype => .ok (if k = "__proto__".toList then .null else inheritedMember k)

/-- Element read `v[0]` on a value already known to be truthy. -/
def JsVal.first : JsVal → JsVal
  | .arr xs => xs.getD 0 .undefined
  | .str s => match s with
    | [] => .undefined
    | c :: _ => .str [c]
  | .obj fields => getProp fields "0".toList
  | _ => .undefined

/-- The operator `a || b`. -/
def jsOr (a b : JsVal) : JsVal := if a.truthy then a else b

/-- The comparison `v > 0`. -/
def jsGtZero (env : Env) : JsVal → Bool
  | .undefined => false
  | .null => false
  | .bool b => b
  | .num n => decide (0 < n)
  | v => env.textGtZero v

/-- Embeds `validateRequired(params, requiredFields)`. -/
def validateRequired (params : JsObj) (requiredFields : List Str) : Except Str Unit :=
  let missing := requiredFields.filter (fun field => !(getProp params field).truthy)
  if missing.length > 0 then
    .error ("Missing required fields: ".toList ++ join ", ".toList missing)
  else .ok ()

/-- Embeds `validateEmail(email)`: the `try` body, whose failure the `catch` turns into a
`validation_failed` record. -/
def validateEmail (env : Env) (email : JsVal) : Except Str JsObj :=
  if !env.apis.emailCheck then .error (apiKeyError "email validation".toList)
  else
    let body : Except Str JsObj := do
      env.checkRateLimit "email_validation".toList
      let response ← env.makeRequest (.emailValidation email)
      let valid ← response.member "valid".toList
      let deliverable ← response.member "deliverable".toList
      let reason ← response.member "reason".toList
      let riskScore ← response.member "risk_score".toList
      let provider ← response.member "provider".toList
      pure [("valid".toList, jsOr valid (.bool false)),
            ("deliverable".toList, jsOr deliverable (.bool false)),
            ("reason".toList, jsOr reason (.str "unknown".toList)),
            ("risk_score".toList, jsOr riskScore .null),
            ("provider".toList, jsOr provider .null)]
    match body with
    | .ok emailData => .ok emailData
    | .error message =>
      .ok [("valid".toList, .null),
           ("deliverable".toList, .null),
           ("reason".toList, .str "validation_failed".toList),
           ("error".toList, .str message)]

/-- Embeds `getWhoisData(domain)`: the `catch` logs and rethrows. -/
def getWhoisData (env : Env) (domain : JsVal) : Except Str JsObj :=
  if !env.apis.whois then .error (apiKeyError "WHOIS lookup".toList)
  else do
    let response ← env.makeRequest (.whois domain)
    let whoisRecord ← response.member "WhoisRecord".toList
    let createdDate ← whoisRecord.member "createdDate".toList
    let updatedDate ← whoisRecord.member "updatedDate".toList
    let expiresDate ← whoisRecord.member "expiresDate".toList
    let registrarName ← whoisRecord.member "registrarName".toList
    let nameServers ← whoisRecord.member "nameServers".toList
    let hostNames :=
      match nameServers.member "hostNames".toList with
      | .ok v => v
      | .error _ => .undefined
    pure [("created_date".toList, createdDate),
          ("updated_date".toList, updatedDate),
          ("expires_date".toList, expiresDate),
          ("registrar".toList, registrarName),
          ("age_years".toList, env.ageYears createdDate),
          ("nameservers".toList, jsOr hostNames (.arr []))]

/-- Embeds `getLakeB2BCompanyData(companyName)`: the `catch` logs and rethrows. -/
def getLakeB2BCompanyData (env : Env) (companyName : JsVal) : Except Str JsObj :=
  if !env.apis.lakeB2B then .error (apiKeyError "Lake B2B".toList)
  else do
    let response ← env.makeRequest (.companySearch companyName)
    let results ← response.member "results".toList
    if results.truthy then
      let length ← results.member "length".toList
      if jsGtZero env length then
        let company := results.first
        let employeeCount ← company.member "employee_count".toList
        let industry ← company.member "industry".toList
        let revenue ← company.member "annual_revenue".toList
        let description ← company.member "description".toList
        let headquarters ← company.member "headquarters".toList
        let foundedYear ← company.member "founded_year".toList
        let technologies ← company.member "technologies".toList
        pure [("company_size".toList, employeeCount),
              ("industry".toList, industry),
              ("revenue".toList, revenue),
              ("company_description".toList, description),
              ("headquarters".toList, headquarters),
              ("founded_year".toList, foundedYear),
              ("technologies".toList, jsOr technologies (.arr []))]
      else pure []
    else pure []

/-- Embeds `scrapeCompanyWebsite(domain)`: the `catch` logs and rethrows. -/
def scrapeCompanyWebsite (env : Env) (domain : JsVal) : Except Str JsObj :=
  if !env.apis.webScraper then .error (apiKeyError "web scraping".toList)
  else do
    let response ← env.makeRequest (.scrape domain)
    let title ← response.member "title".toList
    let description ← response.member "description".toList
    let h1 ← response.member "h1".toList
    let about ← response.member "about".toList
    pure [("page_title".toList, title),
          ("meta_description".toList, description),
          ("main_heading".toList, h1),
          ("about_text".toList, about)]

/-- Embeds `enrichCompany({ name, domain })`: the three sub-lookups run inside one `try`, whose
`catch` returns `{ enrichment_error: error.message }`. -/
def enrichCompany (env : Env) (name domain : JsVal) : Except Str JsObj :=
  let body : Except Str JsObj := do
    let companyData : JsObj := []
    let companyData ←
      if domain.truthy && env.apis.whois then do
        let whoisData ← getWhoisData env domain
        pure (setProp (setProp companyData "domain_info".toList (.obj whoisData))
          "company_age_years".toList (getProp whoisData "age_years".toList))
      else pure companyData
    let companyData ←
      if name.truthy && env.apis.lakeB2B then do
        let lakeData ← getLakeB2BCompanyData env name
        pure (objectAssign companyData lakeData)
      else pure companyData
    let companyData ←
      if domain.truthy && env.apis.webScraper then do
        let webData ← scrapeCompanyWebsite env domain
        pure (setProp companyData "website_info".toList (.obj webData))
      else pure companyData
    pure companyData
  match body with
  | .ok companyData => .ok companyData
  | .error message => .ok [("enrichment_error".toList, .str message)]

/-- Embeds `enrichLocalBusiness({ name, phone, location })`: the `catch` logs and rethrows. -/
def enrichLocalBusiness (env : Env) (name phone location : JsVal) : Except Str JsObj :=
  if !env.apis.localBusiness then .error (apiKeyError "local business data".toList)
  else do
    let param := fun (v : JsVal) => if v.truthy then some v else none
    let response ← env.makeRequest (.localBusinessSearch (param name) (param phone)
      (param location))
    let results ← response.member "results".toList
    if results.truthy then
      let length ← results.member "length".toList
      if jsGtZero env length then
        let business := results.first
        let rating ← business.member "rating".toList
        let reviewsCount ← business.member "reviews_count".toList
        let hours ← business.member "hours".toList
        let address ← business.member "address".toList
        let website ← business.member "website".toList
        let categories ← business.member "categories".toList
        pure [("business_rating".toList, rating),
              ("business_reviews_count".toList, reviewsCount),
              ("business_hours".toList, hours),
              ("business_address".toList, address),
              ("business_website".toList, website),
              ("business_categories".toList, jsOr categories (.arr []))]
      else pure []
    else pure []

/-- Embeds `String.prototype.toLowerCase`, exact on every code unit whose lower-case form
contains a letter `a` to `z`; other characters are left as they are. -/
def toLowerCase (s : Str) : Str :=
  s.flatMap (fun c =>
    if 'A' ≤ c ∧ c ≤ 'Z' then [Char.ofNat (c.toNat + 32)]
    else if c.toNat = 0x0130 then ['i', Char.ofNat 0x0307]
    else if c.toNat = 0x212A then ['k']
    else [c])

/-- Embeds `s.replace(/[^a-z]/g, '')`. -/
def keepLowerLetters (s : Str) : Str := s.filter (fun c => 'a' ≤ c ∧ c ≤ 'z')

/-- Embeds `generateLinkedInUrl(firstName, lastName, company)`: the first of the four candidate
patterns; `toLowerCase` on a value that is not a string is a `TypeError`, whose message
depends on whether the value is `undefined` or `null`. -/
def generateLinkedInUrl (firstName lastName _company : JsVal) : Except Str Str :=
  match firstName with
  | .str first =>
    match lastName with
    | .str last =>
      let cleanFirst := keepLowerLetters (toLowerCase first)
      let cleanLast := keepLowerLetters (toLowerCase last)
      .ok ("https://www.linkedin.com/in/".toList ++ (cleanFirst ++ "-".toList ++ cleanLast)
        ++ "/".toList)
    | .undefined =>
      .error "Cannot read properties of undefined (reading 'toLowerCase')".toList
    | .null => .error "Cannot read properties of null (reading 'toLowerCase')".toList
    | _ => .error "lastName.toLowerCase is not a function".toList
  | .undefined =>
    .error "Cannot read properties of undefined (reading 'toLowerCase')".toList
  | .null => .error "Cannot read properties of null (reading 'toLowerCase')".toList
  | _ => .error "firstName.toLowerCase is not a function".toList

/-- Embeds `enrichSocialProfiles({ firstName, lastName, company })`: the whole body is one
`try`, whose `catch` returns `{}`. -/
def enrichSocialProfiles (env : Env) (firstName lastName company : JsVal) :
    Except Str JsObj :=
  let body : Except Str JsObj := do
    let profiles : JsObj := []
    let profiles ←
      if firstName.truthy && lastName.truthy && company.truthy then do
        let linkedinUrl ← generateLinkedInUrl firstName lastName company
        pure (setProp profiles "linkedin_url".toList (.str linkedinUrl))
      else pure profiles
    if env.apis.webScraper then
      let verifiedProfiles ← env.verifySocialProfiles profiles
      pure (objectAssign profiles verifiedProfiles)
    else pure profiles
  match body with
  | .ok profiles => .ok profiles
  | .error _ => .ok []

/-- The object returned by `enrichContact`; `error` is present on failure only. -/
structure Outcome where
  success : Bool
  data : JsObj
  error : Option Str
  enrichment_details : JsObj

/-- The two locals `enrichedData` and `enrichmentResults` of `enrichContact`. -/
structure EnrichState where
  enrichedData : JsObj
  enrichmentResults : JsObj

/-- The first `if` of the `try` block: email validation. -/
def emailStep (env : Env) (contact : JsObj) (st : EnrichState) : Except Str EnrichState :=
  if env.apis.emailCheck then do
    let emailData ← validateEmail env (getProp contact "email".toList)
    pure { enrichedData :=
             setProp (setProp st.enrichedData "email_valid".toList
               (getProp emailData "valid".toList))
               "email_deliverable".toList (getProp emailData "deliverable".toList)
           enrichmentResults :=
             setProp st.enrichmentResults "email_validation".toList (.obj emailData) }
  else pure st

/-- The second `if` of the `try` block: company enrichment. -/
def companyStep (env : Env) (contact : JsObj) (st : EnrichState) : Except Str EnrichState :=
  if (getProp contact "company_name".toList).truthy ||
      (getProp contact "company_domain".toList).truthy then do
    let companyData ← enrichCompany env (getProp contact "company_name".toList)
      (getProp contact "company_domain".toList)
    pure { enrichedData := objectAssign st.enrichedData companyData
           enrichmentResults :=
             setProp st.enrichmentResults "company_enrichment".toList (.obj companyData) }
  else pure st

/-- The third `if` of the `try` block: local-business lookup. -/
def businessStep (env : Env) (contact : JsObj) (st : EnrichState) : Except Str EnrichState :=
  if env.apis.localBusiness && ((getProp contact "company_name".toList).truthy ||
      (getProp contact "phone".toList).truthy) then do
    let businessData ← enrichLocalBusiness env (getProp contact "company_name".toList)
      (getProp contact "phone".toList) (getProp contact "location".toList)
    pure { enrichedData := objectAssign st.enrichedData businessData
           enrichmentResults :=
             setProp st.enrichmentResults "business_data".toList (.obj businessData) }
  else pure st

/-- The fourth `if` of the `try` block: social profiles. -/
def socialStep (env : Env) (contact : JsObj) (st : EnrichState) : Except Str EnrichState :=
  if (getProp contact "first_name".toList).truthy &&
      (getProp contact "last_name".toList).truthy &&
      (getProp contact "company_name".toList).truthy then do
    let socialData ← enrichSocialProfiles env (getProp contact "first_name".toList)
      (getProp contact "last_name".toList) (getProp contact "company_name".toList)
    pure { enrichedData := objectAssign st.enrichedData socialData
           enrichmentResults :=
             setProp st.enrichmentResults "social_profiles".toList (.obj socialData) }
  else pure st

/-- One statement group of the `try` block: when it throws, control passes to the `catch`
with the message and with `enrichmentResults` as it stood before the group. -/
def runStep (step : EnrichState → Except Str EnrichState) (st : EnrichState) :
    Except (Str × JsObj) EnrichState :=
  match step st with
  | .ok st' => .ok st'
  | .error message => .error (message, st.enrichmentResults)

/-- Embeds `enrichContact(contact)`: `validateRequired` runs before the `try`, so its
`ValidationError` rejects the promise; everything after is inside the `try`. -/
def enrichContact (env : Env) (contact : JsObj) : Except Str Outcome := do
  validateRequired contact ["email".toList]
  let start : EnrichState := { enrichedData := contact, enrichmentResults := [] }
  let body : Except (Str × JsObj) EnrichState := do
    let st ← runStep (emailStep env contact) start
    let st ← runStep (companyStep env contact) st
    let st ← runStep (businessStep env contact) st
    let st ← runStep (socialStep env contact) st
    pure st
  match body with
  | .ok st =>
    pure { success := true
           data := setProp (setProp st.enrichedData "enrichment_timestamp".toList
                     (.str env.now))
                     "enrichment_sources".toList (objectKeys st.enrichmentResults)
           error := none
           enrichment_details := st.enrichmentResults }
  | .error (message, enrichmentResults) =>
    pure { success := false
           data := contact
           error := some message
           enrichment_details := enrichmentResults }

/-- The objects alive during a call, by reference: the object with reference `r` is the
`r`-th entry, and a new object gets the next free reference. -/
abbrev Store := List JsObj

/-- The object a reference points to. -/
def readRef (store : Store) (ref : Nat) : JsObj := store.getD ref []

/-- The store after the object at `ref` has been written. -/
def writeRef (store : Store) (ref : Nat) (o : JsObj) : Store := store.set ref o

/-- The outcome of `enrichContact` with its objects `data` and `enrichment_details` given by
reference. -/
structure OutcomeRef where
  success : Bool
  data : Nat
  error : Option Str
  enrichment_details : Nat

/-- One statement group of the `try` block of `enrichContact`, run on the store: it reads
the contact through its reference and writes to the objects `enrichedData` and
`enrichmentResults` only; when it throws, the store is as it was before the group. -/
def runStepInStore (step : JsObj → EnrichState → Except Str EnrichState)
    (contact enrichedData enrichmentResults : Nat) (store : Store) :
    Except (Str × Store) Store :=
  match step (readRef store contact)
      { enrichedData := readRef store enrichedData
        enrichmentResults := readRef store enrichmentResults } with
  | .ok st =>
    .ok (writeRef (writeRef store enrichedData st.enrichedData)
      enrichmentResults st.enrichmentResults)
  | .error message => .error (message, store)

/-- Embeds `enrichContact(contact)` with the contact passed by reference: `{ ...contact }`
and `{}` allocate the new objects `enrichedData` and `enrichmentResults`; on success the
outcome's `data` is `enrichedData`, in the `catch` it is the contact itself. The result
carries the store after the call. -/
def enrichContactInStore (env : Env) (store : Store) (contact : Nat) :
    Except Str (OutcomeRef × Store) := do
  validateRequired (readRef store contact) ["email".toList]
  let enrichedData := store.length
  let store := store ++ [readRef store contact]
  let enrichmentResults := store.length
  let store := store ++ [[]]
  let body : Except (Str × Store) Store := do
    let store ← runStepInStore (emailStep env) contact enrichedData enrichmentResults store
    let store ← runStepInStore (companyStep env) contact enrichedData enrichmentResults store
    let store ← runStepInStore (businessStep env) contact enrichedData enrichmentResults store
    let store ← runStepInStore (socialStep env) contact enrichedData enrichmentResults store
    pure store
  match body with
  | .ok store =>
    let store := writeRef store enrichedData
      (setProp (setProp (readRef store enrichedData) "enrichment_timestamp".toList
        (.str env.now))
        "enrichment_sources".toList (objectKeys (readRef store enrichmentResults)))
    pure ({ success := true
            data := enrichedData
            error := none
            enrichment_details := enrichmentResults }, store)
  | .error (message, store) =>
    pure ({ success := false
            data := contact
            error := some message
            enrichment_details := enrichmentResults }, store)

/-- The outcome with its references replaced by the objects they point to. -/
def derefOutcome (result : OutcomeRef × Store) : Outcome :=
  { success := result.1.success
    data := readRef result.2 result.1.data
    error := result.1.error
    enrichment_details := readRef result.2 result.1.enrichment_details }

/-- One entry of `errors`: `{ index, contact, error }`. -/
structure BatchError (α : Type) where
  index : Nat
  contact : α
  error : Str

/-- The accumulators `results` and `errors` of `enrichBatch`, with `batches` recording
the successive values of the local `batch` (a trace, not part of the returned object). -/
structure BatchState (α β : Type) where
  results : List β
  errors : List (BatchError α)
  batches : List (List α)

/-- The object returned by `enrichBatch`. -/
structure BatchResult (α β : Type) where
  results : List β
  errors : List (BatchError α)
  total_processed : Nat
  total_errors : Nat

/-- The `options` argument of `enrichBatch`; `none` is an absent `batchSize`. -/
structure BatchOptions where
  batchSize : Option Nat

/-- The `batchResults.forEach((result, index) => ...)` of one chunk starting at `i`:
a fulfilled promise is `Except.ok`, a rejected one `Except.error` with `reason.message`. -/
def settleBatch {α β : Type} (i : Nat) (batch : List α) (batchResults : List (Except Str β))
    (st : BatchState α β) : BatchState α β :=
  (batch.zip batchResults).enum.foldl
    (fun (st : BatchState α β) (entry : Nat × α × Except Str β) =>
      match entry.2.2 with
      | .ok value => { st with results := st.results ++ [value] }
      | .error message =>
        { st with errors := st.errors ++
            [{ index := i + entry.1, contact := entry.2.1, error := message }] })
    st

/-- The chunk loop `for (let i = 0; i < contacts.length; i += batchSize)`, run for at most
`fuel` iterations; `none` when the fuel runs out before the loop ends. The delay between
chunks changes no data; the outer `catch` is not reached, since the promises are settled
by `Promise.allSettled` and every rejection reason carries a message. -/
def enrichBatchLoop {α β : Type} (enrichContact : α → Except Str β) (contacts : List α)
    (batchSize : Nat) : Nat → Nat → BatchState α β → Option (BatchState α β)
  | 0, _, _ => none
  | fuel + 1, i, st =>
    if i < contacts.length then
      let batch := (contacts.drop i).take batchSize
      let batchResults := batch.map enrichContact
      let st := settleBatch i batch batchResults { st with batches := st.batches ++ [batch] }
      enrichBatchLoop enrichContact contacts batchSize fuel (i + batchSize) st
    else some st

/-- Embeds `options.batchSize || 10`. -/
def effectiveBatchSize (options : BatchOptions) : Nat :=
  match options.batchSize with
  | some b => if b = 0 then 10 else b
  | none => 10

/-- The run of `enrichBatch` up to the `return`, with `contacts.length + 1` iterations of
fuel. -/
def enrichBatchRun {α β : Type} (enrichContact : α → Except Str β) (contacts : List α)
    (options : BatchOptions) : Option (BatchState α β) :=
  enrichBatchLoop enrichContact contacts (effectiveBatchSize options)
    (contacts.length + 1) 0 { results := [], errors := [], batches := [] }

/-- Embeds `enrichBatch(contacts, options)`, with the per-contact call `this.enrichContact` as a
parameter. -/
def enrichBatch {α β : Type} (enrichContact : α → Except Str β) (contacts : List α)
    (options : BatchOptions) : Option (BatchResult α β) :=
  (enrichBatchRun enrichContact contacts options).map (fun st =>
    { results := st.results
      errors := st.errors
      total_processed := st.results.length
      total_errors := st.errors.length })

/-- The entry `enrichBatch` pushes to `errors` for the contact `jc.2` at position `jc.1` of
the input list when its promise is rejected; `none` when it is fulfilled. -/
def rejectionEntry {α β : Type} (enrichContact : α → Except Str β) (jc : Nat × α) :
    Option (BatchError α) :=
  match enrichContact jc.2 with
  | .ok _ => none
  | .error message => some { index := jc.1, contact := jc.2, error := message }

/-! ## FileParserService: mapping suggestions, data quality, column types -/

/-- Embeds `s.includes(pattern)`: the pattern occurs as a contiguous substring. -/
def includes : Str → Str → Bool
  | [], pattern => pattern.isEmpty
  | c :: cs, pattern => pattern.isPrefixOf (c :: cs) || includes cs pattern

/-- The table `mappingRules` of `generateFieldMappingSuggestions`, in the order in which
`Object.entries` enumerates it. -/
def mappingRules : List (Str × List Str) :=
  [("email".toList,
      ["email".toList, "e-mail".toList, "email_address".toList, "mail".toList,
       "email address".toList]),
   ("first_name".toList,
      ["first_name".toList, "firstname".toList, "first name".toList, "fname".toList,
       "given_name".toList]),
   ("last_name".toList,
      ["last_name".toList, "lastname".toList, "last name".toList, "lname".toList,
       "surname".toList, "family_name".toList]),
   ("company_name".toList,
      ["company".toList, "company_name".toList, "organization".toList, "org".toList,
       "business".toList, "company name".toList]),
   ("job_title".toList,
      ["title".toList, "job_title".toList, "position".toList, "role".toList,
       "job title".toList, "job_position".toList]),
   ("phone".toList,
      ["phone".toList, "telephone".toList, "mobile".toList, "cell".toList,
       "phone_number".toList, "tel".toList]),
   ("linkedin_url".toList,
      ["linkedin".toList, "linkedin_url".toList, "linkedin profile".toList,
       "linkedin_profile".toList]),
   ("industry".toList, ["industry".toList, "sector".toList, "business_type".toList]),
   ("location".toList,
      ["location".toList, "address".toList, "city".toList, "country".toList,
       "region".toList]),
   ("company_size".toList,
      ["company_size".toList, "employees".toList, "employee_count".toList,
       "size".toList])]

/-- The header normalisation
`header.toLowerCase().replace(/[^a-z0-9_\s]/g, '').trim()`. -/
def normalizeHeader (header : Str) : Str :=
  trim ((toLowerCase header).filter
    (fun c => ('a' ≤ c && c ≤ 'z') || ('0' ≤ c && c ≤ '9') || c == '_' || isJsWhitespace c))

/-- The inner loop `for (const [fieldName, patterns] of Object.entries(mappingRules))` with
its `break`: the first rule one of whose patterns the normalised header includes. -/
def matchField (normalizedHeader : Str) : Option Str :=
  (mappingRules.find?
    (fun rule => rule.2.any (fun pattern => includes normalizedHeader pattern))).map
    (fun rule => rule.1)

/-- Embeds `generateFieldMappingSuggestions(headers)`. -/
def generateFieldMappingSuggestions (headers : List Str) : JsObj :=
  headers.foldl
    (fun (suggestions : JsObj) (header : Str) =>
      match matchField (normalizeHeader header) with
      | some fieldName => setProp suggestions fieldName (.str header)
      | none => suggestions)
    []

mutual
/-- The conversion `String(v)` applied by `RegExp.prototype.test` to its argument. -/
def jsToString : JsVal → Str
  | .undefined => "undefined".toList
  | .null => "null".toList
  | .bool b => if b then "true".toList else "false".toList
  | .num n => (toString n).toList
  | .str s => s
  | .arr xs => jsJoinElements xs
  | .obj _ => "[object Object]".toList
  | .fn name => "function ".toList ++ name ++ "() \x7b [native code] \x7d".toList
  | .objectPrototype => "[object Object]".toList
/-- The text of an array: its elements joined by commas, `null` and `undefined` as the
empty string. -/
def jsJoinElements : List JsVal → Str
  | [] => []
  | x :: rest =>
    (match x with
      | .undefined => []
      | .null => []
      | v => jsToString v) ++
    (match rest with
      | [] => []
      | _ :: _ => ',' :: jsJoinElements rest)
end

/-- The character class `[^\s@]` of the email pattern. -/
def isEmailChar (c : Char) : Bool := !isJsWhitespace c && c != '@'

/-- The test of `/^[^\s@]+@[^\s@]+\.[^\s@]+$/` on a string: a non-empty run of class
characters, an `@`, then class characters to the end with a dot that is neither the first
nor the last of them. -/
def emailRegexTest (s : Str) : Bool :=
  match s.dropWhile isEmailChar with
  | '@' :: domain =>
    s.takeWhile isEmailChar != [] && domain.all isEmailChar &&
      (domain.drop 1).dropLast.contains '.'
  | _ => false

/-- Embeds `isValidEmail(email)` of `BaseService`. -/
def isValidEmail (email : JsVal) : Bool := emailRegexTest (jsToString email)

/-- Embeds `xs.every(callback)` for a callback that may throw. -/
def every {α : Type} (callback : α → Except Str Bool) : List α → Except Str Bool
  | [] => .ok true
  | x :: xs =>
    match callback x with
    | .error message => .error message
    | .ok false => .ok false
    | .ok true => every callback xs

/-- Embeds `xs.filter(callback)` for a callback that may throw. -/
def filterThrowing {α : Type} (callback : α → Except Str Bool) :
    List α → Except Str (List α)
  | [] => .ok []
  | x :: xs =>
    match callback x with
    | .error message => .error message
    | .ok keep =>
      match filterThrowing callback xs with
      | .error message => .error message
      | .ok rest => .ok (if keep then x :: rest else rest)

/-- The test `!row[header] || row[header].trim() === ''` on the value `row[header]`:
calling `trim` on a truthy value that is not a string is a `TypeError`. -/
def isEmptyCell (v : JsVal) : Except Str Bool :=
  if !v.truthy then .ok true
  else
    match v with
    | .str s => .ok (trim s == [])
    | _ => .error "row[header].trim is not a function".toList

/-- The array `emptyColumns` of `assessDataQuality`. -/
def emptyColumns (headers : List Str) (sampleData : List JsObj) : Except Str (List Str) :=
  filterThrowing
    (fun header => every (fun row => isEmptyCell (jsRead row header)) sampleData)
    headers

/-- The array `duplicateHeaders` of `assessDataQuality`:
`headers.filter((header, index) => headers.indexOf(header) !== index)`. -/
def duplicateHeaders (headers : List Str) : List Str :=
  (headers.enum.filter (fun ih => headers.indexOf ih.2 != ih.1)).map (fun ih => ih.2)

/-- The array `emailColumns` of `assessDataQuality`. -/
def emailColumns (headers : List Str) : List Str :=
  headers.filter (fun header =>
    includes (toLowerCase header) "email".toList || includes (toLowerCase header) "mail".toList)

/-- The array `emailSamples` for one column: `sampleData.map(row => row[column])
.filter(Boolean)`. -/
def emailSamples (sampleData : List JsObj) (column : Str) : List JsVal :=
  (sampleData.map (fun row => jsRead row column)).filter JsVal.truthy

/-- The condition `emailSamples.length > 0 && validEmails.length / emailSamples.length <
0.8`. The quotient of two array lengths is below the double `0.8` exactly when five times
the numerator is below four times the denominator, which is how it is computed here. -/
def poorEmailFormat (sampleData : List JsObj) (column : Str) : Bool :=
  let samples := emailSamples sampleData column
  let validEmails := samples.filter isValidEmail
  decide (samples.length > 0) && decide (5 * validEmails.length < 4 * samples.length)

/-- The object `quality` returned by `assessDataQuality`. -/
structure DataQuality where
  overall_score : Int
  issues : List Str
  recommendations : List Str

/-- Embeds `assessDataQuality(parsedData)`; the only statement that can throw is the
empty-column test. -/
def assessDataQuality (parsedData : ParsedData) : Except Str DataQuality :=
  match emptyColumns parsedData.headers parsedData.sampleData with
  | .error message => .error message
  | .ok empty =>
    let quality : List Str × List Str := ([], [])
    let quality :=
      if empty.length > 0 then
        (quality.1 ++ ["Empty columns detected: ".toList ++ join ", ".toList empty],
         quality.2 ++ ["Consider removing empty columns before processing".toList])
      else quality
    let duplicates := duplicateHeaders parsedData.headers
    let quality :=
      if duplicates.length > 0 then
        (quality.1 ++ ["Duplicate headers detected: ".toList ++ join ", ".toList duplicates],
         quality.2 ++ ["Rename duplicate column headers".toList])
      else quality
    let quality := (emailColumns parsedData.headers).foldl
      (fun (quality : List Str × List Str) (column : Str) =>
        if poorEmailFormat parsedData.sampleData column then
          (quality.1 ++ ["Poor email format in column: ".toList ++ column],
           quality.2 ++ ["Clean email data before enrichment".toList])
        else quality)
      quality
    let baseScore : Int := 100
    let issuesPenalty : Int := quality.1.length * 10
    .ok { overall_score := max 0 (baseScore - issuesPenalty)
          issues := quality.1
          recommendations := quality.2 }

/-- The platform functions `detectColumnTypes` relies on: whether `new URL(value)`
succeeds, whether `parseFloat(value)` is `NaN`, whether `Date.parse(value)` is `NaN`. -/
structure Platform where
  urlParses : JsVal → Bool
  parseFloatIsNaN : JsVal → Bool
  dateParseIsNaN : JsVal → Bool

/-- Embeds `isValidUrl(url)` of `BaseService`. -/
def isValidUrl (platform : Platform) (url : JsVal) : Bool := platform.urlParses url

/-- Embeds `detectColumnTypes(parsedData)`. -/
def detectColumnTypes (platform : Platform) (parsedData : ParsedData) : JsObj :=
  parsedData.headers.foldl
    (fun (types : JsObj) (header : Str) =>
      let values := (parsedData.sampleData.map (fun row => jsRead row header)).filter
        JsVal.truthy
      if values.length = 0 then jsAssign types header (.str "unknown".toList)
      else if values.any isValidEmail then jsAssign types header (.str "email".toList)
      else if values.any (isValidUrl platform) then jsAssign types header (.str "url".toList)
      else if values.all (fun value => !platform.parseFloatIsNaN value) then
        jsAssign types header (.str "number".toList)
      else if values.any (fun value => !platform.dateParseIsNaN value) then
        jsAssign types header (.str "date".toList)
      else jsAssign types header (.str "text".toList))
    []

/-! ## Fixtures -/

/-- An environment with every collaborator disabled and the network down. -/
def offlineEnv : Env where
  apis := { emailCheck := false, whois := false, lakeB2B := false,
            localBusiness := false, webScraper := false }
  makeRequest := fun _ => .error "Request failed after 3 attempts: fetch failed".toList
  checkRateLimit := fun _ => .ok ()
  verifySocialProfiles := fun _ => .error "this.verifySocialProfiles is not a function".toList
  now := "2025-01-01T00:00:00.000Z".toList
  ageYears := fun _ => .num 0
  textGtZero := fun _ => false

/-- The environment `offlineEnv` with only the local-business API key configured. -/
def localBusinessDownEnv : Env :=
  { offlineEnv with apis := { offlineEnv.apis with localBusiness := true } }

/-- A per-contact call over numbered contacts that rejects for contact `12` only. -/
def failsOnTwelve (contact : Nat) : Except Str Nat :=
  if contact = 12 then .error "lookup failed".toList else .ok (contact * 2)

/-- A contact with an email, both names and a company. -/
def annaContact : JsObj :=
  [("email".toList, .str "annasmith@x.com".toList),
   ("first_name".toList, .str "Anna".toList),
   ("last_name".toList, .str "Smith".toList),
   ("company_name".toList, .str "Acme".toList)]

/-- A store holding one other object and then the contact `annaContact`, at reference 1. -/
def annaStore : Store := [[("id".toList, .num 7)], annaContact]

/-- A CSV text with three distinct headers, a short data line and a long one. -/
def zipContent : Str := "a,b,c\n1,2\n1,2,3,4".toList

/-- The table `parseCSV` returns for `zipContent`. -/
def zipTable : ParsedData :=
  { headers := ["a".toList, "b".toList, "c".toList]
    sampleData :=
      [[("a".toList, .str "1".toList), ("b".toList, .str "2".toList),
        ("c".toList, .str [])],
       [("a".toList, .str "1".toList), ("b".toList, .str "2".toList),
        ("c".toList, .str "3".toList)]]
    totalRows := 2
    delimiter := [','] }

/-- A CSV text with the header `name` twice, an empty column `notes` and a column of
well-formed emails. -/
def qualityContent : Str :=
  "name,email,notes,name\nAnn,ann@x.com,,Ann\nBob,bob@x.com, ,Bob".toList

/-- The table `parseCSV` returns for `qualityContent`. -/
def qualityTable : ParsedData :=
  { headers := ["name".toList, "email".toList, "notes".toList, "name".toList]
    sampleData :=
      [[("name".toList, .str "Ann".toList), ("email".toList, .str "ann@x.com".toList),
        ("notes".toList, .str [])],
       [("name".toList, .str "Bob".toList), ("email".toList, .str "bob@x.com".toList),
        ("notes".toList, .str [])]]
    totalRows := 2
    delimiter := [','] }

/-- A table with one column `Email` of five values, `valid` of which are well formed. -/
def emailTable (valid : Nat) : ParsedData :=
  { headers := ["Email".toList]
    sampleData := (List.range 5).map (fun i =>
      [("Email".toList,
        JsVal.str (if i < valid then "user@example.com".toList else "not-an-email".toList))])
    totalRows := 5
    delimiter := [','] }

/-- A CSV text with the one column `Email` and five data lines, `valid` of them well
formed. -/
def emailContent (valid : Nat) : Str :=
  "Email".toList ++ (List.range 5).flatMap (fun i =>
    '\n' :: (if i < valid then "user@example.com".toList else "not-an-email".toList))

/-- Stand-ins for the platform parsers: a URL starts with `http`, a number starts with a
digit, nothing is a date. -/
def samplePlatform : Platform :=
  { urlParses := fun v => "http".toList.isPrefixOf (jsToString v)
    parseFloatIsNaN := fun v =>
      match jsToString v with
      | c :: _ => !('0' ≤ c && c ≤ '9')
      | [] => true
    dateParseIsNaN := fun _ => true }

/-- A table with a column mixing one email with other text, a numeric column and an
empty column. -/
def typesTable : ParsedData :=
  { headers := ["contact".toList, "age".toList, "site".toList, "blank".toList]
    sampleData :=
      [[("contact".toList, .str "call me".toList), ("age".toList, .str "41".toList),
        ("site".toList, .str "http://x.com".toList), ("blank".toList, .str [])],
       [("contact".toList, .str "ann@x.com".toList), ("age".toList, .str "7".toList),
        ("site".toList, .str "none".toList), ("blank".toList, .str [])]]
    totalRows := 2
    delimiter := [','] }

/-- An environment in which the WHOIS and scrape requests succeed and the company
directory request fails, with the three company sub-lookups enabled. -/
def companyEnv : Env :=
  { offlineEnv with
    apis := { emailCheck := false, whois := true, lakeB2B := true,
              localBusiness := false, webScraper := true }
    makeRequest := fun request =>
      match request with
      | .whois _ =>
        .ok (.obj [("WhoisRecord".toList,
          .obj [("createdDate".toList, .str "2000-01-01".toList),
                ("registrarName".toList, .str "Registrar".toList)])])
      | .scrape _ => .ok (.obj [("title".toList, .str "Acme".toList)])
      | _ => .error "Request failed after 3 attempts: HTTP 500".toList }

/-- The environment `offlineEnv` with only the web-scraper key configured. -/
def scraperEnv : Env :=
  { offlineEnv with apis := { offlineEnv.apis with webScraper := true } }

/-- The generated profile URL for a first and a last name held as strings. -/
def linkedInUrl (first last : Str) : Str :=
  "https://www.linkedin.com/in/".toList ++
    (keepLowerLetters (toLowerCase first) ++ "-".toList ++
      keepLowerLetters (toLowerCase last)) ++ "/".toList

/-- The text of the end-to-end scenario: a header line and two data lines. -/
def scenarioText : Str := "email,company\nannasmith@x.com,Acme\n,Beta\n".toList

/-- The column mapping of the end-to-end scenario. -/
def scenarioMapping : List (Str × Str) :=
  [("email".toList, "email".toList), ("company_name".toList, "company".toList)]

/-- The first contact of the end-to-end scenario. -/
def acmeContact : JsObj :=
  [("email".toList, .str "annasmith@x.com".toList),
   ("company_name".toList, .str "Acme".toList)]

/-- The second contact of the end-to-end scenario, whose email is the empty string. -/
def betaContact : JsObj :=
  [("email".toList, .str []), ("company_name".toList, .str "Beta".toList)]

/-- A contact that already carries a profile URL and a field outside the canonical set. -/
def carriedContact : JsObj :=
  [("email".toList, .str "annasmith@x.com".toList),
   ("first_name".toList, .str "Anna".toList),
   ("last_name".toList, .str "Smith".toList),
   ("company_name".toList, .str "Acme".toList),
   ("linkedin_url".toList, .str "https://www.linkedin.com/in/anna/".toList),
   ("title".toList, .str "CTO".toList)]

/-! ## Lemmas: lists and strings -/

theorem foldl_push_filter {α β : Type} (p : α → Bool) (f : α → β) (l : List α) (init : List β) :
    l.foldl (fun acc x => if p x then acc ++ [f x] else acc) init =
      init ++ (l.filter p).map f := by
  induction l generalizing init with
  | nil => simp
  | cons x xs ih =>
    simp only [List.foldl_cons, ih]
    by_cases hx : p x = true
    · simp [hx, List.filter_cons]
    · simp [hx, List.filter_cons]

theorem foldl_push_map {α β : Type} (f : α → β) (l : List α) (init : List β) :
    l.foldl (fun acc x => acc ++ [f x]) init = init ++ l.map f := by
  induction l generalizing init with
  | nil => simp
  | cons x xs ih => simp [ih]

theorem trim_eq_nil_iff (s : Str) : trim s = [] ↔ ∀ c ∈ s, isJsWhitespace c = true := by
  unfold trim trimEnd trimStart
  rw [List.reverse_eq_nil_iff, List.dropWhile_eq_nil_iff]
  constructor
  · intro h
    rcases hd : List.dropWhile isJsWhitespace s with _ | ⟨x, xs⟩
    · exact List.dropWhile_eq_nil_iff.mp hd
    · exfalso
      have hx : isJsWhitespace x = true := h x (by simp [hd])
      have hne : List.dropWhile isJsWhitespace s ≠ [] := by simp [hd]
      have := List.head_dropWhile_not isJsWhitespace s hne
      simp [hd, hx] at this
  · intro h
    have : List.dropWhile isJsWhitespace s = [] := List.dropWhile_eq_nil_iff.mpr h
    simp [this]

theorem split_ne_nil (sep : Char) (s : Str) : split sep s ≠ [] := by
  induction s with
  | nil => simp [split]
  | cons c cs ih =>
    unfold split
    split
    · simp
    · split <;> simp

theorem parseCSVLineLoop_nil (delimiter : Str) (result : List Str) (current : Str)
    (inQuotes : Bool) :
    parseCSVLineLoop delimiter [] result current inQuotes = result ++ [trim current] := by
  rw [parseCSVLineLoop.eq_def]

theorem parseCSVLineLoop_escaped (delimiter : Str) (rest : Str) (result : List Str)
    (current : Str) :
    parseCSVLineLoop delimiter ('"' :: '"' :: rest) result current true =
      parseCSVLineLoop delimiter rest result (current ++ ['"']) true := by
  rw [parseCSVLineLoop.eq_def]; simp

theorem parseCSVLineLoop_open (delimiter : Str) (rest : Str) (result : List Str)
    (current : Str) :
    parseCSVLineLoop delimiter ('"' :: rest) result current false =
      parseCSVLineLoop delimiter rest result current true := by
  rw [parseCSVLineLoop.eq_def]
  cases rest <;> simp

theorem parseCSVLineLoop_close (delimiter : Str) (rest : Str) (result : List Str)
    (current : Str) (h : rest.head? ≠ some '"') :
    parseCSVLineLoop delimiter ('"' :: rest) result current true =
      parseCSVLineLoop delimiter rest result current false := by
  rw [parseCSVLineLoop.eq_def]
  cases rest with
  | nil => simp
  | cons c2 rest2 =>
    have : c2 ≠ '"' := by simpa using h
    simp [this]

theorem parseCSVLineLoop_delimiter (c : Char) (rest : Str) (result : List Str)
    (current : Str) (hc : c ≠ '"') :
    parseCSVLineLoop [c] (c :: rest) result current false =
      parseCSVLineLoop [c] rest (result ++ [trim current]) [] false := by
  rw [parseCSVLineLoop.eq_def]; simp [hc]

theorem parseCSVLineLoop_plain (delimiter : Str) (c : Char) (rest : Str) (result : List Str)
    (current : Str) (inQuotes : Bool) (hc : c ≠ '"')
    (h : inQuotes = true ∨ [c] ≠ delimiter) :
    parseCSVLineLoop delimiter (c :: rest) result current inQuotes =
      parseCSVLineLoop delimiter rest result (current ++ [c]) inQuotes := by
  rw [parseCSVLineLoop.eq_def]
  rcases h with h | h
  · simp [hc, h]
  · simp [hc, h]

theorem parseCSVLineLoop_length_pos (delimiter : Str) (line : Str) (result : List Str)
    (current : Str) (inQuotes : Bool) :
    1 ≤ (parseCSVLineLoop delimiter line result current inQuotes).length := by
  induction line, result, current, inQuotes using parseCSVLineLoop.induct delimiter with
  | case1 result current inQuotes => simp [parseCSVLineLoop]
  | case2 result current inQuotes ih => simp [parseCSVLineLoop]
  | case3 result current inQuotes c2 rest2 h ih => simpa [parseCSVLineLoop, h] using ih
  | case4 result current inQuotes c2 rest2 h ih => simpa [parseCSVLineLoop, h] using ih
  | case5 c rest result current inQuotes hc h ih =>
    rw [parseCSVLineLoop.eq_def]; simp only [if_neg hc, if_pos h]; exact ih
  | case6 c rest result current inQuotes hc h ih =>
    rw [parseCSVLineLoop.eq_def]; simp only [if_neg hc, if_neg h]; exact ih

theorem parseCSVLine_length_pos (line delimiter : Str) :
    1 ≤ (parseCSVLine line delimiter).length :=
  parseCSVLineLoop_length_pos delimiter line [] [] false

/-- A run of quote-free characters is appended to `current` unchanged when the scanner is
inside quotes, or when the run holds no delimiter. -/
theorem parseCSVLineLoop_run (delimiter : Str) (s rest : Str) (result : List Str)
    (current : Str) (inQuotes : Bool) (hq : '"' ∉ s)
    (h : inQuotes = true ∨ ∀ c ∈ s, [c] ≠ delimiter) :
    parseCSVLineLoop delimiter (s ++ rest) result current inQuotes =
      parseCSVLineLoop delimiter rest result (current ++ s) inQuotes := by
  induction s generalizing current with
  | nil => simp
  | cons c cs ih =>
    have hc : c ≠ '"' := fun hEq => hq (by simp [hEq])
    have hcs : '"' ∉ cs := fun hMem => hq (List.mem_cons_of_mem _ hMem)
    have h1 : inQuotes = true ∨ [c] ≠ delimiter := by
      rcases h with h | h
      · exact Or.inl h
      · exact Or.inr (h c (by simp))
    have h2 : inQuotes = true ∨ ∀ c ∈ cs, [c] ≠ delimiter := by
      rcases h with h | h
      · exact Or.inl h
      · exact Or.inr (fun x hx => h x (List.mem_cons_of_mem _ hx))
    rw [List.cons_append, parseCSVLineLoop_plain delimiter c _ result current inQuotes hc h1,
      ih (current ++ [c]) hcs h2]
    simp

/-! ## Lemmas: parseCSV -/

theorem trim_ne_nil_eq_any (line : Str) :
    (trim line != []) = line.any (fun c => !isJsWhitespace c) := by
  rw [Bool.eq_iff_iff]
  simp only [bne_iff_ne, ne_eq, trim_eq_nil_iff, List.any_eq_true, Bool.not_eq_true']
  constructor
  · intro h
    by_contra hcon
    apply h
    intro c hc
    by_contra hw
    exact hcon ⟨c, hc, by simpa using hw⟩
  · rintro ⟨c, hc, hw⟩ h
    simp [h c hc] at hw

theorem contentLines_eq (content : Str) :
    contentLines content =
      (split '\n' content).filter (fun line => line.any (fun c => !isJsWhitespace c)) := by
  unfold contentLines
  congr 1
  funext line
  exact trim_ne_nil_eq_any line

theorem mem_contentLines {content line : Str} (h : line ∈ contentLines content) :
    trim line ≠ [] := by
  unfold contentLines at h
  simpa using (List.mem_filter.mp h).2

theorem sampleLoop_length (lines headers : List Str) (delimiter : Str) (maxSamples : Nat)
    (hlines : ∀ line ∈ lines, trim line ≠ []) (hmax : maxSamples ≤ lines.length) :
    (sampleLoop lines headers delimiter maxSamples).length = maxSamples - 1 := by
  unfold sampleLoop
  have hfold := foldl_push_filter
    (fun i => lines.getD i [] != [] && trim (lines.getD i []) != [])
    (fun i => rowObject headers (parseCSVLine (lines.getD i []) delimiter))
    (List.range' 1 (maxSamples - 1)) []
  simp only [List.nil_append] at hfold
  rw [hfold]
  have hall : ∀ i ∈ List.range' 1 (maxSamples - 1),
      (lines.getD i [] != [] && trim (lines.getD i []) != []) = true := by
    intro i hi
    rw [List.mem_range'_1] at hi
    have hlt : i < lines.length := by omega
    have hmem : lines.getD i [] ∈ lines := by
      rw [List.getD_eq_getElem lines [] hlt]
      exact List.getElem_mem hlt
    have htrim : trim (lines.getD i []) ≠ [] := hlines _ hmem
    have hne : lines.getD i [] ≠ [] := by
      intro hnil
      apply htrim
      rw [hnil]
      rfl
    rw [Bool.and_eq_true, bne_iff_ne, bne_iff_ne]
    exact ⟨hne, htrim⟩
  rw [List.filter_eq_self.mpr hall]
  simp

theorem convertToStandardFormat_length (parsedData : ParsedData)
    (columnMapping : List (Str × Str)) :
    (convertToStandardFormat parsedData columnMapping).length =
      parsedData.sampleData.length := by
  unfold convertToStandardFormat
  have h := foldl_push_map
    (fun (row : JsObj) => columnMapping.foldl
      (fun (standardRow : JsObj) (entry : Str × Str) =>
        if !(jsRead row entry.2).isUndefined then
          jsAssign standardRow entry.1 (jsRead row entry.2)
        else standardRow) [])
    parsedData.sampleData []
  simp only [List.nil_append] at h
  rw [h]
  simp

theorem parseCSV_ok_of_lines (content : Str) (h : contentLines content ≠ []) :
    ∃ t, parseCSV content = .ok t ∧ 1 ≤ t.headers.length ∧
      t.totalRows = (contentLines content).length - 1 ∧
      t.sampleData.length = min 5 t.totalRows := by
  have hlen : (contentLines content).length ≠ 0 := by
    simpa [List.length_eq_zero] using h
  have hhead := parseCSVLine_length_pos ((contentLines content).getD 0 [])
    (detectCSVDelimiter ((contentLines content).getD 0 []))
  refine ⟨{ headers := (parseCSVLine ((contentLines content).getD 0 [])
              (detectCSVDelimiter ((contentLines content).getD 0 []))).map trim,
            sampleData := sampleLoop (contentLines content)
              (parseCSVLine ((contentLines content).getD 0 [])
                (detectCSVDelimiter ((contentLines content).getD 0 [])))
              (detectCSVDelimiter ((contentLines content).getD 0 []))
              (min 6 (contentLines content).length),
            totalRows := (contentLines content).length - 1,
            delimiter := detectCSVDelimiter ((contentLines content).getD 0 []) },
    ?_, ?_, ?_, ?_⟩
  · unfold parseCSV
    simp only [hlen, if_false]
    rw [if_neg (by omega)]
  · simpa using hhead
  · rfl
  · simp only
    rw [sampleLoop_length _ _ _ _ (fun line hl => mem_contentLines hl) (Nat.min_le_right _ _)]
    omega

/-! ## Theorems: parser claims -/

/-- C1 (code behaviour at the failing input): for a CSV text with a header and six data
rows, `parseCSV` reports `totalRows = 6` but `convertToStandardFormat` returns only five
contacts, because it reads `sampleData`, the preview of at most five rows. -/
theorem convertToStandardFormat_sample_only :
    (parseCSV "email\na@x.com\nb@x.com\nc@x.com\nd@x.com\ne@x.com\nf@x.com".toList).toOption.map
      (fun t => (t.totalRows,
        (convertToStandardFormat t [("email".toList, "email".toList)]).length)) =
      some (6, 5) := by
  decide

/-- C7: a delimiter inside a double-quoted region does not split the field and the
enclosing quotes are removed: for quote-free, comma-free, trimmed `a` and `d` and a
quote-free `m`, the line `a,"m",d` parses to `[a, trim m, d]`. -/
theorem parseCSVLine_quoted_field (a m d : Str)
    (ha : '"' ∉ a) (hac : ',' ∉ a) (hat : trim a = a)
    (hd : '"' ∉ d) (hdc : ',' ∉ d) (hdt : trim d = d)
    (hm : '"' ∉ m) :
    parseCSVLine (a ++ [','] ++ ['"'] ++ m ++ ['"'] ++ [','] ++ d) [','] =
      [a, trim m, d] := by
  have hshape : a ++ [','] ++ ['"'] ++ m ++ ['"'] ++ [','] ++ d =
      a ++ (',' :: '"' :: (m ++ ('"' :: ',' :: (d ++ [])))) := by simp
  have hnoA : ∀ c ∈ a, [c] ≠ [','] := by
    intro c hc hEq
    apply hac
    have : c = ',' := by simpa using hEq
    rwa [this] at hc
  have hnoD : ∀ c ∈ d, [c] ≠ [','] := by
    intro c hc hEq
    apply hdc
    have : c = ',' := by simpa using hEq
    rwa [this] at hc
  unfold parseCSVLine
  rw [hshape,
    parseCSVLineLoop_run [','] a _ [] [] false ha (Or.inr hnoA),
    parseCSVLineLoop_delimiter ',' _ _ _ (by decide),
    parseCSVLineLoop_open,
    parseCSVLineLoop_run [','] m _ _ [] true hm (Or.inl rfl),
    parseCSVLineLoop_close [','] _ _ _ (by simp),
    parseCSVLineLoop_delimiter ',' _ _ _ (by decide),
    parseCSVLineLoop_run [','] d [] _ [] false hd (Or.inr hnoD),
    parseCSVLineLoop_nil]
  simp [hat, hdt]

/-- C7 witness: the line `a,"b,c",d` parses to `["a", "b,c", "d"]`. -/
theorem parseCSVLine_quoted_field_witness :
    parseCSVLine "a,\"b,c\",d".toList [','] = ["a".toList, "b,c".toList, "d".toList] :=
  parseCSVLine_quoted_field "a".toList "b,c".toList "d".toList
    (by decide) (by decide) (by decide) (by decide) (by decide) (by decide) (by decide)

/-- C8: inside a quoted field a doubled quote becomes one literal quote and the scanner
stays inside the quoted region; the line `"he said ""hi""",x` parses to exactly the two
fields `he said "hi"` and `x`. -/
theorem parseCSVLine_escaped_quote :
    (∀ (delimiter rest : Str) (result : List Str) (current : Str),
      parseCSVLineLoop delimiter ('"' :: '"' :: rest) result current true =
        parseCSVLineLoop delimiter rest result (current ++ ['"']) true) ∧
    parseCSVLine "\"he said \"\"hi\"\"\",x".toList [','] =
      ["he said \"hi\"".toList, "x".toList] :=
  ⟨parseCSVLineLoop_escaped, by decide⟩

/-- C9: for every text with at least one non-blank line (a line holding a non-whitespace
character), `parseCSV` succeeds with at least one header, `totalRows` equal to the number
of non-blank lines minus one, and `min 5 totalRows` sample rows. -/
theorem parseCSV_shape (content : Str)
    (h : ∃ line ∈ split '\n' content, ∃ c ∈ line, isJsWhitespace c = false) :
    ∃ t, parseCSV content = .ok t ∧ 1 ≤ t.headers.length ∧
      t.totalRows =
        ((split '\n' content).countP (fun line => line.any (fun c => !isJsWhitespace c))) - 1 ∧
      t.sampleData.length = min 5 t.totalRows := by
  have hne : contentLines content ≠ [] := by
    obtain ⟨line, hline, c, hc, hw⟩ := h
    rw [contentLines_eq]
    apply List.ne_nil_of_mem (a := line)
    rw [List.mem_filter]
    exact ⟨hline, by simp only [List.any_eq_true]; exact ⟨c, hc, by simp [hw]⟩⟩
  obtain ⟨t, hok, hhead, htotal, hsample⟩ := parseCSV_ok_of_lines content hne
  refine ⟨t, hok, hhead, ?_, hsample⟩
  rw [htotal, contentLines_eq, List.countP_eq_length_filter]

/-- C9 witness: a header line and seven data rows, one blank line among them. -/
theorem parseCSV_shape_witness :
    ∃ t, parseCSV "h\n1\n2\n \n3\n4\n5\n6\n7".toList = .ok t ∧ 1 ≤ t.headers.length ∧
      t.totalRows =
        ((split '\n' "h\n1\n2\n \n3\n4\n5\n6\n7".toList).countP
          (fun line => line.any (fun c => !isJsWhitespace c))) - 1 ∧
      t.sampleData.length = min 5 t.totalRows :=
  parseCSV_shape "h\n1\n2\n \n3\n4\n5\n6\n7".toList
    ⟨"h".toList, by decide, 'h', by decide, by decide⟩

/-- C10: `parseCSV` fails with 'File appears to be empty' exactly when every line obtained
by splitting on newline is empty after trimming. -/
theorem parseCSV_empty_iff (content : Str) :
    parseCSV content = .error "File appears to be empty".toList ↔
      ∀ line ∈ split '\n' content, trim line = [] := by
  constructor
  · intro herr
    by_contra hcon
    have hne : contentLines content ≠ [] := by
      push_neg at hcon
      obtain ⟨line, hline, htrim⟩ := hcon
      apply List.ne_nil_of_mem (a := line)
      unfold contentLines
      rw [List.mem_filter]
      exact ⟨hline, by simpa using htrim⟩
    obtain ⟨t, hok, _⟩ := parseCSV_ok_of_lines content hne
    rw [hok] at herr
    cases herr
  · intro hall
    have hnil : contentLines content = [] := by
      unfold contentLines
      rw [List.filter_eq_nil_iff]
      intro line hline
      simp [hall line hline]
    unfold parseCSV
    simp [hnil]

/-! ## Lemmas: enrichBatch -/

theorem settleBatch_from {α β : Type} (enrichContact : α → Except Str β) (i : Nat)
    (batch : List α) (n : Nat) (st : BatchState α β) :
    ((batch.zip (batch.map enrichContact)).enumFrom n).foldl
      (fun (st : BatchState α β) (entry : Nat × α × Except Str β) =>
        match entry.2.2 with
        | .ok value => { st with results := st.results ++ [value] }
        | .error message =>
          { st with errors := st.errors ++
              [{ index := i + entry.1, contact := entry.2.1, error := message }] })
      st =
    { results := st.results ++ batch.filterMap (fun c => (enrichContact c).toOption)
      errors := st.errors ++
        (batch.enumFrom (i + n)).filterMap (rejectionEntry enrichContact)
      batches := st.batches } := by
  induction batch generalizing n st with
  | nil => simp
  | cons c cs ih =>
    simp only [List.map_cons, List.zip_cons_cons, List.enumFrom_cons, List.foldl_cons]
    rw [ih]
    cases h : enrichContact c with
    | ok value =>
      simp [List.filterMap_cons, rejectionEntry, h, Except.toOption, Nat.add_assoc]
    | error message =>
      simp [List.filterMap_cons, rejectionEntry, h, Except.toOption, Nat.add_assoc]

theorem settleBatch_eq {α β : Type} (enrichContact : α → Except Str β) (i : Nat)
    (batch : List α) (st : BatchState α β) :
    settleBatch i batch (batch.map enrichContact) st =
    { results := st.results ++ batch.filterMap (fun c => (enrichContact c).toOption)
      errors := st.errors ++ (batch.enumFrom i).filterMap (rejectionEntry enrichContact)
      batches := st.batches } := by
  unfold settleBatch
  rw [List.enum, settleBatch_from enrichContact i batch 0 st]
  simp

theorem chunk_count_step (n i b : Nat) (hb : 0 < b) (hi : i < n) :
    (n - i + b - 1) / b = (n - (i + b) + b - 1) / b + 1 := by
  by_cases hle : i + b ≤ n
  · have h : n - i + b - 1 = (n - (i + b) + b - 1) + b := by omega
    rw [h, Nat.add_div_right _ hb]
  · have h0 : (n - (i + b) + b - 1) / b = 0 := by
      apply Nat.div_eq_of_lt
      omega
    rw [h0]
    apply Nat.div_eq_of_lt_le
    · omega
    · omega

theorem enrichBatchLoop_spec {α β : Type} (enrichContact : α → Except Str β)
    (contacts : List α) (b : Nat) (hb : 0 < b) :
    ∀ (fuel i : Nat) (st : BatchState α β), contacts.length ≤ i + fuel * b →
      enrichBatchLoop enrichContact contacts b (fuel + 1) i st = some
        { results := st.results ++
            (contacts.drop i).filterMap (fun c => (enrichContact c).toOption)
          errors := st.errors ++
            ((contacts.drop i).enumFrom i).filterMap (rejectionEntry enrichContact)
          batches := st.batches ++
            (List.range ((contacts.length - i + b - 1) / b)).map
              (fun t => (contacts.drop (i + t * b)).take b) } := by
  intro fuel
  induction fuel with
  | zero =>
    intro i st hfuel
    have hle : contacts.length ≤ i := by simpa using hfuel
    have hdrop : contacts.drop i = [] := List.drop_eq_nil_of_le hle
    have hcount : (contacts.length - i + b - 1) / b = 0 := by
      apply Nat.div_eq_of_lt
      omega
    simp [enrichBatchLoop, Nat.not_lt.mpr hle, hdrop, hcount]
  | succ fuel ih =>
    intro i st hfuel
    by_cases hi : i < contacts.length
    · rw [enrichBatchLoop]
      simp only [hi, if_true]
      rw [settleBatch_eq, ih (i + b) _ (by rw [Nat.succ_mul] at hfuel; omega)]
      have hsplit : contacts.drop i =
          (contacts.drop i).take b ++ contacts.drop (i + b) := by
        rw [← List.drop_drop, List.take_append_drop]
      have hres : (contacts.drop i).filterMap (fun c => (enrichContact c).toOption) =
          ((contacts.drop i).take b).filterMap (fun c => (enrichContact c).toOption) ++
            (contacts.drop (i + b)).filterMap (fun c => (enrichContact c).toOption) := by
        rw [← List.filterMap_append, ← hsplit]
      have herr : ((contacts.drop i).enumFrom i).filterMap (rejectionEntry enrichContact) =
          (((contacts.drop i).take b).enumFrom i).filterMap (rejectionEntry enrichContact) ++
            ((contacts.drop (i + b)).enumFrom (i + b)).filterMap
              (rejectionEntry enrichContact) := by
        rw [← List.filterMap_append]
        congr 1
        by_cases hfull : i + b ≤ contacts.length
        · have hlen : ((contacts.drop i).take b).length = b := by
            rw [List.length_take, List.length_drop]; omega
          conv_lhs => rw [hsplit]
          rw [List.enumFrom_append, hlen]
        · have hnil : contacts.drop (i + b) = [] :=
            List.drop_eq_nil_of_le (by omega)
          conv_lhs => rw [hsplit]
          rw [hnil]
          simp
      have hbat : (List.range ((contacts.length - i + b - 1) / b)).map
            (fun t => (contacts.drop (i + t * b)).take b) =
          (contacts.drop i).take b ::
            (List.range ((contacts.length - (i + b) + b - 1) / b)).map
              (fun t => (contacts.drop (i + b + t * b)).take b) := by
        rw [chunk_count_step _ _ _ hb hi, List.range_succ_eq_map]
        simp only [List.map_cons, List.map_map, Nat.zero_mul, Nat.add_zero]
        congr 1
        apply List.map_congr_left
        intro t _
        simp only [Function.comp, Nat.succ_eq_add_one, Nat.succ_mul]
        congr 2
        omega
      rw [hres, herr, hbat]
      simp [List.append_assoc]
    · have hle : contacts.length ≤ i := Nat.not_lt.mp hi
      have hdrop : contacts.drop i = [] := List.drop_eq_nil_of_le hle
      have hcount : (contacts.length - i + b - 1) / b = 0 := by
        apply Nat.div_eq_of_lt
        omega
      simp [enrichBatchLoop, hi, hdrop, hcount]

theorem effectiveBatchSize_pos (options : BatchOptions) : 0 < effectiveBatchSize options := by
  unfold effectiveBatchSize
  cases h : options.batchSize with
  | none => simp
  | some b =>
    by_cases hb : b = 0
    · simp [hb]
    · simp only [hb, if_false]
      omega

theorem ceil_mul_ge (n b : Nat) (hb : 0 < b) : n ≤ (n + b - 1) / b * b := by
  have h1 := Nat.div_add_mod (n + b - 1) b
  have h2 := Nat.mod_lt (n + b - 1) hb
  rw [Nat.mul_comm] at h1
  generalize (n + b - 1) / b * b = q at h1 ⊢
  omega

theorem enrichBatchRun_spec {α β : Type} (enrichContact : α → Except Str β)
    (contacts : List α) (options : BatchOptions) :
    enrichBatchRun enrichContact contacts options = some
      { results := contacts.filterMap (fun c => (enrichContact c).toOption)
        errors := contacts.enum.filterMap (rejectionEntry enrichContact)
        batches :=
          (List.range ((contacts.length + effectiveBatchSize options - 1) /
              effectiveBatchSize options)).map
            (fun t => (contacts.drop (t * effectiveBatchSize options)).take
              (effectiveBatchSize options)) } := by
  have hb := effectiveBatchSize_pos options
  unfold enrichBatchRun
  rw [enrichBatchLoop_spec enrichContact contacts _ hb contacts.length 0 _
    (by
      have : contacts.length * 1 ≤ contacts.length * effectiveBatchSize options :=
        Nat.mul_le_mul_left _ hb
      omega)]
  simp [List.enum]

theorem settled_count {α β : Type} (enrichContact : α → Except Str β) (l : List α) (k : Nat) :
    (l.filterMap (fun c => (enrichContact c).toOption)).length +
      ((l.enumFrom k).filterMap (rejectionEntry enrichContact)).length = l.length := by
  induction l generalizing k with
  | nil => simp
  | cons c cs ih =>
    have hcs := ih (k + 1)
    rw [List.enumFrom_cons, List.filterMap_cons, List.filterMap_cons]
    cases h : enrichContact c with
    | ok value =>
      have hOk : (Except.ok value : Except Str β).toOption = some value := rfl
      have hRej : rejectionEntry enrichContact (k, c) = none := by
        simp [rejectionEntry, h]
      simp only [hOk, hRej, List.length_cons]
      omega
    | error message =>
      have hOk : (Except.error message : Except Str β).toOption = none := rfl
      have hRej : rejectionEntry enrichContact (k, c) =
          some { index := k, contact := c, error := message } := by
        simp [rejectionEntry, h]
      simp only [hOk, hRej, List.length_cons]
      omega

theorem chunks_join {α : Type} (l : List α) (b : Nat) :
    ∀ (count i : Nat), l.length ≤ i + count * b →
      ((List.range count).map (fun t => (l.drop (i + t * b)).take b)).flatten = l.drop i := by
  intro count
  induction count with
  | zero =>
    intro i h
    have : l.length ≤ i := by simpa using h
    simp [List.drop_eq_nil_of_le this]
  | succ count ih =>
    intro i h
    rw [List.range_succ_eq_map]
    simp only [List.map_cons, List.map_map, List.flatten_cons, Nat.zero_mul, Nat.add_zero]
    have hmap : List.map ((fun t => (l.drop (i + t * b)).take b) ∘ Nat.succ)
        (List.range count) =
        List.map (fun t => (l.drop (i + b + t * b)).take b) (List.range count) := by
      apply List.map_congr_left
      intro t _
      simp only [Function.comp, Nat.succ_eq_add_one, Nat.succ_mul]
      congr 2
      omega
    rw [hmap, ih (i + b) (by rw [Nat.succ_mul] at h; omega), ← List.drop_drop,
      List.take_append_drop]

theorem rejections_at {α β : Type} (enrichContact : α → Except Str β) (l : List α)
    (k j : Nat) :
    ((l.enumFrom k).filterMap (rejectionEntry enrichContact)).filter
        (fun e => e.index == j) =
      if k ≤ j then
        match l[j - k]? with
        | some c => (rejectionEntry enrichContact (j, c)).toList
        | none => []
      else [] := by
  induction l generalizing k with
  | nil => simp
  | cons c cs ih =>
    rw [List.enumFrom_cons, List.filterMap_cons]
    have hhead : ∀ e, rejectionEntry enrichContact (k, c) = some e → e.index = k := by
      intro e he
      unfold rejectionEntry at he
      cases h : enrichContact c with
      | ok value => simp [h] at he
      | error message =>
        simp [h] at he
        rw [← he]
    by_cases hjk : j = k
    · subst hjk
      have htail : ((cs.enumFrom (j + 1)).filterMap (rejectionEntry enrichContact)).filter
          (fun e => e.index == j) = [] := by
        rw [ih (j + 1)]
        simp
      cases hrej : rejectionEntry enrichContact (j, c) with
      | none => simp [htail, hrej]
      | some e =>
        have := hhead e hrej
        simp [List.filter_cons, this, htail, hrej]
    · have hih := ih (k + 1)
      by_cases hlt : k < j
      · have hidx : j - k = (j - (k + 1)) + 1 := by omega
        have hget : (c :: cs)[j - k]? = cs[j - (k + 1)]? := by
          rw [hidx, List.getElem?_cons_succ]
        have hle : k ≤ j := Nat.le_of_lt hlt
        have hle' : k + 1 ≤ j := hlt
        rw [if_pos hle, hget]
        rw [if_pos hle'] at hih
        cases hrej : rejectionEntry enrichContact (k, c) with
        | none => simpa using hih
        | some e =>
          have hne : e.index ≠ j := by rw [hhead e hrej]; omega
          simp only [List.filter_cons]
          rw [if_neg (by simpa using hne)]
          exact hih
      · have hnle : ¬ k ≤ j := by omega
        have hnle' : ¬ k + 1 ≤ j := by omega
        rw [if_neg hnle]
        rw [if_neg hnle'] at hih
        cases hrej : rejectionEntry enrichContact (k, c) with
        | none => simpa using hih
        | some e =>
          have hne : e.index ≠ j := by rw [hhead e hrej]; omega
          simp only [List.filter_cons]
          rw [if_neg (by simpa using hne)]
          exact hih

theorem effectiveBatchSize_some (b : Nat) (hb : 0 < b) :
    effectiveBatchSize { batchSize := some b } = b := by
  unfold effectiveBatchSize
  simp only
  rw [if_neg (by omega)]

theorem enrichBatch_spec {α β : Type} (enrichContact : α → Except Str β)
    (contacts : List α) (options : BatchOptions) :
    enrichBatch enrichContact contacts options = some
      { results := contacts.filterMap (fun c => (enrichContact c).toOption)
        errors := contacts.enum.filterMap (rejectionEntry enrichContact)
        total_processed := (contacts.filterMap (fun c => (enrichContact c).toOption)).length
        total_errors := (contacts.enum.filterMap (rejectionEntry enrichContact)).length } := by
  unfold enrichBatch
  rw [enrichBatchRun_spec]
  rfl

theorem rejectionEntry_some {α β : Type} (enrichContact : α → Except Str β) (jc : Nat × α)
    (e : BatchError α) (h : rejectionEntry enrichContact jc = some e) :
    e.index = jc.1 ∧ e.contact = jc.2 ∧ enrichContact jc.2 = .error e.error := by
  unfold rejectionEntry at h
  cases hc : enrichContact jc.2 with
  | ok value => simp [hc] at h
  | error message =>
    simp [hc] at h
    subst h
    exact ⟨rfl, rfl, rfl⟩

/-! ## Theorems: enrichment claims -/

/-- C2 (counterexample): for the contact with no `email` key, `enrichContact` returns no
outcome at all; its promise rejects with the `ValidationError` message. -/
theorem enrichContact_missing_email_rejects :
    enrichContact offlineEnv [] = .error "Missing required fields: email".toList ∧
    ¬ ∃ o, enrichContact offlineEnv [] = .ok o := by
  refine ⟨rfl, ?_⟩
  rintro ⟨o, ho⟩
  have h : enrichContact offlineEnv [] = .error "Missing required fields: email".toList := rfl
  rw [h] at ho
  cases ho

/-- C2 (amended): for every contact whose `email` is absent or empty (falsy),
`enrichContact` throws before its `try` block: the promise rejects with the message
'Missing required fields: email' and no outcome is returned. -/
theorem enrichContact_missing_email (env : Env) (contact : JsObj)
    (h : (getProp contact "email".toList).truthy = false) :
    enrichContact env contact = .error "Missing required fields: email".toList := by
  have hv : validateRequired contact ["email".toList] =
      .error "Missing required fields: email".toList := by
    unfold validateRequired
    simp only [List.filter, h, Bool.not_false]
    rfl
  unfold enrichContact
  rw [hv]
  rfl

/-- C2 (amended) witness: a contact whose `email` is the empty string. -/
theorem enrichContact_missing_email_witness :
    (getProp [("email".toList, JsVal.str []), ("company_name".toList, JsVal.str "Beta".toList)]
      "email".toList).truthy = false ∧
    enrichContact localBusinessDownEnv
      [("email".toList, JsVal.str []), ("company_name".toList, JsVal.str "Beta".toList)] =
      .error "Missing required fields: email".toList :=
  ⟨rfl, enrichContact_missing_email _ _ rfl⟩

/-- C3 (code behaviour at the failing input): with the local-business API configured and
its request failing, `enrichContact` on a contact with email, names and company returns a
failure outcome holding the unchanged contact, with no `social_profiles` detail and no
`linkedin_url`; the same contact with that API disabled succeeds and gets its
`linkedin_url`. -/
theorem enrichContact_local_business_failure_aborts :
    enrichContact localBusinessDownEnv annaContact =
      .ok { success := false
            data := annaContact
            error := some "Request failed after 3 attempts: fetch failed".toList
            enrichment_details := [("company_enrichment".toList, .obj [])] } ∧
    (enrichContact offlineEnv annaContact).toOption.map
      (fun o => (o.success, getProp o.data "linkedin_url".toList)) =
      some (true, .str "https://www.linkedin.com/in/anna-smith/".toList) :=
  ⟨rfl, rfl⟩

/-- C4 (counterexample): a contact whose `enrichContact` outcome has `success = false` is
pushed to `results`, counted in `total_processed`, and absent from `errors`. -/
theorem enrichBatch_results_hold_failure :
    (enrichBatch (enrichContact localBusinessDownEnv) [annaContact]
      { batchSize := none }).map
      (fun r => (r.results.map (fun o => o.success), r.errors.length, r.total_processed)) =
      some ([false], 0, 1) := by
  decide

/-- C4 (amended): `results` holds, in input order, the outcome of every contact whose
`enrichContact` call fulfilled, whether its `success` is true or false; a failure outcome
is in `results`, is counted in `total_processed` and its contact is not in `errors`;
`errors` holds only contacts whose call rejected. -/
theorem enrichBatch_results_fulfilled {α : Type} (enrichContact : α → Except Str Outcome)
    (contacts : List α) (options : BatchOptions) :
    ∃ r, enrichBatch enrichContact contacts options = some r ∧
      r.results = contacts.filterMap (fun c => (enrichContact c).toOption) ∧
      r.total_processed = r.results.length ∧
      (∀ c ∈ contacts, ∀ o, enrichContact c = .ok o → o.success = false →
        o ∈ r.results ∧ ∀ e ∈ r.errors, e.contact ≠ c) ∧
      (∀ e ∈ r.errors, enrichContact e.contact = .error e.error) := by
  refine ⟨_, enrichBatch_spec enrichContact contacts options, rfl, rfl, ?_, ?_⟩
  · intro c hc o ho _
    constructor
    · simp only [List.mem_filterMap]
      exact ⟨c, hc, by rw [ho]; rfl⟩
    · intro e he hEq
      simp only [List.mem_filterMap] at he
      obtain ⟨jc, _, hjc⟩ := he
      obtain ⟨_, hcontact, herr⟩ := rejectionEntry_some enrichContact jc e hjc
      rw [← hcontact, hEq, ho] at herr
      cases herr
  · intro e he
    simp only [List.mem_filterMap] at he
    obtain ⟨jc, _, hjc⟩ := he
    obtain ⟨_, hcontact, herr⟩ := rejectionEntry_some enrichContact jc e hjc
    rw [hcontact]
    exact herr

/-- C4 (amended) witness: the batch of one contact whose outcome is a failure. -/
theorem enrichBatch_results_fulfilled_witness :
    ∃ r, enrichBatch (enrichContact localBusinessDownEnv) [annaContact]
        { batchSize := none } = some r ∧
      r.results = [annaContact].filterMap
        (fun c => (enrichContact localBusinessDownEnv c).toOption) ∧
      r.total_processed = r.results.length ∧
      (∀ c ∈ [annaContact], ∀ o, enrichContact localBusinessDownEnv c = .ok o →
        o.success = false → o ∈ r.results ∧ ∀ e ∈ r.errors, e.contact ≠ c) ∧
      (∀ e ∈ r.errors, enrichContact localBusinessDownEnv e.contact = .error e.error) :=
  enrichBatch_results_fulfilled (enrichContact localBusinessDownEnv) [annaContact]
    { batchSize := none }

/-- C5: for `n` contacts and a positive `batchSize` `b`, the loop cuts the list into
`(n + b - 1) / b` (the ceiling of `n / b`) consecutive chunks, chunk `k` being
`contacts.slice(k * b, k * b + b)` of size `min b (n - k * b)`, whose concatenation is the
input; and `results.length + errors.length = n`, whatever each call does. -/
theorem enrichBatch_chunks {α β : Type} (enrichContact : α → Except Str β)
    (contacts : List α) (b : Nat) (hb : 0 < b) :
    ∃ st r, enrichBatchRun enrichContact contacts { batchSize := some b } = some st ∧
      enrichBatch enrichContact contacts { batchSize := some b } = some r ∧
      st.batches.length = (contacts.length + b - 1) / b ∧
      (∀ k, k < (contacts.length + b - 1) / b →
        st.batches[k]? = some ((contacts.drop (k * b)).take b) ∧
        ((contacts.drop (k * b)).take b).length = min b (contacts.length - k * b) ∧
        0 < ((contacts.drop (k * b)).take b).length) ∧
      (∀ k, k + 1 < (contacts.length + b - 1) / b →
        ((contacts.drop (k * b)).take b).length = b) ∧
      st.batches.flatten = contacts ∧
      r.results.length + r.errors.length = contacts.length ∧
      r.total_processed + r.total_errors = contacts.length := by
  have hcount := settled_count enrichContact contacts 0
  refine ⟨_, _, enrichBatchRun_spec enrichContact contacts _,
    enrichBatch_spec enrichContact contacts _, ?_, ?_, ?_, ?_, ?_, ?_⟩
  · simp [effectiveBatchSize_some b hb]
  · intro k hk
    refine ⟨?_, ?_, ?_⟩
    · simp only [effectiveBatchSize_some b hb]
      rw [List.getElem?_map, List.getElem?_range hk]
      rfl
    · rw [List.length_take, List.length_drop]
    · have h2 : (k + 1) * b ≤ contacts.length + b - 1 :=
        (Nat.le_div_iff_mul_le hb).mp hk
      rw [Nat.add_mul] at h2
      rw [List.length_take, List.length_drop]
      omega
  · intro k hk
    have h2 : (k + 2) * b ≤ contacts.length + b - 1 :=
      (Nat.le_div_iff_mul_le hb).mp hk
    rw [Nat.add_mul] at h2
    rw [List.length_take, List.length_drop]
    omega
  · simp only [effectiveBatchSize_some b hb]
    have h := chunks_join contacts b ((contacts.length + b - 1) / b) 0
      (by have := ceil_mul_ge contacts.length b hb; omega)
    simpa using h
  · exact hcount
  · exact hcount

/-- C5 witness: five contacts with `batchSize = 2` give chunks of sizes 2, 2, 1. -/
theorem enrichBatch_chunks_witness :
    (0 < 2 ∧
      ∃ st r, enrichBatchRun failsOnTwelve [10, 11, 12, 13, 14] { batchSize := some 2 } =
          some st ∧
        enrichBatch failsOnTwelve [10, 11, 12, 13, 14] { batchSize := some 2 } = some r ∧
        st.batches.length = (([10, 11, 12, 13, 14] : List Nat).length + 2 - 1) / 2 ∧
        (∀ k, k < (([10, 11, 12, 13, 14] : List Nat).length + 2 - 1) / 2 →
          st.batches[k]? = some ((([10, 11, 12, 13, 14] : List Nat).drop (k * 2)).take 2) ∧
          ((([10, 11, 12, 13, 14] : List Nat).drop (k * 2)).take 2).length =
            min 2 (([10, 11, 12, 13, 14] : List Nat).length - k * 2) ∧
          0 < ((([10, 11, 12, 13, 14] : List Nat).drop (k * 2)).take 2).length) ∧
        (∀ k, k + 1 < (([10, 11, 12, 13, 14] : List Nat).length + 2 - 1) / 2 →
          ((([10, 11, 12, 13, 14] : List Nat).drop (k * 2)).take 2).length = 2) ∧
        st.batches.flatten = [10, 11, 12, 13, 14] ∧
        r.results.length + r.errors.length = ([10, 11, 12, 13, 14] : List Nat).length ∧
        r.total_processed + r.total_errors = ([10, 11, 12, 13, 14] : List Nat).length) ∧
    (enrichBatchRun failsOnTwelve [10, 11, 12, 13, 14] { batchSize := some 2 }).map
      (fun st => st.batches.map List.length) = some [2, 2, 1] :=
  ⟨⟨by decide, enrichBatch_chunks failsOnTwelve [10, 11, 12, 13, 14] 2 (by decide)⟩,
    by decide⟩

/-- C6: for every batch size (any `options`, in particular every positive `batchSize`) and
the contact `c` at position `j`, the recorded entry depends only on `enrichContact c`: a
fulfilled value is in `results` and no `errors` entry has index `j`; a rejection gives
exactly one `errors` entry with index `j`, namely `{index: j, contact: c, error: message}`;
and `results` is the list of the fulfilled values of all contacts in input order, so a
rejection removes or changes no sibling's entry. -/
theorem enrichBatch_isolation {α β : Type} (enrichContact : α → Except Str β)
    (contacts : List α) (options : BatchOptions) (j : Nat) (c : α)
    (hj : contacts[j]? = some c) :
    ∃ r, enrichBatch enrichContact contacts options = some r ∧
      (∀ v, enrichContact c = .ok v →
        v ∈ r.results ∧ r.errors.filter (fun e => e.index == j) = []) ∧
      (∀ message, enrichContact c = .error message →
        r.errors.filter (fun e => e.index == j) =
          [{ index := j, contact := c, error := message }]) ∧
      r.results = contacts.filterMap (fun c => (enrichContact c).toOption) := by
  have hat := rejections_at enrichContact contacts 0 j
  simp only [Nat.zero_le, if_true, Nat.sub_zero, hj] at hat
  refine ⟨_, enrichBatch_spec enrichContact contacts _, ?_, ?_, rfl⟩
  · intro v hv
    constructor
    · simp only [List.mem_filterMap]
      exact ⟨c, List.getElem?_mem hj, by rw [hv]; rfl⟩
    · simp only [List.enum]
      rw [hat]
      simp [rejectionEntry, hv]
  · intro message hmsg
    simp only [List.enum]
    rw [hat]
    simp [rejectionEntry, hmsg]

/-- C6 witness: one failing contact out of five in one chunk of five; the other four are
in `results`. -/
theorem enrichBatch_isolation_witness :
    (([10, 11, 12, 13, 14] : List Nat)[2]? = some 12 ∧
      ∃ r, enrichBatch failsOnTwelve [10, 11, 12, 13, 14] { batchSize := some 5 } = some r ∧
        (∀ v, failsOnTwelve 12 = .ok v →
          v ∈ r.results ∧ r.errors.filter (fun e => e.index == 2) = []) ∧
        (∀ message, failsOnTwelve 12 = .error message →
          r.errors.filter (fun e => e.index == 2) =
            [{ index := 2, contact := 12, error := message }]) ∧
        r.results = ([10, 11, 12, 13, 14] : List Nat).filterMap
          (fun c => (failsOnTwelve c).toOption)) ∧
    (enrichBatch failsOnTwelve [10, 11, 12, 13, 14] { batchSize := some 5 }).map
      (fun r => (r.results, r.errors.map (fun e => (e.index, e.contact, e.error)))) =
      some ([20, 22, 26, 28], [(2, 12, "lookup failed".toList)]) :=
  ⟨⟨by decide,
    enrichBatch_isolation failsOnTwelve [10, 11, 12, 13, 14] { batchSize := some 5 } 2 12
      (by decide)⟩,
    by decide⟩

/-! ## Theorems: delimiter, sample rows, normalisation -/

theorem detectCSVDelimiter_cases (firstLine : Str) :
    detectCSVDelimiter firstLine =
      if firstLine.count ';' > firstLine.count ',' then
        if firstLine.count '\t' > firstLine.count ';' then
          if firstLine.count '|' > firstLine.count '\t' then ['|'] else ['\t']
        else if firstLine.count '|' > firstLine.count ';' then ['|'] else [';']
      else if firstLine.count '\t' > firstLine.count ',' then
        if firstLine.count '|' > firstLine.count '\t' then ['|'] else ['\t']
      else if firstLine.count '|' > firstLine.count ',' then ['|'] else [','] := by
  unfold detectCSVDelimiter
  simp only [List.foldl_cons, List.foldl_nil]
  have hfirst : (if firstLine.count ',' > 0 then ([','], firstLine.count ',')
      else (([','], 0) : Str × Nat)) = ([','], firstLine.count ',') := by
    split
    · rfl
    · have : firstLine.count ',' = 0 := by omega
      rw [this]
  rw [hfirst]
  split_ifs <;> rfl

/-- C11 (counterexample): in the line `a;b|c` the semicolon and the pipe both occur once,
the highest count, and the comma never; `detectCSVDelimiter` returns the semicolon, not
the comma. -/
theorem detectCSVDelimiter_tie_not_comma :
    "a;b|c".toList.count ';' = 1 ∧ "a;b|c".toList.count '|' = 1 ∧
    "a;b|c".toList.count ',' = 0 ∧ "a;b|c".toList.count '\t' = 0 ∧
    detectCSVDelimiter "a;b|c".toList = [';'] ∧
    detectCSVDelimiter "a;b|c".toList ≠ [','] := by
  decide

theorem detectCSVDelimiter_first_max_aux (firstLine : Str) :
    ∃ d, detectCSVDelimiter firstLine = [d] ∧ d ∈ [',', ';', '\t', '|'] ∧
      (∀ c ∈ [',', ';', '\t', '|'], firstLine.count c ≤ firstLine.count d) ∧
      (∀ c ∈ [',', ';', '\t', '|'],
        [',', ';', '\t', '|'].indexOf c < [',', ';', '\t', '|'].indexOf d →
          firstLine.count c < firstLine.count d) := by
  have i0 : [',', ';', '\t', '|'].indexOf ',' = 0 := by decide
  have i1 : [',', ';', '\t', '|'].indexOf ';' = 1 := by decide
  have i2 : [',', ';', '\t', '|'].indexOf '\t' = 2 := by decide
  have i3 : [',', ';', '\t', '|'].indexOf '|' = 3 := by decide
  rw [detectCSVDelimiter_cases]
  split_ifs <;> refine ⟨_, rfl, by decide, ?_, ?_⟩
  all_goals
    intro c hc
    simp only [List.mem_cons, List.mem_singleton, List.not_mem_nil, or_false] at hc
    rcases hc with rfl | rfl | rfl | rfl
  all_goals
    try simp only [i0, i1, i2, i3]
    omega

/-- C11 (amended): `detectCSVDelimiter` returns the first candidate, in the order comma,
semicolon, tab, pipe, whose number of occurrences is the highest: no candidate occurs
more often and every earlier candidate occurs strictly less often. Hence a candidate
with the strictly highest count is returned, and the comma is returned when all counts
are zero or when the comma itself reaches the highest count. -/
theorem detectCSVDelimiter_first_max (firstLine : Str) :
    (∃ d, detectCSVDelimiter firstLine = [d] ∧ d ∈ [',', ';', '\t', '|'] ∧
      (∀ c ∈ [',', ';', '\t', '|'], firstLine.count c ≤ firstLine.count d) ∧
      (∀ c ∈ [',', ';', '\t', '|'],
        [',', ';', '\t', '|'].indexOf c < [',', ';', '\t', '|'].indexOf d →
          firstLine.count c < firstLine.count d)) ∧
    (∀ d ∈ [',', ';', '\t', '|'],
      (∀ c ∈ [',', ';', '\t', '|'], c ≠ d → firstLine.count c < firstLine.count d) →
        detectCSVDelimiter firstLine = [d]) ∧
    ((∀ c ∈ [',', ';', '\t', '|'], firstLine.count c = 0) →
      detectCSVDelimiter firstLine = [',']) ∧
    ((∀ c ∈ [',', ';', '\t', '|'], firstLine.count c ≤ firstLine.count ',') →
      detectCSVDelimiter firstLine = [',']) := by
  obtain ⟨d, hd, hmem, hmax, hfirst⟩ := detectCSVDelimiter_first_max_aux firstLine
  have hcomma : (∀ c ∈ [',', ';', '\t', '|'], firstLine.count c ≤ firstLine.count ',') →
      detectCSVDelimiter firstLine = [','] := by
    intro hall
    by_cases hEq : d = ','
    · rw [hd, hEq]
    · exfalso
      have hlt : [',', ';', '\t', '|'].indexOf ',' < [',', ';', '\t', '|'].indexOf d := by
        simp only [List.mem_cons, List.mem_singleton, List.not_mem_nil, or_false] at hmem
        rcases hmem with rfl | rfl | rfl | rfl
        · exact absurd rfl hEq
        · decide
        · decide
        · decide
      have h1 := hfirst ',' (by decide) hlt
      have h2 := hall d hmem
      omega
  refine ⟨⟨d, hd, hmem, hmax, hfirst⟩, ?_, ?_, hcomma⟩
  · intro d' hd' hstrict
    by_cases hEq : d = d'
    · rw [hd, hEq]
    · exfalso
      have h1 := hstrict d hmem hEq
      have h2 := hmax d' hd'
      omega
  · intro hzero
    apply hcomma
    intro c hc
    rw [hzero c hc]
    exact Nat.zero_le _

theorem trim_idempotent (s : Str) : trim (trim s) = trim s := by
  have hdef : ∀ x : Str, trim x =
      List.rdropWhile isJsWhitespace (List.dropWhile isJsWhitespace x) := fun _ => rfl
  have hfix : List.dropWhile isJsWhitespace (trim s) = trim s := by
    rcases hX : trim s with _ | ⟨x, rest⟩
    · rfl
    · have hpre : trim s <+: List.dropWhile isJsWhitespace s := by
        rw [hdef]
        exact List.rdropWhile_prefix isJsWhitespace _
      rw [hX] at hpre
      obtain ⟨tail, htail⟩ := hpre
      have hne : List.dropWhile isJsWhitespace s ≠ [] := by
        rw [← htail]; simp
      have hhead := List.head_dropWhile_not isJsWhitespace s hne
      have hx : isJsWhitespace x = false := by
        have : (List.dropWhile isJsWhitespace s).head hne = x := by
          simp [← htail]
        rw [this] at hhead
        exact hhead
      simp [List.dropWhile_cons, hx]
  rw [hdef (trim s), hfix, hdef s, List.rdropWhile_idempotent]

theorem getProp_setProp_same (o : JsObj) (k : Str) (v : JsVal) :
    getProp (setProp o k v) k = v := by
  induction o with
  | nil => simp [setProp, getProp]
  | cons kv rest ih =>
    obtain ⟨k', v'⟩ := kv
    by_cases h : k' = k
    · simp [setProp, getProp, h]
    · simp [setProp, getProp, h, ih]

theorem getProp_setProp_ne (o : JsObj) (k k' : Str) (v : JsVal) (hne : k ≠ k') :
    getProp (setProp o k v) k' = getProp o k' := by
  induction o with
  | nil => simp [setProp, getProp, hne]
  | cons kv rest ih =>
    obtain ⟨k0, v0⟩ := kv
    by_cases h : k0 = k
    · subst h
      simp [setProp, getProp, hne]
    · by_cases h' : k0 = k'
      · subst h'
        simp [setProp, getProp, h]
      · simp [setProp, getProp, h, h', ih]

theorem setProp_of_not_mem (o : JsObj) (k : Str) (v : JsVal)
    (h : k ∉ o.map Prod.fst) : setProp o k v = o ++ [(k, v)] := by
  induction o with
  | nil => rfl
  | cons kv rest ih =>
    obtain ⟨k0, v0⟩ := kv
    have hne : k0 ≠ k := fun hEq => h (by simp [hEq])
    have hrest : k ∉ rest.map Prod.fst := fun hMem => h (by simp [hMem])
    simp [setProp, hne, ih hrest]

theorem getProp_of_not_mem (o : JsObj) (k : Str) (h : k ∉ o.map Prod.fst) :
    getProp o k = .undefined := by
  induction o with
  | nil => rfl
  | cons kv rest ih =>
    obtain ⟨k0, v0⟩ := kv
    have hne : k0 ≠ k := fun hEq => h (by simp [hEq])
    have hrest : k ∉ rest.map Prod.fst := fun hMem => h (by simp [hMem])
    simp [getProp, hne, ih hrest]

theorem keys_setProp (o : JsObj) (k : Str) (v : JsVal) :
    (setProp o k v).map Prod.fst =
      if k ∈ o.map Prod.fst then o.map Prod.fst else o.map Prod.fst ++ [k] := by
  induction o with
  | nil => simp [setProp]
  | cons kv rest ih =>
    obtain ⟨k0, v0⟩ := kv
    by_cases h : k0 = k
    · subst h
      simp [setProp]
    · have h' : ¬ k = k0 := fun hEq => h hEq.symm
      simp only [setProp, if_neg h, List.map_cons, ih, List.mem_cons, h', false_or]
      split <;> simp

theorem sampleLoop_eq_map (lines headers : List Str) (delimiter : Str) (maxSamples : Nat)
    (hlines : ∀ line ∈ lines, trim line ≠ []) (hmax : maxSamples ≤ lines.length) :
    sampleLoop lines headers delimiter maxSamples =
      (List.range' 1 (maxSamples - 1)).map
        (fun i => rowObject headers (parseCSVLine (lines.getD i []) delimiter)) := by
  unfold sampleLoop
  have hfold := foldl_push_filter
    (fun i => lines.getD i [] != [] && trim (lines.getD i []) != [])
    (fun i => rowObject headers (parseCSVLine (lines.getD i []) delimiter))
    (List.range' 1 (maxSamples - 1)) []
  simp only [List.nil_append] at hfold
  rw [hfold]
  have hall : ∀ i ∈ List.range' 1 (maxSamples - 1),
      (lines.getD i [] != [] && trim (lines.getD i []) != []) = true := by
    intro i hi
    rw [List.mem_range'_1] at hi
    have hlt : i < lines.length := by omega
    have hmem : lines.getD i [] ∈ lines := by
      rw [List.getD_eq_getElem lines [] hlt]
      exact List.getElem_mem hlt
    have htrim : trim (lines.getD i []) ≠ [] := hlines _ hmem
    have hne : lines.getD i [] ≠ [] := by
      intro hnil
      apply htrim
      rw [hnil]
      rfl
    rw [Bool.and_eq_true, bne_iff_ne, bne_iff_ne]
    exact ⟨hne, htrim⟩
  rw [List.filter_eq_self.mpr hall]

theorem parseCSVLineLoop_trimmed (delimiter : Str) (line : Str) (result : List Str)
    (current : Str) (inQuotes : Bool) (hresult : ∀ f ∈ result, trim f = f) :
    ∀ f ∈ parseCSVLineLoop delimiter line result current inQuotes, trim f = f := by
  induction line, result, current, inQuotes using parseCSVLineLoop.induct delimiter with
  | case1 result current inQuotes =>
    intro f hf
    rw [parseCSVLineLoop_nil] at hf
    rcases List.mem_append.mp hf with hf | hf
    · exact hresult f hf
    · rw [List.mem_singleton.mp hf]
      exact trim_idempotent current
  | case2 result current inQuotes ih =>
    rw [parseCSVLineLoop.eq_def]
    simp only [if_true]
    exact ih hresult
  | case3 result current inQuotes c2 rest2 h ih =>
    rw [parseCSVLineLoop.eq_def]
    simp only [if_true, h]
    exact ih hresult
  | case4 result current inQuotes c2 rest2 h ih =>
    rw [parseCSVLineLoop.eq_def]
    simp only [if_true, h]
    exact ih hresult
  | case5 c rest result current inQuotes hc h ih =>
    rw [parseCSVLineLoop.eq_def]
    simp only [if_neg hc, if_pos h]
    apply ih
    intro f hf
    rcases List.mem_append.mp hf with hf | hf
    · exact hresult f hf
    · rw [List.mem_singleton.mp hf]
      exact trim_idempotent current
  | case6 c rest result current inQuotes hc h ih =>
    rw [parseCSVLineLoop.eq_def]
    simp only [if_neg hc, if_neg h]
    exact ih hresult

theorem parseCSVLine_map_trim (line delimiter : Str) :
    (parseCSVLine line delimiter).map trim = parseCSVLine line delimiter := by
  have h := parseCSVLineLoop_trimmed delimiter line [] [] false (by simp)
  unfold parseCSVLine
  conv_rhs => rw [← List.map_id (parseCSVLineLoop delimiter line [] [] false)]
  apply List.map_congr_left
  intro f hf
  exact h f hf

/-- The table `parseCSV` returns when the text has a non-blank line. -/
theorem parseCSV_eq_ok (content : Str) (h : contentLines content ≠ []) :
    parseCSV content = .ok
      { headers := parseCSVLine ((contentLines content).getD 0 [])
          (detectCSVDelimiter ((contentLines content).getD 0 [])),
        sampleData := (List.range' 1 (min 6 (contentLines content).length - 1)).map
          (fun i => rowObject
            (parseCSVLine ((contentLines content).getD 0 [])
              (detectCSVDelimiter ((contentLines content).getD 0 [])))
            (parseCSVLine ((contentLines content).getD i [])
              (detectCSVDelimiter ((contentLines content).getD 0 [])))),
        totalRows := (contentLines content).length - 1,
        delimiter := detectCSVDelimiter ((contentLines content).getD 0 []) } := by
  have hlen : (contentLines content).length ≠ 0 := by
    simpa [List.length_eq_zero] using h
  have hhead := parseCSVLine_length_pos ((contentLines content).getD 0 [])
    (detectCSVDelimiter ((contentLines content).getD 0 []))
  unfold parseCSV
  simp only [hlen, if_false]
  rw [if_neg (by omega), parseCSVLine_map_trim,
    sampleLoop_eq_map _ _ _ _ (fun line hl => mem_contentLines hl) (Nat.min_le_right _ _)]

theorem parseCSV_ok_lines (content : Str) (t : ParsedData) (h : parseCSV content = .ok t) :
    contentLines content ≠ [] := by
  intro hnil
  unfold parseCSV at h
  simp [hnil] at h

theorem getProp_of_key_mem (o : JsObj) (k : Str) (h : k ∈ o.map Prod.fst) :
    ∃ kv ∈ o, kv.2 = getProp o k := by
  induction o with
  | nil => simp at h
  | cons e rest ih =>
    obtain ⟨k0, v0⟩ := e
    by_cases hk : k0 = k
    · exact ⟨(k0, v0), List.mem_cons_self _ _, by simp [getProp, hk]⟩
    · have hrest : k ∈ rest.map Prod.fst := by
        rw [List.map_cons, List.mem_cons] at h
        rcases h with h | h
        · exact absurd h.symm hk
        · exact h
      obtain ⟨kv, hkv, hEq⟩ := ih hrest
      exact ⟨kv, List.mem_cons_of_mem _ hkv, by rw [getProp, if_neg hk]; exact hEq⟩

/-! ## Lemmas: reads and assignments with computed names -/

theorem inheritedMember_undefined_iff (k : Str) :
    (inheritedMember k).isUndefined = true ↔
      (k ≠ "__proto__".toList ∧ k ≠ "constructor".toList ∧ k ∉ objectPrototypeMethods) := by
  unfold inheritedMember
  split_ifs with h1 h2 h3
  · simp [JsVal.isUndefined, h1]
  · simp [JsVal.isUndefined, h2]
  · simp [JsVal.isUndefined, h3]
  · exact ⟨fun _ => ⟨h1, h2, h3⟩, fun _ => rfl⟩

theorem jsRead_of_key (o : JsObj) (k : Str) (h : k ∈ o.map Prod.fst) :
    jsRead o k = getProp o k := by
  unfold jsRead
  rw [if_pos h]

theorem jsRead_of_not_key (o : JsObj) (k : Str) (h : k ∉ o.map Prod.fst) :
    jsRead o k = inheritedMember k := by
  unfold jsRead
  rw [if_neg h]

theorem mem_insertIndexed (n : Nat) (k : Str) (v : JsVal) (o : JsObj) (kv : Str × JsVal) :
    kv ∈ insertIndexed n k v o ↔ kv = (k, v) ∨ kv ∈ o := by
  induction o with
  | nil => simp [insertIndexed]
  | cons e rest ih =>
    obtain ⟨k', v'⟩ := e
    unfold insertIndexed
    split
    · split
      · simp only [List.mem_cons, ih]
        tauto
      · simp only [List.mem_cons]
    · simp only [List.mem_cons]

theorem insertIndexed_perm (n : Nat) (k : Str) (v : JsVal) (o : JsObj) :
    (insertIndexed n k v o).Perm ((k, v) :: o) := by
  induction o with
  | nil => simp [insertIndexed]
  | cons e rest ih =>
    obtain ⟨k', v'⟩ := e
    unfold insertIndexed
    split
    · split
      · exact (List.Perm.cons _ ih).trans (List.Perm.swap _ _ _)
      · exact List.Perm.refl _
    · exact List.Perm.refl _

theorem getProp_insertIndexed_same (n : Nat) (k : Str) (v : JsVal) (o : JsObj)
    (h : k ∉ o.map Prod.fst) : getProp (insertIndexed n k v o) k = v := by
  induction o with
  | nil => simp [insertIndexed, getProp]
  | cons e rest ih =>
    obtain ⟨k', v'⟩ := e
    have hne : k' ≠ k := fun hEq => h (by simp [hEq])
    have hrest : k ∉ rest.map Prod.fst := fun hMem => h (by simp [hMem])
    unfold insertIndexed
    split
    · split
      · rw [getProp, if_neg hne]
        exact ih hrest
      · simp [getProp]
    · simp [getProp]

theorem getProp_insertIndexed_ne (n : Nat) (k k' : Str) (v : JsVal) (o : JsObj)
    (hne : k ≠ k') : getProp (insertIndexed n k v o) k' = getProp o k' := by
  induction o with
  | nil => simp [insertIndexed, getProp, hne]
  | cons e rest ih =>
    obtain ⟨k0, v0⟩ := e
    unfold insertIndexed
    split
    · split
      · by_cases h0 : k0 = k'
        · simp [getProp, h0]
        · rw [getProp, if_neg h0, ih, getProp, if_neg h0]
      · rw [getProp, if_neg hne]
    · rw [getProp, if_neg hne]

theorem getProp_append_singleton_same (o : JsObj) (k : Str) (v : JsVal)
    (h : k ∉ o.map Prod.fst) : getProp (o ++ [(k, v)]) k = v := by
  rw [← setProp_of_not_mem o k v h, getProp_setProp_same]

theorem jsAssign_plain (o : JsObj) (k : Str) (v : JsVal) (hproto : k ≠ "__proto__".toList)
    (hindex : arrayIndex k = none) : jsAssign o k v = setProp o k v := by
  unfold jsAssign
  split_ifs with h
  · rfl
  · rw [hindex, setProp_of_not_mem o k v h]

theorem jsAssign_proto (o : JsObj) (v : JsVal) (h : "__proto__".toList ∉ o.map Prod.fst) :
    jsAssign o "__proto__".toList v = o := by
  unfold jsAssign
  rw [if_neg h, if_pos rfl]

theorem mem_keys_setProp (o : JsObj) (k k' : Str) (v : JsVal) :
    k' ∈ (setProp o k v).map Prod.fst ↔ (k' ∈ o.map Prod.fst ∨ k' = k) := by
  rw [keys_setProp]
  split_ifs with h
  · constructor
    · exact Or.inl
    · rintro (h' | h')
      · exact h'
      · rw [h']
        exact h
  · rw [List.mem_append, List.mem_singleton]

theorem mem_keys_jsAssign (o : JsObj) (k k' : Str) (v : JsVal) :
    k' ∈ (jsAssign o k v).map Prod.fst ↔
      (k' ∈ o.map Prod.fst ∨ (k' = k ∧ k ≠ "__proto__".toList)) := by
  unfold jsAssign
  split_ifs with h hproto
  · rw [mem_keys_setProp]
    constructor
    · rintro (h' | h')
      · exact Or.inl h'
      · rw [h']
        exact Or.inl h
    · rintro (h' | ⟨h', _⟩)
      · exact Or.inl h'
      · exact Or.inr h'
  · constructor
    · exact Or.inl
    · rintro (h' | ⟨_, h'⟩)
      · exact h'
      · exact absurd hproto h'
  · cases hindex : arrayIndex k with
    | none =>
      simp only [List.map_append, List.map_cons, List.map_nil, List.mem_append,
        List.mem_singleton]
      constructor
      · rintro (h' | h')
        · exact Or.inl h'
        · exact Or.inr ⟨h', hproto⟩
      · rintro (h' | ⟨h', _⟩)
        · exact Or.inl h'
        · exact Or.inr h'
    | some n =>
      simp only
      rw [(insertIndexed_perm n k v o).map Prod.fst |>.mem_iff]
      simp only [List.map_cons, List.mem_cons]
      constructor
      · rintro (h' | h')
        · exact Or.inr ⟨h', hproto⟩
        · exact Or.inl h'
      · rintro (h' | ⟨h', _⟩)
        · exact Or.inr h'
        · exact Or.inl h'

theorem nodup_keys_setProp (o : JsObj) (k : Str) (v : JsVal)
    (h : (o.map Prod.fst).Nodup) : ((setProp o k v).map Prod.fst).Nodup := by
  rw [keys_setProp]
  split_ifs with hk
  · exact h
  · exact List.Nodup.append h (by simp) (by simpa using hk)

theorem nodup_keys_jsAssign (o : JsObj) (k : Str) (v : JsVal)
    (h : (o.map Prod.fst).Nodup) : ((jsAssign o k v).map Prod.fst).Nodup := by
  unfold jsAssign
  split_ifs with hk hproto
  · exact nodup_keys_setProp o k v h
  · exact h
  · cases hindex : arrayIndex k with
    | none =>
      simp only
      rw [← setProp_of_not_mem o k v hk]
      exact nodup_keys_setProp o k v h
    | some n =>
      simp only
      rw [((insertIndexed_perm n k v o).map Prod.fst).nodup_iff]
      simp only [List.map_cons, List.nodup_cons]
      exact ⟨hk, h⟩

theorem getProp_jsAssign_same (o : JsObj) (k : Str) (v : JsVal)
    (h : k ≠ "__proto__".toList ∨ k ∈ o.map Prod.fst) :
    getProp (jsAssign o k v) k = v := by
  unfold jsAssign
  split_ifs with hk hproto
  · exact getProp_setProp_same o k v
  · rcases h with h | h
    · exact absurd hproto h
    · exact absurd h hk
  · cases hindex : arrayIndex k with
    | none => exact getProp_append_singleton_same o k v hk
    | some n => exact getProp_insertIndexed_same n k v o hk

theorem getProp_jsAssign_ne (o : JsObj) (k k' : Str) (v : JsVal) (hne : k ≠ k') :
    getProp (jsAssign o k v) k' = getProp o k' := by
  unfold jsAssign
  split_ifs with hk hproto
  · exact getProp_setProp_ne o k k' v hne
  · rfl
  · cases hindex : arrayIndex k with
    | none =>
      simp only
      rw [← setProp_of_not_mem o k v hk]
      exact getProp_setProp_ne o k k' v hne
    | some n => exact getProp_insertIndexed_ne n k k' v o hne

theorem jsRead_jsAssign_same (o : JsObj) (k : Str) (v : JsVal)
    (h : k ≠ "__proto__".toList ∨ k ∈ o.map Prod.fst) :
    jsRead (jsAssign o k v) k = v := by
  have hkey : k ∈ (jsAssign o k v).map Prod.fst := by
    rw [mem_keys_jsAssign]
    rcases h with h | h
    · exact Or.inr ⟨rfl, h⟩
    · exact Or.inl h
  rw [jsRead_of_key _ _ hkey, getProp_jsAssign_same o k v h]

theorem jsRead_jsAssign_ne (o : JsObj) (k k' : Str) (v : JsVal) (hne : k ≠ k') :
    jsRead (jsAssign o k v) k' = jsRead o k' := by
  unfold jsRead
  have hkeys : k' ∈ (jsAssign o k v).map Prod.fst ↔ k' ∈ o.map Prod.fst := by
    rw [mem_keys_jsAssign]
    constructor
    · rintro (h | ⟨h, _⟩)
      · exact h
      · exact absurd h.symm hne
    · exact Or.inl
  by_cases h : k' ∈ o.map Prod.fst
  · rw [if_pos h, if_pos (hkeys.mpr h), getProp_jsAssign_ne o k k' v hne]
  · rw [if_neg h, if_neg (fun h' => h (hkeys.mp h'))]

theorem mem_setProp_entry (o : JsObj) (k : Str) (v : JsVal) (kv : Str × JsVal)
    (h : kv ∈ setProp o k v) : kv ∈ o ∨ kv = (k, v) := by
  induction o with
  | nil =>
    have : kv = (k, v) := by simpa [setProp] using h
    exact Or.inr this
  | cons e rest ih =>
    obtain ⟨k0, v0⟩ := e
    by_cases hk : k0 = k
    · simp only [setProp, if_pos hk, List.mem_cons] at h
      rcases h with h | h
      · exact Or.inr (by rw [h, hk])
      · exact Or.inl (List.mem_cons_of_mem _ h)
    · simp only [setProp, if_neg hk, List.mem_cons] at h
      rcases h with h | h
      · exact Or.inl (by rw [h]; exact List.mem_cons_self _ _)
      · rcases ih h with h' | h'
        · exact Or.inl (List.mem_cons_of_mem _ h')
        · exact Or.inr h'

theorem mem_jsAssign (o : JsObj) (k : Str) (v : JsVal) (kv : Str × JsVal)
    (h : kv ∈ jsAssign o k v) : kv ∈ o ∨ kv = (k, v) := by
  unfold jsAssign at h
  split_ifs at h with hk hproto
  · rcases mem_setProp_entry o k v kv h with h' | h'
    · exact Or.inl h'
    · exact Or.inr h'
  · exact Or.inl h
  · cases hindex : arrayIndex k with
    | none =>
      rw [hindex] at h
      simp only [List.mem_append, List.mem_singleton] at h
      exact h
    | some n =>
      rw [hindex] at h
      simp only at h
      rcases (mem_insertIndexed n k v o kv).mp h with h' | h'
      · exact Or.inr h'
      · exact Or.inl h'

/-! ## Lemmas: objects built by a loop of assignments -/

theorem foldl_jsAssign_keys {α : Type} (cond : α → Bool) (key : α → Str) (val : α → JsVal)
    (items : List α) (acc : JsObj) (k : Str) :
    k ∈ (items.foldl (fun (o : JsObj) (x : α) =>
        if cond x then jsAssign o (key x) (val x) else o) acc).map Prod.fst ↔
      (k ∈ acc.map Prod.fst ∨
        (k ≠ "__proto__".toList ∧ ∃ x ∈ items, cond x = true ∧ key x = k)) := by
  induction items generalizing acc with
  | nil => simp
  | cons x xs ih =>
    rw [List.foldl_cons, ih]
    by_cases hc : cond x = true
    · rw [if_pos hc, mem_keys_jsAssign]
      constructor
      · rintro ((h | ⟨h, hp⟩) | ⟨hp, y, hy, hcy, hky⟩)
        · exact Or.inl h
        · exact Or.inr ⟨by rw [h]; exact hp, x, List.mem_cons_self _ _, hc, h.symm⟩
        · exact Or.inr ⟨hp, y, List.mem_cons_of_mem _ hy, hcy, hky⟩
      · rintro (h | ⟨hp, y, hy, hcy, hky⟩)
        · exact Or.inl (Or.inl h)
        · rcases List.mem_cons.mp hy with hy | hy
          · rw [hy] at hky
            exact Or.inl (Or.inr ⟨hky.symm, by rw [hky]; exact hp⟩)
          · exact Or.inr ⟨hp, y, hy, hcy, hky⟩
    · rw [if_neg hc]
      constructor
      · rintro (h | ⟨hp, y, hy, hcy, hky⟩)
        · exact Or.inl h
        · exact Or.inr ⟨hp, y, List.mem_cons_of_mem _ hy, hcy, hky⟩
      · rintro (h | ⟨hp, y, hy, hcy, hky⟩)
        · exact Or.inl h
        · rcases List.mem_cons.mp hy with hy | hy
          · rw [hy] at hcy
            exact absurd hcy hc
          · exact Or.inr ⟨hp, y, hy, hcy, hky⟩

theorem foldl_jsAssign_nodup {α : Type} (cond : α → Bool) (key : α → Str) (val : α → JsVal)
    (items : List α) (acc : JsObj) (h : (acc.map Prod.fst).Nodup) :
    ((items.foldl (fun (o : JsObj) (x : α) =>
        if cond x then jsAssign o (key x) (val x) else o) acc).map Prod.fst).Nodup := by
  induction items generalizing acc with
  | nil => exact h
  | cons x xs ih =>
    rw [List.foldl_cons]
    apply ih
    split_ifs
    · exact nodup_keys_jsAssign acc (key x) (val x) h
    · exact h

theorem foldl_jsAssign_other {α : Type} (cond : α → Bool) (key : α → Str) (val : α → JsVal)
    (items : List α) (acc : JsObj) (k : Str)
    (hnone : ∀ x ∈ items, cond x = true → key x ≠ k) :
    getProp (items.foldl (fun (o : JsObj) (x : α) =>
        if cond x then jsAssign o (key x) (val x) else o) acc) k = getProp acc k := by
  induction items generalizing acc with
  | nil => rfl
  | cons x xs ih =>
    rw [List.foldl_cons, ih _ (fun y hy => hnone y (List.mem_cons_of_mem _ hy))]
    split_ifs with hc
    · exact getProp_jsAssign_ne acc (key x) k (val x) (hnone x (List.mem_cons_self _ _) hc)
    · rfl

theorem foldl_jsAssign_value {α : Type} (cond : α → Bool) (key : α → Str) (val : α → JsVal)
    (items : List α) (acc : JsObj) (k : Str) (v : JsVal) (hproto : k ≠ "__proto__".toList)
    (hsome : ∃ x ∈ items, cond x = true ∧ key x = k)
    (hall : ∀ x ∈ items, cond x = true → key x = k → val x = v) :
    getProp (items.foldl (fun (o : JsObj) (x : α) =>
        if cond x then jsAssign o (key x) (val x) else o) acc) k = v := by
  induction items generalizing acc with
  | nil =>
    obtain ⟨x, hx, _⟩ := hsome
    cases hx
  | cons x xs ih =>
    rw [List.foldl_cons]
    by_cases hlater : ∃ y ∈ xs, cond y = true ∧ key y = k
    · exact ih _ hlater (fun y hy => hall y (List.mem_cons_of_mem _ hy))
    · have hnone : ∀ y ∈ xs, cond y = true → key y ≠ k :=
        fun y hy hcy hky => hlater ⟨y, hy, hcy, hky⟩
      rw [foldl_jsAssign_other cond key val xs _ k hnone]
      obtain ⟨y, hy, hcy, hky⟩ := hsome
      rcases List.mem_cons.mp hy with hy | hy
      · rw [hy] at hcy hky
        rw [if_pos hcy, hky, getProp_jsAssign_same acc k (val x) (Or.inl hproto)]
        exact hall x (List.mem_cons_self _ _) hcy hky
      · exact absurd hky (hnone y hy hcy)

theorem foldl_jsAssign_mem {α : Type} (cond : α → Bool) (key : α → Str) (val : α → JsVal)
    (items : List α) (acc : JsObj) (kv : Str × JsVal)
    (h : kv ∈ items.foldl (fun (o : JsObj) (x : α) =>
        if cond x then jsAssign o (key x) (val x) else o) acc) :
    kv ∈ acc ∨ ∃ x ∈ items, cond x = true ∧ kv = (key x, val x) := by
  induction items generalizing acc with
  | nil => exact Or.inl h
  | cons x xs ih =>
    rw [List.foldl_cons] at h
    rcases ih _ h with h' | ⟨y, hy, hcy, hkv⟩
    · split_ifs at h' with hc
      · rcases mem_jsAssign acc (key x) (val x) kv h' with h'' | h''
        · exact Or.inl h''
        · exact Or.inr ⟨x, List.mem_cons_self _ _, hc, h''⟩
      · exact Or.inl h'
    · exact Or.inr ⟨y, List.mem_cons_of_mem _ hy, hcy, hkv⟩

theorem foldl_jsAssign_plain {α : Type} (cond : α → Bool) (key : α → Str) (val : α → JsVal)
    (items : List α) (acc : JsObj)
    (hplain : ∀ x ∈ items, key x ≠ "__proto__".toList ∧ arrayIndex (key x) = none) :
    items.foldl (fun (o : JsObj) (x : α) =>
        if cond x then jsAssign o (key x) (val x) else o) acc =
      items.foldl (fun (o : JsObj) (x : α) =>
        if cond x then setProp o (key x) (val x) else o) acc := by
  induction items generalizing acc with
  | nil => rfl
  | cons x xs ih =>
    rw [List.foldl_cons, List.foldl_cons,
      ih _ (fun y hy => hplain y (List.mem_cons_of_mem _ hy))]
    have hx := hplain x (List.mem_cons_self _ _)
    rw [jsAssign_plain acc (key x) (val x) hx.1 hx.2]

theorem foldl_setProp_fresh {α : Type} (cond : α → Bool) (key : α → Str) (val : α → JsVal)
    (items : List α) (acc : JsObj)
    (hfresh : ∀ x ∈ items, key x ∉ acc.map Prod.fst)
    (hnodup : (items.map key).Nodup) :
    items.foldl (fun (o : JsObj) (x : α) =>
        if cond x then setProp o (key x) (val x) else o) acc =
      acc ++ (items.filter cond).map (fun x => (key x, val x)) := by
  induction items generalizing acc with
  | nil => simp
  | cons x xs ih =>
    rw [List.map_cons, List.nodup_cons] at hnodup
    have hxs : ∀ y ∈ xs, key y ≠ key x := by
      intro y hy hEq
      apply hnodup.1
      rw [← hEq]
      exact List.mem_map_of_mem _ hy
    rw [List.foldl_cons]
    by_cases hc : cond x = true
    · rw [if_pos hc, setProp_of_not_mem acc (key x) _ (hfresh x (List.mem_cons_self _ _)),
        ih _ ?_ hnodup.2, List.filter_cons, if_pos hc]
      · simp
      · intro y hy hmem
        simp only [List.map_append, List.map_cons, List.map_nil, List.mem_append,
          List.mem_singleton] at hmem
        rcases hmem with hmem | hmem
        · exact hfresh y (List.mem_cons_of_mem _ hy) hmem
        · exact hxs y hy hmem
    · rw [if_neg hc, ih acc (fun y hy => hfresh y (List.mem_cons_of_mem _ hy)) hnodup.2,
        List.filter_cons, if_neg hc]

/-! ## Lemmas: the row object -/

theorem rowObject_eq_fold (headers row : List Str) :
    rowObject headers row =
      headers.enum.foldl (fun (o : JsObj) (x : Nat × Str) =>
        if (fun _ => true) x then jsAssign o x.2 (.str (row.getD x.1 [])) else o) [] := by
  unfold rowObject
  congr 1

theorem mem_enum_iff (headers : List Str) (x : Nat × Str) :
    x ∈ headers.enum ↔ headers[x.1]? = some x.2 := by
  obtain ⟨j, header⟩ := x
  exact List.mk_mem_enum_iff_getElem?

theorem rowObject_keys (headers row : List Str) (k : Str) :
    k ∈ (rowObject headers row).map Prod.fst ↔ (k ∈ headers ∧ k ≠ "__proto__".toList) := by
  rw [rowObject_eq_fold, foldl_jsAssign_keys]
  simp only [List.map_nil, List.not_mem_nil, false_or, true_and]
  constructor
  · rintro ⟨hp, x, hx, hk⟩
    rw [mem_enum_iff] at hx
    rw [← hk]
    exact ⟨List.getElem?_mem hx, by rw [hk]; exact hp⟩
  · rintro ⟨hk, hp⟩
    obtain ⟨j, hj⟩ := List.getElem?_of_mem hk
    exact ⟨hp, (j, k), (mem_enum_iff headers (j, k)).mpr hj, rfl⟩

theorem rowObject_nodup (headers row : List Str) :
    ((rowObject headers row).map Prod.fst).Nodup := by
  rw [rowObject_eq_fold]
  exact foldl_jsAssign_nodup _ _ _ _ [] (by simp)

theorem rowObject_value (headers row : List Str) (hnodup : headers.Nodup) (j : Nat)
    (header : Str) (hj : headers[j]? = some header) (hproto : header ≠ "__proto__".toList) :
    getProp (rowObject headers row) header = .str (row.getD j []) := by
  rw [rowObject_eq_fold]
  apply foldl_jsAssign_value _ _ _ _ _ _ _ hproto
  · exact ⟨(j, header), (mem_enum_iff headers (j, header)).mpr hj, rfl, rfl⟩
  · intro x hx _ hk
    rw [mem_enum_iff] at hx
    rw [hk] at hx
    have hEq : x.1 = j := by
      have h1 := List.getElem?_eq_some_iff.mp hx
      have h2 := List.getElem?_eq_some_iff.mp hj
      obtain ⟨hlt1, he1⟩ := h1
      obtain ⟨hlt2, he2⟩ := h2
      exact (List.Nodup.getElem_inj_iff hnodup).mp (he1.trans he2.symm)
    rw [hEq]

theorem rowObject_mem (headers row : List Str) (kv : Str × JsVal)
    (h : kv ∈ rowObject headers row) :
    ∃ (j : Nat) (header : Str), headers[j]? = some header ∧
      kv = (header, .str (row.getD j [])) := by
  rw [rowObject_eq_fold] at h
  rcases foldl_jsAssign_mem _ _ _ _ _ _ h with h' | ⟨x, hx, _, hkv⟩
  · cases h'
  · exact ⟨x.1, x.2, (mem_enum_iff headers x).mp hx, hkv⟩

theorem rowObject_read (headers row : List Str) (hnodup : headers.Nodup) (j : Nat)
    (header : Str) (hj : headers[j]? = some header) (hproto : header ≠ "__proto__".toList) :
    jsRead (rowObject headers row) header = .str (row.getD j []) := by
  rw [jsRead_of_key _ _ ((rowObject_keys headers row header).mpr
    ⟨List.getElem?_mem hj, hproto⟩)]
  exact rowObject_value headers row hnodup j header hj hproto

theorem rowObject_read_proto (headers row : List Str) :
    jsRead (rowObject headers row) "__proto__".toList = .objectPrototype := by
  rw [jsRead_of_not_key]
  · rfl
  · intro h
    exact ((rowObject_keys headers row _).mp h).2 rfl

theorem keys_enum_pairs (headers : List Str) (n : Nat) :
    ((headers.enumFrom n).map (fun jh => jh.2)) = headers := by
  induction headers generalizing n with
  | nil => rfl
  | cons h hs ih => simp [List.enumFrom_cons, ih]

theorem rowObject_eq_zip (headers row : List Str) (hnodup : headers.Nodup)
    (hplain : ∀ header ∈ headers,
      header ≠ "__proto__".toList ∧ arrayIndex header = none) :
    rowObject headers row =
      headers.enum.map (fun ih => (ih.2, JsVal.str (row.getD ih.1 []))) := by
  rw [rowObject_eq_fold, foldl_jsAssign_plain, foldl_setProp_fresh]
  · simp
  · simp
  · rw [List.enum, keys_enum_pairs headers 0]
    exact hnodup
  · intro x hx
    rw [mem_enum_iff] at hx
    exact hplain x.2 (List.getElem?_mem hx)

/-- Every own value of a row object is a string. -/
theorem rowObject_stringValued (headers row : List Str) :
    ∀ kv ∈ rowObject headers row, ∃ s, kv.2 = JsVal.str s := by
  intro kv hkv
  obtain ⟨j, header, _, hEq⟩ := rowObject_mem headers row kv hkv
  rw [hEq]
  exact ⟨_, rfl⟩

theorem parseCSV_stringValued (content : Str) (t : ParsedData)
    (h : parseCSV content = .ok t) :
    ∀ row ∈ t.sampleData, ∀ kv ∈ row, ∃ s, kv.2 = JsVal.str s := by
  have hne := parseCSV_ok_lines content t h
  rw [parseCSV_eq_ok content hne] at h
  injection h with h
  subst h
  intro row hrow
  simp only [List.mem_map] at hrow
  obtain ⟨i, _, hi⟩ := hrow
  rw [← hi]
  exact rowObject_stringValued _ _

/-- In a parsed table every row has exactly the headers other than `__proto__` as keys. -/
theorem parseCSV_row_keys (content : Str) (t : ParsedData)
    (h : parseCSV content = .ok t) :
    ∀ row ∈ t.sampleData, ∀ k : Str,
      k ∈ row.map Prod.fst ↔ (k ∈ t.headers ∧ k ≠ "__proto__".toList) := by
  have hne := parseCSV_ok_lines content t h
  rw [parseCSV_eq_ok content hne] at h
  injection h with h
  subst h
  intro row hrow k
  simp only [List.mem_map] at hrow
  obtain ⟨i, _, hi⟩ := hrow
  rw [← hi]
  exact rowObject_keys _ _ k

/-- In a parsed table the read `row[header]` is a string for every header other than
`__proto__`, and `Object.prototype` for the header `__proto__`. -/
theorem parseCSV_cells (content : Str) (t : ParsedData) (h : parseCSV content = .ok t) :
    ∀ row ∈ t.sampleData,
      (∀ header ∈ t.headers, header ≠ "__proto__".toList →
        ∃ s, jsRead row header = .str s) ∧
      jsRead row "__proto__".toList = .objectPrototype := by
  intro row hrow
  have hkeys := parseCSV_row_keys content t h row hrow
  have hvalues := parseCSV_stringValued content t h row hrow
  constructor
  · intro header hheader hproto
    have hkey : header ∈ row.map Prod.fst := (hkeys header).mpr ⟨hheader, hproto⟩
    rw [jsRead_of_key row header hkey]
    obtain ⟨kv, hkv, hEq⟩ := getProp_of_key_mem row header hkey
    obtain ⟨s, hs⟩ := hvalues kv hkv
    exact ⟨s, by rw [← hEq, hs]⟩
  · rw [jsRead_of_not_key]
    · rfl
    · intro hkey
      exact ((hkeys _).mp hkey).2 rfl

/-! ## Theorems: sample rows and normalisation -/

/-- C12 (counterexample): for the text with the distinct headers `a`, `__proto__`,
`constructor` and the data line `1,2,3`, the row has the keys `a` and `constructor` only:
the assignment to `__proto__` creates no property, so the row does not map that header to
its field `2`; reading it gives `Object.prototype`. -/
theorem parseCSV_sample_row_proto :
    (parseCSV "a,__proto__,constructor\n1,2,3".toList).toOption.map
      (fun t => (t.headers, t.sampleData)) =
      some (["a".toList, "__proto__".toList, "constructor".toList],
        [[("a".toList, .str "1".toList), ("constructor".toList, .str "3".toList)]]) ∧
    ["a".toList, "__proto__".toList, "constructor".toList].Nodup ∧
    jsRead [("a".toList, .str "1".toList), ("constructor".toList, .str "3".toList)]
      "__proto__".toList = .objectPrototype ∧
    jsRead [("a".toList, .str "1".toList), ("constructor".toList, .str "3".toList)]
      "__proto__".toList ≠ .str "2".toList := by
  refine ⟨rfl, by decide, rfl, ?_⟩
  intro h
  cases h

/-- C12 (amended): each sample row of `parseCSV` is the positional zip of the tokenized data
line against the headers, for distinct headers none of which is `__proto__`: row `i` has
exactly the headers as keys, in header order when no header is an array index; header `j`
reads as field `j` of the tokenized `(i+1)`-th non-blank line when that field exists and as
the empty string otherwise; every property of the row is such a pair, so fields at positions
beyond the headers appear nowhere in the row. -/
theorem parseCSV_sample_row_zip (content : Str) (t : ParsedData)
    (h : parseCSV content = .ok t) (hdistinct : t.headers.Nodup)
    (hproto : "__proto__".toList ∉ t.headers)
    (i : Nat) (hi : i < t.sampleData.length) :
    ∃ row, t.sampleData[i]? = some row ∧
      (∀ key : Str, key ∈ row.map Prod.fst ↔ key ∈ t.headers) ∧
      (row.map Prod.fst).Nodup ∧
      ((∀ header ∈ t.headers, arrayIndex header = none) →
        row = t.headers.enum.map (fun jh => (jh.2, JsVal.str
          ((parseCSVLine ((contentLines content).getD (i + 1) []) t.delimiter).getD
            jh.1 [])))) ∧
      (∀ (j : Nat) (header field : Str), t.headers[j]? = some header →
        (parseCSVLine ((contentLines content).getD (i + 1) []) t.delimiter)[j]? =
          some field →
        jsRead row header = .str field) ∧
      (∀ (j : Nat) (header : Str), t.headers[j]? = some header →
        (parseCSVLine ((contentLines content).getD (i + 1) []) t.delimiter).length ≤ j →
        jsRead row header = .str []) ∧
      (∀ kv ∈ row, ∃ (j : Nat) (header : Str), t.headers[j]? = some header ∧
        kv = (header, JsVal.str
          ((parseCSVLine ((contentLines content).getD (i + 1) []) t.delimiter).getD j []))) ∧
      (∀ key : Str, key ∉ t.headers → getProp row key = .undefined) := by
  have hne := parseCSV_ok_lines content t h
  rw [parseCSV_eq_ok content hne] at h
  injection h with h
  subst h
  simp only at hdistinct hi hproto ⊢
  simp only [List.length_map, List.length_range'] at hi
  have hidx : 1 + 1 * i = i + 1 := by omega
  have hget : ∀ (l : List Str) (k : Nat) (f : Str), l[k]? = some f → l.getD k [] = f := by
    intro l k f hk
    rw [List.getD_eq_getElem?_getD, hk]
    rfl
  have hnone : ∀ (l : List Str) (k : Nat), l.length ≤ k → l.getD k [] = [] := by
    intro l k hk
    rw [List.getD_eq_getElem?_getD, List.getElem?_eq_none hk]
    rfl
  have hne' : ∀ header ∈ parseCSVLine ((contentLines content).getD 0 [])
      (detectCSVDelimiter ((contentLines content).getD 0 [])),
      header ≠ "__proto__".toList := by
    intro header hmem hEq
    rw [hEq] at hmem
    exact hproto hmem
  refine ⟨rowObject (parseCSVLine ((contentLines content).getD 0 [])
      (detectCSVDelimiter ((contentLines content).getD 0 [])))
    (parseCSVLine ((contentLines content).getD (i + 1) [])
      (detectCSVDelimiter ((contentLines content).getD 0 []))), ?_, ?_, ?_, ?_, ?_, ?_, ?_, ?_⟩
  · rw [List.getElem?_map, List.getElem?_range' _ _ hi]
    simp only [Option.map_some', hidx]
  · intro key
    rw [rowObject_keys]
    constructor
    · exact fun hk => hk.1
    · exact fun hk => ⟨hk, hne' key hk⟩
  · exact rowObject_nodup _ _
  · intro hindex
    exact rowObject_eq_zip _ _ hdistinct (fun header hmem => ⟨hne' header hmem, hindex header hmem⟩)
  · intro j header field hj hf
    rw [rowObject_read _ _ hdistinct j header hj (hne' header (List.getElem?_mem hj)),
      hget _ _ _ hf]
  · intro j header hj hlen
    rw [rowObject_read _ _ hdistinct j header hj (hne' header (List.getElem?_mem hj)),
      hnone _ _ hlen]
  · intro kv hkv
    exact rowObject_mem _ _ kv hkv
  · intro key hkey
    apply getProp_of_not_mem
    intro hmem
    exact hkey ((rowObject_keys _ _ key).mp hmem).1

/-- C12 witness: in `zipContent` the second data line `1,2,3,4` has one field more than
the three headers; its row has exactly the keys `a`, `b`, `c`, and the first data line
`1,2` gives `c` the empty string. -/
theorem parseCSV_sample_row_zip_witness :
    parseCSV zipContent = .ok zipTable ∧ zipTable.headers.Nodup ∧
    "__proto__".toList ∉ zipTable.headers ∧
    1 < zipTable.sampleData.length ∧
    (∃ row, zipTable.sampleData[1]? = some row ∧
      (∀ key : Str, key ∈ row.map Prod.fst ↔ key ∈ zipTable.headers) ∧
      (∀ key : Str, key ∉ zipTable.headers → getProp row key = .undefined)) ∧
    zipTable.sampleData.map (fun row => jsRead row "c".toList) =
      [.str [], .str "3".toList] := by
  refine ⟨rfl, by decide, by decide, by decide, ?_, rfl⟩
  obtain ⟨row, h1, h2, _, _, _, _, _, h8⟩ :=
    parseCSV_sample_row_zip zipContent zipTable rfl (by decide) (by decide) 1 (by decide)
  exact ⟨row, h1, h2, h8⟩

/-! ## Lemmas: the standard row -/

theorem standardRow_eq_fold (row : JsObj) (columnMapping : List (Str × Str)) (acc : JsObj) :
    columnMapping.foldl
      (fun (standardRow : JsObj) (entry : Str × Str) =>
        if !(jsRead row entry.2).isUndefined then
          jsAssign standardRow entry.1 (jsRead row entry.2)
        else standardRow) acc =
    columnMapping.foldl
      (fun (o : JsObj) (x : Str × Str) =>
        if (fun (e : Str × Str) => !(jsRead row e.2).isUndefined) x then
          jsAssign o x.1 (jsRead row x.2)
        else o) acc := rfl

theorem convertToStandardFormat_eq_map (parsedData : ParsedData)
    (columnMapping : List (Str × Str)) :
    convertToStandardFormat parsedData columnMapping =
      parsedData.sampleData.map (fun row =>
        columnMapping.foldl
          (fun (standardRow : JsObj) (entry : Str × Str) =>
            if !(jsRead row entry.2).isUndefined then
              jsAssign standardRow entry.1 (jsRead row entry.2)
            else standardRow) []) := by
  unfold convertToStandardFormat
  have h := foldl_push_map
    (fun (row : JsObj) => columnMapping.foldl
      (fun (standardRow : JsObj) (entry : Str × Str) =>
        if !(jsRead row entry.2).isUndefined then
          jsAssign standardRow entry.1 (jsRead row entry.2)
        else standardRow) [])
    parsedData.sampleData []
  simp only [List.nil_append] at h
  rw [h]

theorem mapping_functional (columnMapping : List (Str × Str))
    (hkeys : (columnMapping.map Prod.fst).Nodup) (f c c' : Str)
    (h1 : (f, c) ∈ columnMapping) (h2 : (f, c') ∈ columnMapping) : c = c' := by
  induction columnMapping with
  | nil => cases h1
  | cons e es ih =>
    rw [List.map_cons, List.nodup_cons] at hkeys
    rcases List.mem_cons.mp h1 with h1 | h1
    · rcases List.mem_cons.mp h2 with h2 | h2
      · rw [← h1] at h2
        exact ((Prod.mk.inj h2).2).symm
      · exfalso
        apply hkeys.1
        rw [← h1]
        exact List.mem_map.mpr ⟨(f, c'), h2, rfl⟩
    · rcases List.mem_cons.mp h2 with h2 | h2
      · exfalso
        apply hkeys.1
        rw [← h2]
        exact List.mem_map.mpr ⟨(f, c), h1, rfl⟩
      · exact ih hkeys.2 h1 h2

/-- C13 (counterexample): the row parsed from the header `a` and the data line `1` has no
column `toString`, yet the mapping `x -> toString` introduces the field `x`, holding the
function the row inherits under that name. -/
theorem convertToStandardFormat_inherited_column :
    (parseCSV "a\n1".toList).toOption.map (fun t => t.sampleData) =
      some [[("a".toList, .str "1".toList)]] ∧
    "toString".toList ∉ [("a".toList, JsVal.str "1".toList)].map Prod.fst ∧
    (parseCSV "a\n1".toList).toOption.map
      (fun t => convertToStandardFormat t [("x".toList, "toString".toList)]) =
      some [[("x".toList, .fn "toString".toList)]] :=
  ⟨rfl, by decide, rfl⟩

/-- C13 (amended): for a mapping with distinct canonical fields, none of them `__proto__`,
and the row at position `i`, the contact at position `i` has the canonical field `f` as a
key exactly when the mapping has `f -> c` and the read `row[c]` is defined; its value is then
`row[c]`; a field whose source column reads as `undefined` is not a key of the contact, and
every key of the contact is a canonical field of the mapping. The read `row[c]` is the own
property when `c` is a key of the row and the member inherited from `Object.prototype`
otherwise, so it is defined for `__proto__`, `constructor` and the method names of
`Object.prototype` even when the row has no such column. -/
theorem convertToStandardFormat_fields (parsedData : ParsedData)
    (columnMapping : List (Str × Str)) (hkeys : (columnMapping.map Prod.fst).Nodup)
    (hproto : "__proto__".toList ∉ columnMapping.map Prod.fst)
    (i : Nat) (row : JsObj) (hrow : parsedData.sampleData[i]? = some row) :
    ∃ contact, (convertToStandardFormat parsedData columnMapping)[i]? = some contact ∧
      (∀ f : Str, f ∈ contact.map Prod.fst ↔
        ∃ c, (f, c) ∈ columnMapping ∧ (jsRead row c).isUndefined = false) ∧
      (∀ f c : Str, (f, c) ∈ columnMapping → (jsRead row c).isUndefined = false →
        jsRead contact f = jsRead row c ∧ getProp contact f = jsRead row c) ∧
      (∀ f c : Str, (f, c) ∈ columnMapping → (jsRead row c).isUndefined = true →
        f ∉ contact.map Prod.fst ∧ getProp contact f = .undefined) ∧
      (∀ f : Str, f ∈ contact.map Prod.fst → f ∈ columnMapping.map Prod.fst) ∧
      (contact.map Prod.fst).Nodup ∧
      (∀ c : Str, c ∈ row.map Prod.fst → jsRead row c = getProp row c) ∧
      (∀ c : Str, c ∉ row.map Prod.fst →
        ((jsRead row c).isUndefined = false ↔
          (c = "__proto__".toList ∨ c = "constructor".toList ∨
            c ∈ objectPrototypeMethods))) := by
  have hne : ∀ f c : Str, (f, c) ∈ columnMapping → f ≠ "__proto__".toList := by
    intro f c hmem hEq
    apply hproto
    rw [← hEq]
    exact List.mem_map.mpr ⟨(f, c), hmem, rfl⟩
  have hmemKeys : ∀ f : Str,
      f ∈ (columnMapping.foldl
        (fun (standardRow : JsObj) (entry : Str × Str) =>
          if !(jsRead row entry.2).isUndefined then
            jsAssign standardRow entry.1 (jsRead row entry.2)
          else standardRow) []).map Prod.fst ↔
      ∃ c, (f, c) ∈ columnMapping ∧ (jsRead row c).isUndefined = false := by
    intro f
    rw [standardRow_eq_fold, foldl_jsAssign_keys]
    simp only [List.map_nil, List.not_mem_nil, false_or, Bool.not_eq_true']
    constructor
    · rintro ⟨_, x, hx, hdef, hk⟩
      exact ⟨x.2, by rw [← hk]; exact hx, hdef⟩
    · rintro ⟨c, hc, hdef⟩
      exact ⟨hne f c hc, (f, c), hc, hdef, rfl⟩
  refine ⟨_, ?_, hmemKeys, ?_, ?_, ?_, ?_, ?_, ?_⟩
  · rw [convertToStandardFormat_eq_map, List.getElem?_map, hrow]
    rfl
  · intro f c hc hdef
    have hvalue : getProp (columnMapping.foldl
        (fun (standardRow : JsObj) (entry : Str × Str) =>
          if !(jsRead row entry.2).isUndefined then
            jsAssign standardRow entry.1 (jsRead row entry.2)
          else standardRow) []) f = jsRead row c := by
      rw [standardRow_eq_fold]
      apply foldl_jsAssign_value _ _ _ _ _ _ _ (hne f c hc)
      · exact ⟨(f, c), hc, by simp [hdef], rfl⟩
      · intro x hx _ hk
        have hx' : (f, x.2) ∈ columnMapping := by
          rw [← hk]
          exact hx
        rw [mapping_functional columnMapping hkeys f x.2 c hx' hc]
    refine ⟨?_, hvalue⟩
    rw [jsRead_of_key _ _ ((hmemKeys f).mpr ⟨c, hc, hdef⟩)]
    exact hvalue
  · intro f c hc hundef
    have hnot : f ∉ (columnMapping.foldl
        (fun (standardRow : JsObj) (entry : Str × Str) =>
          if !(jsRead row entry.2).isUndefined then
            jsAssign standardRow entry.1 (jsRead row entry.2)
          else standardRow) []).map Prod.fst := by
      rw [hmemKeys]
      rintro ⟨c', hc', hdef'⟩
      rw [mapping_functional columnMapping hkeys f c' c hc' hc, hundef] at hdef'
      cases hdef'
    exact ⟨hnot, getProp_of_not_mem _ _ hnot⟩
  · intro f hf
    rw [hmemKeys] at hf
    obtain ⟨c, hc, _⟩ := hf
    exact List.mem_map.mpr ⟨(f, c), hc, rfl⟩
  · rw [standardRow_eq_fold]
    exact foldl_jsAssign_nodup _ _ _ _ [] (by simp)
  · intro c hc
    exact jsRead_of_key row c hc
  · intro c hc
    rw [jsRead_of_not_key row c hc, ← Bool.not_eq_true, inheritedMember_undefined_iff]
    tauto

/-- C13 witness: a mapping whose third source column `zzz` is not in the table; the
contacts have the fields `first` and `third` only. -/
theorem convertToStandardFormat_fields_witness :
    (∃ contact,
      (convertToStandardFormat zipTable
        [("first".toList, "a".toList), ("third".toList, "c".toList),
         ("missing".toList, "zzz".toList)])[0]? = some contact ∧
      ∀ f : Str, f ∈ contact.map Prod.fst →
        f ∈ [("first".toList, "a".toList), ("third".toList, "c".toList),
          ("missing".toList, "zzz".toList)].map Prod.fst) ∧
    convertToStandardFormat zipTable
      [("first".toList, "a".toList), ("third".toList, "c".toList),
       ("missing".toList, "zzz".toList)] =
      [[("first".toList, .str "1".toList), ("third".toList, .str [])],
       [("first".toList, .str "1".toList), ("third".toList, .str "3".toList)]] := by
  refine ⟨?_, rfl⟩
  obtain ⟨contact, h1, _, _, _, h5, _⟩ :=
    convertToStandardFormat_fields zipTable
      [("first".toList, "a".toList), ("third".toList, "c".toList),
       ("missing".toList, "zzz".toList)] (by decide) (by decide) 0
      [("a".toList, .str "1".toList), ("b".toList, .str "2".toList),
       ("c".toList, .str [])] rfl
  exact ⟨contact, h1, h5⟩

/-- C14 (amended): `convertToStandardFormat` never fails; with a mapping of zero entries
it returns one empty contact per sample row, so its length is the number of sample rows
and is zero only when the table has no sample row. -/
theorem convertToStandardFormat_empty_mapping (parsedData : ParsedData) :
    convertToStandardFormat parsedData [] = parsedData.sampleData.map (fun _ => []) ∧
    (convertToStandardFormat parsedData []).length = parsedData.sampleData.length ∧
    ((convertToStandardFormat parsedData []).length = 0 ↔ parsedData.sampleData = []) := by
  have h : convertToStandardFormat parsedData [] =
      parsedData.sampleData.map (fun _ => []) := by
    rw [convertToStandardFormat_eq_map]
    simp
  refine ⟨h, ?_, ?_⟩
  · rw [h, List.length_map]
  · rw [h, List.length_map, List.length_eq_zero]

/-- C14 (counterexample): with a mapping of zero entries, `convertToStandardFormat` on the
table parsed from a header and one data row does not fail: it returns the list of one
empty contact, whose length is 1, not 0. -/
theorem convertToStandardFormat_empty_mapping_returns :
    (parseCSV "email\na@x.com".toList).toOption.map
      (fun t => ((convertToStandardFormat t []).map (fun contact => contact.length),
        (convertToStandardFormat t []).length)) = some ([0], 1) := by
  decide

/-! ## Theorems: mapping suggestions -/

theorem includes_iff (s pattern : Str) : includes s pattern = true ↔ pattern <:+: s := by
  induction s with
  | nil =>
    rw [includes, List.infix_nil]
    cases pattern <;> simp [List.isEmpty]
  | cons c cs ih =>
    rw [includes, List.infix_cons_iff, Bool.or_eq_true, ih, List.isPrefixOf_iff_prefix]

theorem foldl_assign_lookup (assign : Str → Option Str) (headers : List Str) (init : JsObj)
    (f : Str) :
    getProp (headers.foldl
      (fun (suggestions : JsObj) (header : Str) =>
        match assign header with
        | some fieldName => setProp suggestions fieldName (.str header)
        | none => suggestions) init) f =
      match headers.reverse.find? (fun header => assign header == some f) with
      | some header => .str header
      | none => getProp init f := by
  induction headers generalizing init with
  | nil => simp
  | cons h hs ih =>
    rw [List.foldl_cons, ih, List.reverse_cons, List.find?_append]
    cases hfind : hs.reverse.find? (fun header => assign header == some f) with
    | some header => simp
    | none =>
      simp only [Option.none_or, List.find?_cons, List.find?_nil]
      cases hassign : assign h with
      | none => simp
      | some g =>
        by_cases hg : g = f
        · subst hg
          simp [getProp_setProp_same]
        · have hne : (some g == some f) = false := by simpa using hg
          simp only [hne]
          exact getProp_setProp_ne _ _ _ _ hg

/-- C15: the rules are tried in the fixed order email, first_name, last_name,
company_name, job_title, phone, linkedin_url, industry, location, company_size; a
normalised header is assigned the field of the first rule one of whose patterns is a
substring of it; the suggestion for a field is the last header assigned to it; and the
headers `["Email Address", "Company Name"]` give exactly
`{email: "Email Address", company_name: "Company Name"}`. -/
theorem generateFieldMappingSuggestions_first_match :
    mappingRules.map Prod.fst =
      ["email".toList, "first_name".toList, "last_name".toList, "company_name".toList,
       "job_title".toList, "phone".toList, "linkedin_url".toList, "industry".toList,
       "location".toList, "company_size".toList] ∧
    (∀ (normalized fieldName : Str), matchField normalized = some fieldName ↔
      ∃ patterns before after, mappingRules = before ++ (fieldName, patterns) :: after ∧
        (∃ pattern ∈ patterns, pattern <:+: normalized) ∧
        ∀ rule ∈ before, ∀ pattern ∈ rule.2, ¬ pattern <:+: normalized) ∧
    (∀ (headers : List Str) (fieldName : Str),
      getProp (generateFieldMappingSuggestions headers) fieldName =
        match headers.reverse.find?
          (fun header => matchField (normalizeHeader header) == some fieldName) with
        | some header => .str header
        | none => .undefined) ∧
    normalizeHeader "Email Address".toList = "email address".toList ∧
    normalizeHeader "Company Name".toList = "company name".toList ∧
    generateFieldMappingSuggestions ["Email Address".toList, "Company Name".toList] =
      [("email".toList, .str "Email Address".toList),
       ("company_name".toList, .str "Company Name".toList)] := by
  refine ⟨rfl, ?_, ?_, by decide, by decide, rfl⟩
  · intro normalized fieldName
    unfold matchField
    rw [Option.map_eq_some']
    constructor
    · rintro ⟨rule, hfind, hfield⟩
      rw [List.find?_eq_some] at hfind
      obtain ⟨hmatch, before, after, hsplit, hbefore⟩ := hfind
      refine ⟨rule.2, before, after, ?_, ?_, ?_⟩
      · rw [hsplit, ← hfield]
      · rw [List.any_eq_true] at hmatch
        obtain ⟨pattern, hp, hinc⟩ := hmatch
        exact ⟨pattern, hp, (includes_iff _ _).mp hinc⟩
      · intro r hr pattern hp hinfix
        have hno := hbefore r hr
        have hyes : r.2.any (fun pattern => includes normalized pattern) = true := by
          rw [List.any_eq_true]
          exact ⟨pattern, hp, (includes_iff _ _).mpr hinfix⟩
        rw [hyes] at hno
        cases hno
    · rintro ⟨patterns, before, after, hsplit, ⟨pattern, hp, hinfix⟩, hbefore⟩
      refine ⟨(fieldName, patterns), ?_, rfl⟩
      rw [List.find?_eq_some]
      refine ⟨?_, before, after, hsplit, ?_⟩
      · rw [List.any_eq_true]
        exact ⟨pattern, hp, (includes_iff _ _).mpr hinfix⟩
      · intro r hr
        rw [Bool.not_eq_true', ← Bool.not_eq_true, List.any_eq_true]
        rintro ⟨pattern', hp', hinc⟩
        exact hbefore r hr pattern' hp' ((includes_iff _ _).mp hinc)
  · intro headers fieldName
    unfold generateFieldMappingSuggestions
    rw [foldl_assign_lookup (fun header => matchField (normalizeHeader header))]
    rfl

/-! ## Lemmas: the email pattern -/

theorem dropWhile_run (p : Char → Bool) (a : Str) (x : Char) (rest : Str)
    (ha : ∀ c ∈ a, p c = true) (hx : p x = false) :
    (a ++ x :: rest).dropWhile p = x :: rest ∧ (a ++ x :: rest).takeWhile p = a := by
  induction a with
  | nil => simp [List.dropWhile_cons, List.takeWhile_cons, hx]
  | cons c cs ih =>
    have hc : p c = true := ha c (List.mem_cons_self _ _)
    have ih' := ih (fun y hy => ha y (List.mem_cons_of_mem _ hy))
    simp [List.dropWhile_cons, List.takeWhile_cons, hc, ih'.1, ih'.2]

/-- The function `emailRegexTest` accepts exactly the language of
`/^[^\s@]+@[^\s@]+\.[^\s@]+$/`: three non-empty runs of class characters separated by an
`@` and a dot. -/
theorem emailRegexTest_iff (s : Str) :
    emailRegexTest s = true ↔
      ∃ a b c : Str, s = a ++ '@' :: (b ++ '.' :: c) ∧ a ≠ [] ∧ b ≠ [] ∧ c ≠ [] ∧
        (∀ x ∈ a, isEmailChar x = true) ∧ (∀ x ∈ b, isEmailChar x = true) ∧
        (∀ x ∈ c, isEmailChar x = true) := by
  constructor
  · intro h
    unfold emailRegexTest at h
    split at h
    · rename_i domain hdrop
      simp only [Bool.and_eq_true, bne_iff_ne, ne_eq, List.all_eq_true] at h
      obtain ⟨⟨ha, hall⟩, hdot⟩ := h
      have hmem : '.' ∈ (domain.drop 1).dropLast := by simpa using hdot
      have hs : s = s.takeWhile isEmailChar ++ '@' :: domain := by
        conv_lhs => rw [← List.takeWhile_append_dropWhile isEmailChar s, hdrop]
      cases domain with
      | nil => simp at hmem
      | cons x rest =>
        simp only [List.drop_succ_cons, List.drop_zero] at hmem
        have hrest : rest ≠ [] := by
          intro hnil
          rw [hnil] at hmem
          simp at hmem
        obtain ⟨m1, m2, hm⟩ := List.append_of_mem hmem
        have hrestEq : rest = (m1 ++ '.' :: m2) ++ [rest.getLast hrest] := by
          rw [← hm]
          exact (List.dropLast_append_getLast hrest).symm
        refine ⟨s.takeWhile isEmailChar, x :: m1, m2 ++ [rest.getLast hrest], ?_, ha,
          by simp, by simp, ?_, ?_, ?_⟩
        · conv_lhs => rw [hs, hrestEq]
          simp
        · intro y hy
          exact (List.mem_takeWhile_imp hy)
        · intro y hy
          apply hall y
          rw [hrestEq]
          rcases List.mem_cons.mp hy with hy | hy
          · rw [hy]; exact List.mem_cons_self _ _
          · apply List.mem_cons_of_mem
            simp [hy]
        · intro y hy
          apply hall y
          rw [hrestEq]
          apply List.mem_cons_of_mem
          rcases List.mem_append.mp hy with hy | hy
          · simp [hy]
          · simp only [List.mem_singleton] at hy
            simp [hy]
    · cases h
  · rintro ⟨a, b, c, hs, ha, hb, hc, hAll, hBll, hCll⟩
    have hat : isEmailChar '@' = false := by decide
    have hdotc : isEmailChar '.' = true := by decide
    obtain ⟨hdrop, htake⟩ := dropWhile_run isEmailChar a '@' (b ++ '.' :: c) hAll hat
    unfold emailRegexTest
    rw [hs, hdrop, htake]
    simp only [Bool.and_eq_true, bne_iff_ne, ne_eq, List.all_eq_true]
    refine ⟨⟨ha, ?_⟩, ?_⟩
    · intro y hy
      rcases List.mem_append.mp hy with hy | hy
      · exact hBll y hy
      · rcases List.mem_cons.mp hy with hy | hy
        · rw [hy]; exact hdotc
        · exact hCll y hy
    · cases b with
      | nil => exact absurd rfl hb
      | cons x b' =>
        have hcEq : c = c.dropLast ++ [c.getLast hc] :=
          (List.dropLast_append_getLast hc).symm
        have hshape : (x :: b' ++ '.' :: c).drop 1 =
            (b' ++ '.' :: c.dropLast) ++ [c.getLast hc] := by
          conv_lhs => rw [hcEq]
          simp
        rw [hshape, List.dropLast_concat]
        simp

/-! ## Lemmas: data quality -/

theorem every_ok {α : Type} (callback : α → Except Str Bool) (l : List α)
    (h : ∀ x ∈ l, ∃ b, callback x = .ok b) : ∃ b, every callback l = .ok b := by
  induction l with
  | nil => exact ⟨true, rfl⟩
  | cons x xs ih =>
    obtain ⟨b, hb⟩ := h x (List.mem_cons_self _ _)
    obtain ⟨b', hb'⟩ := ih (fun y hy => h y (List.mem_cons_of_mem _ hy))
    cases b with
    | false => exact ⟨false, by rw [every, hb]⟩
    | true => exact ⟨b', by rw [every, hb]; exact hb'⟩

theorem emailFold_eq (sampleData : List JsObj) (columns : List Str)
    (quality : List Str × List Str) :
    columns.foldl
      (fun (quality : List Str × List Str) (column : Str) =>
        if poorEmailFormat sampleData column then
          (quality.1 ++ ["Poor email format in column: ".toList ++ column],
           quality.2 ++ ["Clean email data before enrichment".toList])
        else quality)
      quality =
    (quality.1 ++ (columns.filter (poorEmailFormat sampleData)).map
        (fun column => "Poor email format in column: ".toList ++ column),
     quality.2 ++ (columns.filter (poorEmailFormat sampleData)).map
        (fun _ => "Clean email data before enrichment".toList)) := by
  induction columns generalizing quality with
  | nil => simp
  | cons column rest ih =>
    rw [List.foldl_cons, ih]
    by_cases h : poorEmailFormat sampleData column = true
    · simp [h, List.filter_cons]
    · simp [h, List.filter_cons]

/-- The issue list of `assessDataQuality` in closed form. -/
theorem assessDataQuality_eq (parsedData : ParsedData) (empty : List Str)
    (hempty : emptyColumns parsedData.headers parsedData.sampleData = .ok empty) :
    ∃ q, assessDataQuality parsedData = .ok q ∧
      q.issues =
        (if empty.length > 0 then
          ["Empty columns detected: ".toList ++ join ", ".toList empty] else []) ++
        (if (duplicateHeaders parsedData.headers).length > 0 then
          ["Duplicate headers detected: ".toList ++
            join ", ".toList (duplicateHeaders parsedData.headers)] else []) ++
        ((emailColumns parsedData.headers).filter
          (poorEmailFormat parsedData.sampleData)).map
          (fun column => "Poor email format in column: ".toList ++ column) ∧
      q.overall_score = max 0 (100 - (q.issues.length : Int) * 10) := by
  unfold assessDataQuality
  rw [hempty]
  simp only [emailFold_eq]
  refine ⟨_, rfl, ?_, rfl⟩
  simp only
  split <;> split <;> simp

theorem assessDataQuality_score (parsedData : ParsedData) (q : DataQuality)
    (h : assessDataQuality parsedData = .ok q) :
    q.overall_score = max 0 (100 - 10 * (q.issues.length : Int)) := by
  unfold assessDataQuality at h
  cases hempty : emptyColumns parsedData.headers parsedData.sampleData with
  | error message => rw [hempty] at h; cases h
  | ok empty =>
    rw [hempty] at h
    simp only at h
    injection h with h
    rw [← h]
    simp only
    rw [Int.mul_comm]

theorem mem_duplicateHeaders (headers : List Str) (x : Str) :
    x ∈ duplicateHeaders headers ↔
      ∃ i : Nat, headers[i]? = some x ∧ headers.indexOf x ≠ i := by
  unfold duplicateHeaders
  simp only [List.mem_map, List.mem_filter, bne_iff_ne, ne_eq]
  constructor
  · rintro ⟨⟨i, y⟩, ⟨hmem, hcond⟩, hy⟩
    simp only at hy hcond
    subst hy
    exact ⟨i, List.mk_mem_enum_iff_getElem?.mp hmem, hcond⟩
  · rintro ⟨i, hget, hcond⟩
    exact ⟨(i, x), ⟨List.mk_mem_enum_iff_getElem?.mpr hget, hcond⟩, rfl⟩

theorem indexOf_head (h : Str) (hs : List Str) : (h :: hs).indexOf h = 0 := by
  rw [List.indexOf_cons]
  simp

theorem indexOf_tail (h x : Str) (hs : List Str) (hx : h ≠ x) :
    (h :: hs).indexOf x = hs.indexOf x + 1 := by
  rw [List.indexOf_cons]
  have : (h == x) = false := by simpa using hx
  rw [this]
  rfl

theorem later_occurrence_iff_count (headers : List Str) (x : Str) :
    (∃ i : Nat, headers[i]? = some x ∧ headers.indexOf x ≠ i) ↔ 2 ≤ headers.count x := by
  induction headers with
  | nil => simp
  | cons h hs ih =>
    by_cases hx : h = x
    · subst hx
      rw [List.count_cons_self]
      have hpos : 2 ≤ hs.count h + 1 ↔ h ∈ hs := by
        rw [← List.count_pos_iff]
        omega
      rw [hpos]
      constructor
      · rintro ⟨i, hget, hidx⟩
        rw [indexOf_head] at hidx
        cases i with
        | zero => exact absurd rfl hidx
        | succ i =>
          have : hs[i]? = some h := by simpa using hget
          exact List.getElem?_mem this
      · intro hmem
        obtain ⟨i, hi⟩ := List.mem_iff_getElem?.mp hmem
        refine ⟨i + 1, by simpa using hi, ?_⟩
        rw [indexOf_head]
        omega
    · rw [List.count_cons_of_ne (fun hEq => hx hEq.symm), ← ih]
      constructor
      · rintro ⟨i, hget, hidx⟩
        rw [indexOf_tail _ _ _ hx] at hidx
        cases i with
        | zero =>
          have : h = x := by simpa using hget
          exact absurd this hx
        | succ i =>
          have hget' : hs[i]? = some x := by simpa using hget
          exact ⟨i, hget', fun hEq => hidx (by rw [hEq])⟩
      · rintro ⟨i, hget, hidx⟩
        refine ⟨i + 1, by simpa using hget, ?_⟩
        rw [indexOf_tail _ _ _ hx]
        intro hEq
        exact hidx (Nat.succ.inj hEq)

theorem duplicateHeaders_ne_nil_iff (headers : List Str) :
    duplicateHeaders headers ≠ [] ↔ ∃ header, 2 ≤ headers.count header := by
  constructor
  · intro hne
    obtain ⟨x, hx⟩ := List.exists_mem_of_ne_nil _ hne
    exact ⟨x, (later_occurrence_iff_count headers x).mp
      ((mem_duplicateHeaders headers x).mp hx)⟩
  · rintro ⟨x, hx⟩
    have hmem : x ∈ duplicateHeaders headers :=
      (mem_duplicateHeaders headers x).mpr ((later_occurrence_iff_count headers x).mpr hx)
    exact List.ne_nil_of_mem hmem

theorem poorEmailFormat_iff (sampleData : List JsObj) (column : Str) :
    poorEmailFormat sampleData column = true ↔
      1 ≤ (emailSamples sampleData column).length ∧
      5 * ((emailSamples sampleData column).filter isValidEmail).length <
        4 * (emailSamples sampleData column).length := by
  unfold poorEmailFormat
  simp only [Bool.and_eq_true, decide_eq_true_eq, gt_iff_lt]
  constructor
  · rintro ⟨h1, h2⟩
    exact ⟨h1, h2⟩
  · rintro ⟨h1, h2⟩
    exact ⟨h1, h2⟩

/-! ## Lemmas: the empty-column test -/

theorem isEmptyCell_str (s : Str) : isEmptyCell (.str s) = .ok (trim s == []) := by
  unfold isEmptyCell
  cases s with
  | nil => rfl
  | cons c cs => rfl

theorem every_true_iff {α : Type} (callback : α → Except Str Bool) (l : List α)
    (h : ∀ x ∈ l, ∃ b, callback x = .ok b) :
    every callback l = .ok true ↔ ∀ x ∈ l, callback x = .ok true := by
  induction l with
  | nil => simp [every]
  | cons x xs ih =>
    obtain ⟨b, hb⟩ := h x (List.mem_cons_self _ _)
    have ih' := ih (fun y hy => h y (List.mem_cons_of_mem _ hy))
    cases b with
    | false =>
      rw [every, hb]
      constructor
      · intro hf
        cases hf
      · intro hall
        have := hall x (List.mem_cons_self _ _)
        rw [hb] at this
        cases this
    | true =>
      rw [every, hb]
      simp only
      rw [ih']
      constructor
      · intro hall y hy
        rcases List.mem_cons.mp hy with hy | hy
        · rw [hy]
          exact hb
        · exact hall y hy
      · intro hall y hy
        exact hall y (List.mem_cons_of_mem _ hy)

theorem filterThrowing_mem {α : Type} (callback : α → Except Str Bool) (l : List α)
    (h : ∀ x ∈ l, ∃ b, callback x = .ok b) :
    ∃ r, filterThrowing callback l = .ok r ∧
      ∀ x, x ∈ r ↔ (x ∈ l ∧ callback x = .ok true) := by
  induction l with
  | nil => exact ⟨[], rfl, by simp⟩
  | cons x xs ih =>
    obtain ⟨b, hb⟩ := h x (List.mem_cons_self _ _)
    obtain ⟨r, hr, hmem⟩ := ih (fun y hy => h y (List.mem_cons_of_mem _ hy))
    refine ⟨if b then x :: r else r, by rw [filterThrowing, hb]; simp only [hr], ?_⟩
    intro y
    cases b with
    | false =>
      simp only [Bool.false_eq_true, if_false, hmem, List.mem_cons]
      constructor
      · rintro ⟨hy, hc⟩
        exact ⟨Or.inr hy, hc⟩
      · rintro ⟨hy | hy, hc⟩
        · rw [hy, hb] at hc
          cases hc
        · exact ⟨hy, hc⟩
    | true =>
      simp only [if_true, List.mem_cons, hmem]
      constructor
      · rintro (hy | ⟨hy, hc⟩)
        · exact ⟨Or.inl hy, by rw [hy]; exact hb⟩
        · exact ⟨Or.inr hy, hc⟩
      · rintro ⟨hy | hy, hc⟩
        · exact Or.inl hy
        · exact Or.inr ⟨hy, hc⟩

theorem filterThrowing_error {α : Type} (callback : α → Except Str Bool) (l : List α)
    (message : Str) (hsome : ∃ x ∈ l, callback x = .error message)
    (hall : ∀ x ∈ l, (∃ b, callback x = .ok b) ∨ callback x = .error message) :
    filterThrowing callback l = .error message := by
  induction l with
  | nil =>
    obtain ⟨x, hx, _⟩ := hsome
    cases hx
  | cons x xs ih =>
    rcases hall x (List.mem_cons_self _ _) with ⟨b, hb⟩ | herr
    · have hrest : ∃ y ∈ xs, callback y = .error message := by
        obtain ⟨y, hy, hc⟩ := hsome
        rcases List.mem_cons.mp hy with hy | hy
        · rw [hy, hb] at hc
          cases hc
        · exact ⟨y, hy, hc⟩
      rw [filterThrowing, hb]
      simp only
      rw [ih hrest (fun y hy => hall y (List.mem_cons_of_mem _ hy))]
    · rw [filterThrowing, herr]

/-- With every read `row[header]` a string, the empty-column test returns the headers all
of whose cells are blank. -/
theorem emptyColumns_of_strings (headers : List Str) (sampleData : List JsObj)
    (hcells : ∀ row ∈ sampleData, ∀ header ∈ headers, ∃ s, jsRead row header = .str s) :
    ∃ empty, emptyColumns headers sampleData = .ok empty ∧
      ∀ header : Str, header ∈ empty ↔
        (header ∈ headers ∧
          ∀ row ∈ sampleData, ∃ s, jsRead row header = .str s ∧ trim s = []) := by
  have hcell : ∀ header ∈ headers, ∀ row ∈ sampleData,
      ∃ b, isEmptyCell (jsRead row header) = .ok b := by
    intro header hheader row hrow
    obtain ⟨s, hs⟩ := hcells row hrow header hheader
    exact ⟨_, by rw [hs, isEmptyCell_str]⟩
  obtain ⟨empty, hempty, hmem⟩ := filterThrowing_mem
    (fun header => every (fun row => isEmptyCell (jsRead row header)) sampleData) headers
    (fun header hheader => every_ok _ _ (hcell header hheader))
  refine ⟨empty, hempty, ?_⟩
  intro header
  rw [hmem]
  constructor
  · rintro ⟨hheader, hevery⟩
    refine ⟨hheader, ?_⟩
    intro row hrow
    have hrowOk := (every_true_iff _ _ (hcell header hheader)).mp hevery row hrow
    obtain ⟨s, hs⟩ := hcells row hrow header hheader
    refine ⟨s, hs, ?_⟩
    rw [hs, isEmptyCell_str] at hrowOk
    injection hrowOk with hb
    exact beq_iff_eq.mp hb
  · rintro ⟨hheader, hblank⟩
    refine ⟨hheader, ?_⟩
    rw [every_true_iff _ _ (hcell header hheader)]
    intro row hrow
    obtain ⟨s, hs, htrim⟩ := hblank row hrow
    rw [hs, isEmptyCell_str, htrim]
    rfl

/-- In a parsed table with no header `__proto__` every read `row[header]` is a string. -/
theorem parseCSV_cells_strings (content : Str) (t : ParsedData)
    (h : parseCSV content = .ok t) (hproto : "__proto__".toList ∉ t.headers) :
    ∀ row ∈ t.sampleData, ∀ header ∈ t.headers, ∃ s, jsRead row header = .str s := by
  intro row hrow header hheader
  exact (parseCSV_cells content t h row hrow).1 header hheader
    (fun hEq => hproto (by rw [← hEq]; exact hheader))

/-- In a parsed table with a header `__proto__` and at least one data row the empty-column
test throws. -/
theorem emptyColumns_proto (content : Str) (t : ParsedData)
    (h : parseCSV content = .ok t) (hproto : "__proto__".toList ∈ t.headers)
    (hrows : t.sampleData ≠ []) :
    emptyColumns t.headers t.sampleData =
      .error "row[header].trim is not a function".toList := by
  unfold emptyColumns
  obtain ⟨row, rest, hdata⟩ : ∃ row rest, t.sampleData = row :: rest := by
    cases hd : t.sampleData with
    | nil => exact absurd hd hrows
    | cons row rest => exact ⟨row, rest, rfl⟩
  have hcells := parseCSV_cells content t h
  apply filterThrowing_error
  · refine ⟨"__proto__".toList, hproto, ?_⟩
    rw [hdata, every, (hcells row (by rw [hdata]; exact List.mem_cons_self _ _)).2]
    rfl
  · intro header hheader
    by_cases hEq : header = "__proto__".toList
    · right
      rw [hEq, hdata, every, (hcells row (by rw [hdata]; exact List.mem_cons_self _ _)).2]
      rfl
    · left
      apply every_ok
      intro row' hrow'
      obtain ⟨s, hs⟩ := (hcells row' hrow').1 header hheader hEq
      exact ⟨_, by rw [hs, isEmptyCell_str]⟩

theorem assessDataQuality_error (parsedData : ParsedData) (message : Str)
    (h : emptyColumns parsedData.headers parsedData.sampleData = .error message) :
    assessDataQuality parsedData = .error message := by
  unfold assessDataQuality
  rw [h]

/-! ## Theorems: data quality on parsed tables -/

/-- C16 (counterexample): for the table parsed from `a,__proto__` and the data line `1,2`,
`assessDataQuality` returns no score: the read `row['__proto__']` gives `Object.prototype`,
which has no `trim`, and the call throws. -/
theorem assessDataQuality_proto_throws :
    (parseCSV "a,__proto__\n1,2".toList).toOption.map
      (fun t => (t.headers, t.sampleData)) =
      some (["a".toList, "__proto__".toList], [[("a".toList, .str "1".toList)]]) ∧
    (parseCSV "a,__proto__\n1,2".toList).toOption.map assessDataQuality =
      some (.error "row[header].trim is not a function".toList) :=
  ⟨rfl, rfl⟩

/-- C16 (amended): for every parsed table with no header `__proto__`, or with no data row,
`assessDataQuality` returns `overall_score = max(0, 100 - 10 * issues.length)`, an integer
between 0 and 100 that is a multiple of 10; for a parsed table with a header `__proto__` and
a data row it throws a `TypeError` instead; and whenever it returns, the score is given by
that formula. -/
theorem assessDataQuality_score_range (content : Str) (t : ParsedData)
    (h : parseCSV content = .ok t) :
    (("__proto__".toList ∉ t.headers ∨ t.sampleData = []) →
      ∃ q, assessDataQuality t = .ok q ∧
        q.overall_score = max 0 (100 - 10 * (q.issues.length : Int)) ∧
        0 ≤ q.overall_score ∧ q.overall_score ≤ 100 ∧ 10 ∣ q.overall_score) ∧
    ("__proto__".toList ∈ t.headers → t.sampleData ≠ [] →
      assessDataQuality t = .error "row[header].trim is not a function".toList) ∧
    (∀ q, assessDataQuality t = .ok q →
      q.overall_score = max 0 (100 - 10 * (q.issues.length : Int)) ∧
      0 ≤ q.overall_score ∧ q.overall_score ≤ 100 ∧ 10 ∣ q.overall_score) := by
  have hformula : ∀ q, assessDataQuality t = .ok q →
      q.overall_score = max 0 (100 - 10 * (q.issues.length : Int)) ∧
      0 ≤ q.overall_score ∧ q.overall_score ≤ 100 ∧ 10 ∣ q.overall_score := by
    intro q hq
    have hscore := assessDataQuality_score t q hq
    refine ⟨hscore, ?_, ?_, ?_⟩
    · rw [hscore]; omega
    · rw [hscore]; omega
    · rw [hscore]; omega
  refine ⟨?_, ?_, hformula⟩
  · intro hcase
    have hempty : ∃ empty, emptyColumns t.headers t.sampleData = .ok empty := by
      rcases hcase with hproto | hrows
      · obtain ⟨empty, hempty, _⟩ := emptyColumns_of_strings t.headers t.sampleData
          (parseCSV_cells_strings content t h hproto)
        exact ⟨empty, hempty⟩
      · obtain ⟨empty, hempty, _⟩ := emptyColumns_of_strings t.headers t.sampleData
          (by rw [hrows]; intro row hrow; cases hrow)
        exact ⟨empty, hempty⟩
    obtain ⟨empty, hempty⟩ := hempty
    obtain ⟨q, hq, _, _⟩ := assessDataQuality_eq t empty hempty
    exact ⟨q, hq, hformula q hq⟩
  · intro hproto hrows
    exact assessDataQuality_error t _ (emptyColumns_proto content t h hproto hrows)

/-- C16 witness: the table parsed from `qualityContent` scores 80. -/
theorem assessDataQuality_score_range_witness :
    parseCSV qualityContent = .ok qualityTable ∧
    "__proto__".toList ∉ qualityTable.headers ∧
    (∃ q, assessDataQuality qualityTable = .ok q ∧
      q.overall_score = max 0 (100 - 10 * (q.issues.length : Int)) ∧
      0 ≤ q.overall_score ∧ q.overall_score ≤ 100 ∧ 10 ∣ q.overall_score) ∧
    (assessDataQuality qualityTable).toOption.map (fun q => q.overall_score) = some 80 :=
  ⟨rfl, by decide,
    (assessDataQuality_score_range qualityContent qualityTable rfl).1 (Or.inl (by decide)),
    by decide⟩

/-- C17 (counterexample): the text `name,name,notes,__proto__` with the data line `A,B,,x`
has the one empty column `notes` and the one duplicated header `name`, and no email-like
column, yet `assessDataQuality` reports nothing: it throws in the empty-column test. -/
theorem assessDataQuality_two_issues_proto_throws :
    (parseCSV "name,name,notes,__proto__\nA,B,,x".toList).toOption.map
      (fun t => (t.headers, t.sampleData)) =
      some (["name".toList, "name".toList, "notes".toList, "__proto__".toList],
        [[("name".toList, .str "B".toList), ("notes".toList, .str [])]]) ∧
    duplicateHeaders ["name".toList, "name".toList, "notes".toList, "__proto__".toList] =
      ["name".toList] ∧
    emailColumns ["name".toList, "name".toList, "notes".toList, "__proto__".toList] = [] ∧
    (parseCSV "name,name,notes,__proto__\nA,B,,x".toList).toOption.map assessDataQuality =
      some (.error "row[header].trim is not a function".toList) :=
  ⟨rfl, by decide, by decide, rfl⟩

/-- C17 (amended): for every parsed table with no header `__proto__`, the empty-column test
returns the headers all of whose cells are blank; when there is such a column (one or more),
a duplicated header (one or more) and no email-like column flagged for poor format,
`assessDataQuality` reports exactly two issues, the empty-column issue and the
duplicate-header issue, and `overall_score = 80`. -/
theorem assessDataQuality_two_issues (content : Str) (t : ParsedData)
    (h : parseCSV content = .ok t) (hproto : "__proto__".toList ∉ t.headers) :
    ∃ empty, emptyColumns t.headers t.sampleData = .ok empty ∧
      (∀ header : Str, header ∈ empty ↔
        (header ∈ t.headers ∧
          ∀ row ∈ t.sampleData, ∃ s, jsRead row header = .str s ∧ trim s = [])) ∧
      (empty ≠ [] → duplicateHeaders t.headers ≠ [] →
        (∀ column ∈ emailColumns t.headers,
          poorEmailFormat t.sampleData column = false) →
        ∃ q, assessDataQuality t = .ok q ∧
          q.issues =
            ["Empty columns detected: ".toList ++ join ", ".toList empty,
             "Duplicate headers detected: ".toList ++
               join ", ".toList (duplicateHeaders t.headers)] ∧
          q.issues.length = 2 ∧ q.overall_score = 80) := by
  obtain ⟨empty, hempty, hmem⟩ := emptyColumns_of_strings t.headers t.sampleData
    (parseCSV_cells_strings content t h hproto)
  refine ⟨empty, hempty, hmem, ?_⟩
  intro hsome hdup hemail
  obtain ⟨q, hq, hissues, hscore⟩ := assessDataQuality_eq t empty hempty
  have h1 : empty.length > 0 := List.length_pos.mpr hsome
  have h2 : (duplicateHeaders t.headers).length > 0 := List.length_pos.mpr hdup
  have h3 : (emailColumns t.headers).filter (poorEmailFormat t.sampleData) = [] := by
    rw [List.filter_eq_nil_iff]
    intro column hcolumn
    rw [hemail column hcolumn]
    simp
  have hlist : q.issues =
      ["Empty columns detected: ".toList ++ join ", ".toList empty,
       "Duplicate headers detected: ".toList ++
         join ", ".toList (duplicateHeaders t.headers)] := by
    rw [hissues, if_pos h1, if_pos h2, h3]
    rfl
  refine ⟨q, hq, hlist, ?_, ?_⟩
  · rw [hlist]; rfl
  · rw [hscore, hlist]; rfl

/-- C17 witness: `qualityTable` has the empty column `notes`, the header `name` twice and
a column of well-formed emails. -/
theorem assessDataQuality_two_issues_witness :
    parseCSV qualityContent = .ok qualityTable ∧
    "__proto__".toList ∉ qualityTable.headers ∧
    emptyColumns qualityTable.headers qualityTable.sampleData = .ok ["notes".toList] ∧
    duplicateHeaders qualityTable.headers ≠ [] ∧
    (∀ column ∈ emailColumns qualityTable.headers,
      poorEmailFormat qualityTable.sampleData column = false) ∧
    (∃ empty, emptyColumns qualityTable.headers qualityTable.sampleData = .ok empty ∧
      (∀ header : Str, header ∈ empty ↔
        (header ∈ qualityTable.headers ∧
          ∀ row ∈ qualityTable.sampleData,
            ∃ s, jsRead row header = .str s ∧ trim s = []))) ∧
    (assessDataQuality qualityTable).toOption.map
      (fun q => (q.issues, q.overall_score)) =
      some (["Empty columns detected: notes".toList,
             "Duplicate headers detected: name".toList], 80) := by
  refine ⟨rfl, by decide, rfl, by decide, by decide, ?_, by decide⟩
  obtain ⟨empty, h1, h2, _⟩ :=
    assessDataQuality_two_issues qualityContent qualityTable rfl (by decide)
  exact ⟨empty, h1, h2⟩

/-- C18 (counterexample): the header line `name,name,__proto__` has the header `name`
twice, yet for the table parsed with the data line `A,B,C` `assessDataQuality` has no issue
list: it throws before the duplicate check. -/
theorem parseCSV_duplicate_headers_proto_throws :
    (parseCSV "name,name,__proto__\nA,B,C".toList).toOption.map (fun t => t.headers) =
      some ["name".toList, "name".toList, "__proto__".toList] ∧
    2 ≤ ["name".toList, "name".toList, "__proto__".toList].count "name".toList ∧
    (parseCSV "name,name,__proto__\nA,B,C".toList).toOption.map assessDataQuality =
      some (.error "row[header].trim is not a function".toList) :=
  ⟨rfl, by decide, rfl⟩

/-- C18 (amended): `parseCSV` keeps the tokenized first line as `headers`, duplicates
included, in order, and the duplicate list of `assessDataQuality` holds exactly the headers
that occur more than once; when no header is `__proto__`, `assessDataQuality` returns and
`issues` has the entry 'Duplicate headers detected: ...' naming them exactly when some header
occurs more than once. -/
theorem parseCSV_duplicate_headers (content : Str) (t : ParsedData)
    (h : parseCSV content = .ok t) :
    t.headers = parseCSVLine ((contentLines content).getD 0 []) t.delimiter ∧
    (∀ header, header ∈ duplicateHeaders t.headers ↔ 2 ≤ t.headers.count header) ∧
    ("__proto__".toList ∉ t.headers →
      ∃ q, assessDataQuality t = .ok q ∧
        ((∃ header, 2 ≤ t.headers.count header) →
          ("Duplicate headers detected: ".toList ++
            join ", ".toList (duplicateHeaders t.headers)) ∈ q.issues) ∧
        ((∃ issue ∈ q.issues, "Duplicate headers detected: ".toList <+: issue) →
          ∃ header, 2 ≤ t.headers.count header)) := by
  refine ⟨?_, ?_, ?_⟩
  · have hne := parseCSV_ok_lines content t h
    rw [parseCSV_eq_ok content hne] at h
    injection h with h
    subst h
    rfl
  · intro header
    rw [mem_duplicateHeaders, later_occurrence_iff_count]
  · intro hproto
    obtain ⟨empty, hempty, _⟩ := emptyColumns_of_strings t.headers t.sampleData
      (parseCSV_cells_strings content t h hproto)
    obtain ⟨q, hq, hissues, _⟩ := assessDataQuality_eq t empty hempty
    refine ⟨q, hq, ?_, ?_⟩
    · intro hdup
      have hne := (duplicateHeaders_ne_nil_iff t.headers).mpr hdup
      have hpos : (duplicateHeaders t.headers).length > 0 := List.length_pos.mpr hne
      rw [hissues, if_pos hpos]
      simp
    · rintro ⟨issue, hissue, hprefix⟩
      by_contra hnone
      have hnil : duplicateHeaders t.headers = [] := by
        by_contra hne
        exact hnone ((duplicateHeaders_ne_nil_iff t.headers).mp hne)
      rw [hissues, hnil] at hissue
      simp only [List.length_nil, gt_iff_lt, Nat.lt_irrefl, if_false, List.append_nil,
        List.mem_append, List.mem_map] at hissue
      rcases hissue with hissue | ⟨column, _, hissue⟩
      · split at hissue
        · rw [List.mem_singleton] at hissue
          rw [hissue] at hprefix
          obtain ⟨tail, htail⟩ := hprefix
          have := congrArg List.head? htail
          simp at this
        · simp at hissue
      · rw [← hissue] at hprefix
        obtain ⟨tail, htail⟩ := hprefix
        have := congrArg List.head? htail
        simp at this

/-- C18 witness: the header line `name,email,notes,name` keeps both `name` headers and
the issue list names the duplicate. -/
theorem parseCSV_duplicate_headers_witness :
    parseCSV qualityContent = .ok qualityTable ∧
    qualityTable.headers =
      ["name".toList, "email".toList, "notes".toList, "name".toList] ∧
    (∃ q, assessDataQuality qualityTable = .ok q ∧
      ((∃ header, 2 ≤ qualityTable.headers.count header) →
        ("Duplicate headers detected: ".toList ++
          join ", ".toList (duplicateHeaders qualityTable.headers)) ∈ q.issues)) ∧
    2 ≤ qualityTable.headers.count "name".toList ∧
    duplicateHeaders qualityTable.headers = ["name".toList] ∧
    (assessDataQuality qualityTable).toOption.map (fun q => q.issues) =
      some ["Empty columns detected: notes".toList,
            "Duplicate headers detected: name".toList] := by
  refine ⟨rfl, rfl, ?_, by decide, by decide, by decide⟩
  obtain ⟨_, _, hq⟩ := parseCSV_duplicate_headers qualityContent qualityTable rfl
  obtain ⟨q, hq, h1, _⟩ := hq (by decide)
  exact ⟨q, hq, h1⟩

/-- C19 (counterexample): in the table parsed from `Email,__proto__` and the data line
`bad,x` the column `Email` has one non-empty value, which does not match the email pattern,
yet no poor-email issue is added: `assessDataQuality` throws in the empty-column test. -/
theorem assessDataQuality_poor_email_proto_throws :
    (parseCSV "Email,__proto__\nbad,x".toList).toOption.map
      (fun t => (t.headers, t.sampleData)) =
      some (["Email".toList, "__proto__".toList], [[("Email".toList, .str "bad".toList)]]) ∧
    emailSamples [[("Email".toList, .str "bad".toList)]] "Email".toList =
      [.str "bad".toList] ∧
    isValidEmail (.str "bad".toList) = false ∧
    (parseCSV "Email,__proto__\nbad,x".toList).toOption.map assessDataQuality =
      some (.error "row[header].trim is not a function".toList) :=
  ⟨rfl, rfl, by decide, rfl⟩

/-- C19 (amended): in a parsed table with no header `__proto__`, for a header whose
lower-cased name contains 'email' or 'mail', with `n` non-empty sample values of which `v`
match the email pattern, `assessDataQuality` returns and `issues` contains
'Poor email format in column: ' followed by the header exactly when `n >= 1` and
`5 * v < 4 * n`, which for `n >= 1` is the same as `v / n < 8 / 10`. -/
theorem assessDataQuality_poor_email (content : Str) (t : ParsedData)
    (h : parseCSV content = .ok t) (hproto : "__proto__".toList ∉ t.headers)
    (column : Str) (hcolumn : column ∈ t.headers)
    (hlike : includes (toLowerCase column) "email".toList = true ∨
      includes (toLowerCase column) "mail".toList = true) :
    ∃ q, assessDataQuality t = .ok q ∧
      (("Poor email format in column: ".toList ++ column) ∈ q.issues ↔
        1 ≤ (emailSamples t.sampleData column).length ∧
        5 * ((emailSamples t.sampleData column).filter isValidEmail).length <
          4 * (emailSamples t.sampleData column).length) ∧
      ((1 ≤ (emailSamples t.sampleData column).length ∧
        5 * ((emailSamples t.sampleData column).filter isValidEmail).length <
          4 * (emailSamples t.sampleData column).length) ↔
       (1 ≤ (emailSamples t.sampleData column).length ∧
        (((emailSamples t.sampleData column).filter isValidEmail).length : ℚ) /
          ((emailSamples t.sampleData column).length : ℚ) < 8 / 10)) := by
  obtain ⟨empty, hempty, _⟩ := emptyColumns_of_strings t.headers t.sampleData
    (parseCSV_cells_strings content t h hproto)
  obtain ⟨q, hq, hissues, _⟩ := assessDataQuality_eq t empty hempty
  have hmemCol : column ∈ emailColumns t.headers := by
    unfold emailColumns
    rw [List.mem_filter, Bool.or_eq_true]
    exact ⟨hcolumn, hlike⟩
  refine ⟨q, hq, ?_, ?_⟩
  · rw [← poorEmailFormat_iff, hissues]
    constructor
    · intro hmem
      rcases List.mem_append.mp hmem with hmem | hmem
      · exfalso
        rcases List.mem_append.mp hmem with hmem | hmem
        · split at hmem
          · rw [List.mem_singleton] at hmem
            have := congrArg List.head? hmem
            simp at this
          · simp at hmem
        · split at hmem
          · rw [List.mem_singleton] at hmem
            have := congrArg List.head? hmem
            simp at this
          · simp at hmem
      · rw [List.mem_map] at hmem
        obtain ⟨column', hcolumn', hEq⟩ := hmem
        have hsame : column' = column := List.append_cancel_left hEq
        rw [hsame, List.mem_filter] at hcolumn'
        exact hcolumn'.2
    · intro hpoor
      apply List.mem_append_right
      rw [List.mem_map]
      exact ⟨column, List.mem_filter.mpr ⟨hmemCol, hpoor⟩, rfl⟩
  · constructor
    · rintro ⟨h1, h2⟩
      refine ⟨h1, ?_⟩
      have hn : (0 : ℚ) < ((emailSamples t.sampleData column).length : ℚ) := by
        exact_mod_cast h1
      rw [div_lt_iff₀ hn]
      have h2' : (5 : ℚ) *
          (((emailSamples t.sampleData column).filter isValidEmail).length : ℚ) <
          4 * ((emailSamples t.sampleData column).length : ℚ) := by
        exact_mod_cast h2
      linarith
    · rintro ⟨h1, h2⟩
      refine ⟨h1, ?_⟩
      have hn : (0 : ℚ) < ((emailSamples t.sampleData column).length : ℚ) := by
        exact_mod_cast h1
      rw [div_lt_iff₀ hn] at h2
      have h2' : (5 : ℚ) *
          (((emailSamples t.sampleData column).filter isValidEmail).length : ℚ) <
          4 * ((emailSamples t.sampleData column).length : ℚ) := by
        linarith
      exact_mod_cast h2'

/-- C19 witness: a column `Email` with three well-formed values out of five is flagged;
with four out of five it is not. -/
theorem assessDataQuality_poor_email_witness :
    parseCSV (emailContent 3) = .ok (emailTable 3) ∧
    parseCSV (emailContent 4) = .ok (emailTable 4) ∧
    (∃ q, assessDataQuality (emailTable 3) = .ok q ∧
      (("Poor email format in column: ".toList ++ "Email".toList) ∈ q.issues ↔
        1 ≤ (emailSamples (emailTable 3).sampleData "Email".toList).length ∧
        5 * ((emailSamples (emailTable 3).sampleData "Email".toList).filter
            isValidEmail).length <
          4 * (emailSamples (emailTable 3).sampleData "Email".toList).length)) ∧
    (assessDataQuality (emailTable 3)).toOption.map (fun q => q.issues) =
      some ["Poor email format in column: Email".toList] ∧
    (assessDataQuality (emailTable 4)).toOption.map (fun q => q.issues) = some [] ∧
    (emailSamples (emailTable 3).sampleData "Email".toList).length = 5 ∧
    ((emailSamples (emailTable 3).sampleData "Email".toList).filter isValidEmail).length =
      3 ∧
    ((emailSamples (emailTable 4).sampleData "Email".toList).filter isValidEmail).length =
      4 := by
  refine ⟨rfl, rfl, ?_, by decide, by decide, by decide, by decide, by decide⟩
  obtain ⟨q, hq, h1, _⟩ :=
    assessDataQuality_poor_email (emailContent 3) (emailTable 3) rfl (by decide)
      "Email".toList (by decide) (Or.inl (by decide))
  exact ⟨q, hq, h1⟩

/-! ## Theorems: column types -/

/-- C20 (counterexample): for the header-only file `a,__proto__` the header `__proto__` has
no sample value, yet no type is recorded for it: the assignment `types['__proto__'] =
'unknown'` creates no property, and reading it back gives `Object.prototype`. -/
theorem detectColumnTypes_proto_unrecorded :
    (parseCSV "a,__proto__".toList).toOption.map (fun t => (t.headers, t.sampleData)) =
      some (["a".toList, "__proto__".toList], []) ∧
    (parseCSV "a,__proto__".toList).toOption.map (detectColumnTypes samplePlatform) =
      some [("a".toList, .str "unknown".toList)] ∧
    jsRead [("a".toList, .str "unknown".toList)] "__proto__".toList = .objectPrototype ∧
    jsRead [("a".toList, .str "unknown".toList)] "__proto__".toList ≠
      .str "unknown".toList := by
  refine ⟨rfl, rfl, rfl, ?_⟩
  intro h
  cases h

/-- C20 (amended): the type recorded for a header of the table other than `__proto__`
follows the fixed priority over its non-empty sample values `V`: 'unknown' if `V` is empty;
else 'email' if some value matches the email pattern, whatever the other values are; else
'url' if some value is URL-parseable; else 'number' if every value parses as a number; else
'date' if some value parses as a date; else 'text'. The keys of the result are the headers
other than `__proto__`. -/
theorem detectColumnTypes_priority (platform : Platform) (parsedData : ParsedData)
    (header : Str) (hmem : header ∈ parsedData.headers)
    (hproto : header ≠ "__proto__".toList) (V : List JsVal)
    (hV : V = (parsedData.sampleData.map (fun row => jsRead row header)).filter
      JsVal.truthy) :
    (V = [] →
      jsRead (detectColumnTypes platform parsedData) header = .str "unknown".toList) ∧
    (V ≠ [] → (∃ v ∈ V, isValidEmail v = true) →
      jsRead (detectColumnTypes platform parsedData) header = .str "email".toList) ∧
    (V ≠ [] → (∀ v ∈ V, isValidEmail v = false) →
      (∃ v ∈ V, isValidUrl platform v = true) →
      jsRead (detectColumnTypes platform parsedData) header = .str "url".toList) ∧
    (V ≠ [] → (∀ v ∈ V, isValidEmail v = false) →
      (∀ v ∈ V, isValidUrl platform v = false) →
      (∀ v ∈ V, platform.parseFloatIsNaN v = false) →
      jsRead (detectColumnTypes platform parsedData) header = .str "number".toList) ∧
    (V ≠ [] → (∀ v ∈ V, isValidEmail v = false) →
      (∀ v ∈ V, isValidUrl platform v = false) →
      (∃ v ∈ V, platform.parseFloatIsNaN v = true) →
      (∃ v ∈ V, platform.dateParseIsNaN v = false) →
      jsRead (detectColumnTypes platform parsedData) header = .str "date".toList) ∧
    (V ≠ [] → (∀ v ∈ V, isValidEmail v = false) →
      (∀ v ∈ V, isValidUrl platform v = false) →
      (∃ v ∈ V, platform.parseFloatIsNaN v = true) →
      (∀ v ∈ V, platform.dateParseIsNaN v = true) →
      jsRead (detectColumnTypes platform parsedData) header = .str "text".toList) ∧
    (∀ key : Str, key ∈ (detectColumnTypes platform parsedData).map Prod.fst ↔
      (key ∈ parsedData.headers ∧ key ≠ "__proto__".toList)) := by
  have hshape : detectColumnTypes platform parsedData =
      parsedData.headers.foldl (fun (types : JsObj) (header : Str) =>
        if (fun _ => true) header then
        jsAssign types header
          (if ((parsedData.sampleData.map (fun row => jsRead row header)).filter
              JsVal.truthy).length = 0 then .str "unknown".toList
           else if ((parsedData.sampleData.map (fun row => jsRead row header)).filter
              JsVal.truthy).any isValidEmail then .str "email".toList
           else if ((parsedData.sampleData.map (fun row => jsRead row header)).filter
              JsVal.truthy).any (isValidUrl platform) then .str "url".toList
           else if ((parsedData.sampleData.map (fun row => jsRead row header)).filter
              JsVal.truthy).all (fun value => !platform.parseFloatIsNaN value) then
             .str "number".toList
           else if ((parsedData.sampleData.map (fun row => jsRead row header)).filter
              JsVal.truthy).any (fun value => !platform.dateParseIsNaN value) then
             .str "date".toList
           else .str "text".toList)
        else types) [] := by
    unfold detectColumnTypes
    congr 1
    funext types header
    simp only [if_true]
    split_ifs <;> rfl
  have hkeys : ∀ key : Str, key ∈ (detectColumnTypes platform parsedData).map Prod.fst ↔
      (key ∈ parsedData.headers ∧ key ≠ "__proto__".toList) := by
    intro key
    rw [hshape, foldl_jsAssign_keys]
    simp only [List.map_nil, List.not_mem_nil, false_or, true_and]
    constructor
    · rintro ⟨hp, x, hx, hk⟩
      rw [← hk]
      exact ⟨hx, by rw [hk]; exact hp⟩
    · rintro ⟨hk, hp⟩
      exact ⟨hp, key, hk, rfl⟩
  have hread : jsRead (detectColumnTypes platform parsedData) header =
      (if V.length = 0 then .str "unknown".toList
       else if V.any isValidEmail then .str "email".toList
       else if V.any (isValidUrl platform) then .str "url".toList
       else if V.all (fun value => !platform.parseFloatIsNaN value) then
         .str "number".toList
       else if V.any (fun value => !platform.dateParseIsNaN value) then
         .str "date".toList
       else .str "text".toList) := by
    rw [jsRead_of_key _ _ ((hkeys header).mpr ⟨hmem, hproto⟩), hshape, hV]
    apply foldl_jsAssign_value _ _ _ _ _ _ _ hproto
    · exact ⟨header, hmem, rfl, rfl⟩
    · intro x _ _ hk
      rw [hk]
  rw [hread]
  have hnoEmail : (∀ v ∈ V, isValidEmail v = false) → V.any isValidEmail = false := by
    intro h
    rw [← Bool.not_eq_true, List.any_eq_true]
    rintro ⟨v, hv, hvalid⟩
    rw [h v hv] at hvalid
    cases hvalid
  have hnoUrl : (∀ v ∈ V, isValidUrl platform v = false) →
      V.any (isValidUrl platform) = false := by
    intro h
    rw [← Bool.not_eq_true, List.any_eq_true]
    rintro ⟨v, hv, hvalid⟩
    rw [h v hv] at hvalid
    cases hvalid
  have hlen : V ≠ [] → ¬ V.length = 0 := fun hne h0 => hne (List.length_eq_zero.mp h0)
  have hnotAll : (∃ v ∈ V, platform.parseFloatIsNaN v = true) →
      V.all (fun value => !platform.parseFloatIsNaN value) = false := by
    rintro ⟨v, hv, hnan⟩
    rw [← Bool.not_eq_true, List.all_eq_true]
    intro hall
    have := hall v hv
    rw [hnan] at this
    cases this
  refine ⟨?_, ?_, ?_, ?_, ?_, ?_, hkeys⟩
  · intro hnil
    rw [hnil]
    rfl
  · rintro hne ⟨v, hv, hvalid⟩
    have hany : V.any isValidEmail = true := List.any_eq_true.mpr ⟨v, hv, hvalid⟩
    rw [if_neg (hlen hne), if_pos hany]
  · rintro hne hemail ⟨v, hv, hvalid⟩
    have hany : V.any (isValidUrl platform) = true := List.any_eq_true.mpr ⟨v, hv, hvalid⟩
    rw [if_neg (hlen hne), hnoEmail hemail, if_neg (by simp), if_pos hany]
  · intro hne hemail hurl hnum
    have hall : V.all (fun value => !platform.parseFloatIsNaN value) = true := by
      rw [List.all_eq_true]
      intro v hv
      rw [hnum v hv]
      rfl
    rw [if_neg (hlen hne), hnoEmail hemail, if_neg (by simp), hnoUrl hurl,
      if_neg (by simp), if_pos hall]
  · rintro hne hemail hurl hnan ⟨v, hv, hdate⟩
    have hany : V.any (fun value => !platform.dateParseIsNaN value) = true := by
      rw [List.any_eq_true]
      exact ⟨v, hv, by rw [hdate]; rfl⟩
    rw [if_neg (hlen hne), hnoEmail hemail, if_neg (by simp), hnoUrl hurl,
      if_neg (by simp), hnotAll hnan, if_neg (by simp), if_pos hany]
  · intro hne hemail hurl hnan hdate
    have hany : V.any (fun value => !platform.dateParseIsNaN value) = false := by
      rw [← Bool.not_eq_true, List.any_eq_true]
      rintro ⟨v, hv, hok⟩
      rw [hdate v hv] at hok
      cases hok
    rw [if_neg (hlen hne), hnoEmail hemail, if_neg (by simp), hnoUrl hurl,
      if_neg (by simp), hnotAll hnan, if_neg (by simp), hany, if_neg (by simp)]

/-- C20 witness: the column `contact` holds 'call me' and 'ann@x.com'; one email-shaped
value makes it 'email'. -/
theorem detectColumnTypes_priority_witness :
    "contact".toList ∈ typesTable.headers ∧
    [JsVal.str "call me".toList, JsVal.str "ann@x.com".toList] =
      (typesTable.sampleData.map (fun row => jsRead row "contact".toList)).filter
        JsVal.truthy ∧
    jsRead (detectColumnTypes samplePlatform typesTable) "contact".toList =
      .str "email".toList ∧
    detectColumnTypes samplePlatform typesTable =
      [("contact".toList, .str "email".toList), ("age".toList, .str "number".toList),
       ("site".toList, .str "url".toList), ("blank".toList, .str "unknown".toList)] := by
  refine ⟨by decide, rfl, ?_, rfl⟩
  exact (detectColumnTypes_priority samplePlatform typesTable "contact".toList (by decide)
    (by decide) [JsVal.str "call me".toList, JsVal.str "ann@x.com".toList] rfl).2.1
    (by simp) ⟨JsVal.str "ann@x.com".toList, by simp, by decide⟩

/-! ## Witnesses -/

/-- C11 (amended) witness: in `a<tab>b<tab>c,d` the tab occurs twice and every other
candidate less often, so the tab is returned; in `a,b;c;d|e|f` the semicolon and the
pipe both occur twice and the semicolon, the earlier of the two, is returned. -/
theorem detectCSVDelimiter_first_max_witness :
    detectCSVDelimiter "a\tb\tc,d".toList = ['\t'] ∧
    detectCSVDelimiter "a,b;c;d|e|f".toList = [';'] :=
  ⟨(detectCSVDelimiter_first_max "a\tb\tc,d".toList).2.1 '\t' (by decide) (by decide),
    by decide⟩

/-! ## Lemmas: single-contact enrichment -/

theorem truthy_str (s : Str) (h : s ≠ []) : (JsVal.str s).truthy = true := by
  simp [JsVal.truthy, h]

theorem generateLinkedInUrl_str (first last : Str) (company : JsVal) :
    generateLinkedInUrl (.str first) (.str last) company = .ok (linkedInUrl first last) := rfl

theorem validateRequired_email_ok (contact : JsObj)
    (h : (getProp contact "email".toList).truthy = true) :
    validateRequired contact ["email".toList] = .ok () := by
  unfold validateRequired
  simp only [List.filter, h, Bool.not_true]
  rfl

theorem enrichContact_returns (env : Env) (contact : JsObj)
    (h : (getProp contact "email".toList).truthy = true) :
    ∃ o, enrichContact env contact = .ok o := by
  unfold enrichContact
  rw [validateRequired_email_ok contact h]
  simp only [bind, Except.bind, pure, Except.pure]
  split
  · exact ⟨_, rfl⟩
  · exact ⟨_, rfl⟩

theorem enrichCompany_disabled (env : Env) (name domain : JsVal)
    (hwhois : env.apis.whois = false) (hlake : env.apis.lakeB2B = false)
    (hscraper : env.apis.webScraper = false) :
    enrichCompany env name domain = .ok [] := by
  unfold enrichCompany
  simp [hwhois, hlake, hscraper, bind, Except.bind, pure, Except.pure]

theorem enrichSocialProfiles_unverified (env : Env) (first last company : Str)
    (hfirst : first ≠ []) (hlast : last ≠ []) (hcompany : company ≠ [])
    (hscraper : env.apis.webScraper = false) :
    enrichSocialProfiles env (.str first) (.str last) (.str company) =
      .ok [("linkedin_url".toList, .str (linkedInUrl first last))] := by
  have h1 := truthy_str first hfirst
  have h2 := truthy_str last hlast
  have h3 := truthy_str company hcompany
  unfold enrichSocialProfiles
  simp only [h1, h2, h3, generateLinkedInUrl_str, hscraper, Bool.and_self, if_true,
    bind, Except.bind, pure, Except.pure, Bool.false_eq_true, if_false]
  rfl

theorem enrichContact_offline (env : Env) (contact : JsObj) (first last company : Str)
    (hemailCheck : env.apis.emailCheck = false) (hwhois : env.apis.whois = false)
    (hlake : env.apis.lakeB2B = false) (hlocal : env.apis.localBusiness = false)
    (hscraper : env.apis.webScraper = false)
    (hemail : (getProp contact "email".toList).truthy = true)
    (hfirst : getProp contact "first_name".toList = .str first) (hfirstNe : first ≠ [])
    (hlast : getProp contact "last_name".toList = .str last) (hlastNe : last ≠ [])
    (hcompany : getProp contact "company_name".toList = .str company)
    (hcompanyNe : company ≠ []) :
    enrichContact env contact = .ok
      { success := true
        data := setProp (setProp (setProp contact "linkedin_url".toList
            (.str (linkedInUrl first last)))
            "enrichment_timestamp".toList (.str env.now))
            "enrichment_sources".toList
            (.arr [.str "company_enrichment".toList, .str "social_profiles".toList])
        error := none
        enrichment_details :=
          [("company_enrichment".toList, .obj []),
           ("social_profiles".toList,
             .obj [("linkedin_url".toList, .str (linkedInUrl first last))])] } := by
  have h1 := truthy_str first hfirstNe
  have h2 := truthy_str last hlastNe
  have h3 := truthy_str company hcompanyNe
  have hsocial := enrichSocialProfiles_unverified env first last company hfirstNe hlastNe
    hcompanyNe hscraper
  unfold enrichContact
  rw [validateRequired_email_ok contact hemail]
  simp only [bind, Except.bind, pure, Except.pure, runStep, emailStep, companyStep,
    businessStep, socialStep, hemailCheck, hlocal, hfirst, hlast, hcompany, h1, h2, h3,
    enrichCompany_disabled env _ _ hwhois hlake hscraper, hsocial,
    Bool.false_eq_true, if_false, Bool.true_or, Bool.and_self, if_true, Bool.false_and]
  rfl

/-! ## Theorems: company, social and single-contact enrichment -/

/-- C21 (counterexample): with the three sub-lookups enabled, the WHOIS lookup succeeding
and the company-directory lookup raising, `enrichCompany` returns only the
`enrichment_error` field: the WHOIS fields `domain_info` and `company_age_years` are absent,
and so is `website_info`, although the scrape would have succeeded. -/
theorem enrichCompany_directory_failure_drops_whois :
    companyEnv.apis.whois = true ∧ companyEnv.apis.lakeB2B = true ∧
    companyEnv.apis.webScraper = true ∧
    (∃ whoisData, getWhoisData companyEnv (.str "acme.com".toList) = .ok whoisData) ∧
    (∃ message, getLakeB2BCompanyData companyEnv (.str "Acme".toList) = .error message) ∧
    (∃ webData, scrapeCompanyWebsite companyEnv (.str "acme.com".toList) = .ok webData) ∧
    ∃ data, enrichCompany companyEnv (.str "Acme".toList) (.str "acme.com".toList) =
        .ok data ∧
      getProp data "domain_info".toList = .undefined ∧
      getProp data "company_age_years".toList = .undefined ∧
      getProp data "website_info".toList = .undefined ∧
      getProp data "enrichment_error".toList =
        .str "Request failed after 3 attempts: HTTP 500".toList :=
  ⟨rfl, rfl, rfl, ⟨_, rfl⟩, ⟨_, rfl⟩, ⟨_, rfl⟩, ⟨_, rfl, rfl, rfl, rfl, rfl⟩⟩

/-- C21 (amended): for `enrichCompany` called with a name and a domain, with the WHOIS and
company-directory lookups enabled, if the WHOIS lookup succeeds and the company-directory
lookup raises with a message, the returned company data is exactly
`{ enrichment_error: message }`, whatever the scrape would have answered. -/
theorem enrichCompany_directory_failure (env : Env) (name domain : JsVal) (whoisData : JsObj)
    (message : Str) (hname : name.truthy = true) (hdomain : domain.truthy = true)
    (hwhois : env.apis.whois = true) (hlake : env.apis.lakeB2B = true)
    (hw : getWhoisData env domain = .ok whoisData)
    (hl : getLakeB2BCompanyData env name = .error message) :
    enrichCompany env name domain = .ok [("enrichment_error".toList, .str message)] := by
  unfold enrichCompany
  simp [hname, hdomain, hwhois, hlake, hw, hl, bind, Except.bind, pure, Except.pure]

theorem enrichCompany_directory_failure_witness :
    enrichCompany companyEnv (.str "Acme".toList) (.str "acme.com".toList) =
      .ok [("enrichment_error".toList,
        .str "Request failed after 3 attempts: HTTP 500".toList)] :=
  enrichCompany_directory_failure companyEnv (.str "Acme".toList) (.str "acme.com".toList)
    _ _ rfl rfl rfl rfl rfl rfl

/-- C22 (counterexample): with web-scraper verification enabled and failing,
`enrichSocialProfiles` for Anna Smith of Acme returns the empty object, which has no
`linkedin_url`. -/
theorem enrichSocialProfiles_verification_failure_empty :
    scraperEnv.apis.webScraper = true ∧
    enrichSocialProfiles scraperEnv (.str "Anna".toList) (.str "Smith".toList)
      (.str "Acme".toList) = .ok [] ∧
    getProp ([] : JsObj) "linkedin_url".toList = .undefined :=
  ⟨rfl, rfl, rfl⟩

/-- C22 (amended): for non-empty first name, last name and company, `enrichSocialProfiles`
returns exactly `{ linkedin_url: U }` with
`U = 'https://www.linkedin.com/in/' + f + '-' + l + '/'` (`f`, `l` the names lowercased with
every character outside a-z removed) when web-scraper verification is disabled; when it is
enabled and verification raises, the result is the empty object; when it is enabled and
verification answers, the result is `{ linkedin_url: U }` overlaid with the answer. -/
theorem enrichSocialProfiles_cases (env : Env) (first last company : Str)
    (hfirst : first ≠ []) (hlast : last ≠ []) (hcompany : company ≠ []) :
    linkedInUrl first last = "https://www.linkedin.com/in/".toList ++
      (keepLowerLetters (toLowerCase first) ++ "-".toList ++
        keepLowerLetters (toLowerCase last)) ++ "/".toList ∧
    (env.apis.webScraper = false →
      enrichSocialProfiles env (.str first) (.str last) (.str company) =
        .ok [("linkedin_url".toList, .str (linkedInUrl first last))]) ∧
    (env.apis.webScraper = true → ∀ message,
      env.verifySocialProfiles [("linkedin_url".toList, .str (linkedInUrl first last))] =
        .error message →
      enrichSocialProfiles env (.str first) (.str last) (.str company) = .ok []) ∧
    (env.apis.webScraper = true → ∀ verified,
      env.verifySocialProfiles [("linkedin_url".toList, .str (linkedInUrl first last))] =
        .ok verified →
      enrichSocialProfiles env (.str first) (.str last) (.str company) =
        .ok (objectAssign [("linkedin_url".toList, .str (linkedInUrl first last))]
          verified)) := by
  have h1 := truthy_str first hfirst
  have h2 := truthy_str last hlast
  have h3 := truthy_str company hcompany
  refine ⟨rfl, ?_, ?_, ?_⟩
  · exact enrichSocialProfiles_unverified env first last company hfirst hlast hcompany
  · intro hon message hfail
    unfold enrichSocialProfiles
    simp only [h1, h2, h3, generateLinkedInUrl_str, hon, Bool.and_self, if_true,
      bind, Except.bind, pure, Except.pure]
    simp only [setProp] at *
    rw [hfail]
  · intro hon verified hok
    unfold enrichSocialProfiles
    simp only [h1, h2, h3, generateLinkedInUrl_str, hon, Bool.and_self, if_true,
      bind, Except.bind, pure, Except.pure]
    simp only [setProp] at *
    rw [hok]

theorem enrichSocialProfiles_cases_witness :
    enrichSocialProfiles offlineEnv (.str "Anna".toList) (.str "Smith".toList)
      (.str "Acme".toList) =
      .ok [("linkedin_url".toList, .str "https://www.linkedin.com/in/anna-smith/".toList)] :=
  (enrichSocialProfiles_cases offlineEnv "Anna".toList "Smith".toList "Acme".toList
    (by decide) (by decide) (by decide)).2.1 rfl

/-! ## Lemmas: enrichContact on the store -/

theorem readRef_append_lt (base extra : Store) (ref : Nat) (h : ref < base.length) :
    readRef (base ++ extra) ref = readRef base ref := by
  unfold readRef
  rw [List.getD_eq_getElem?_getD, List.getD_eq_getElem?_getD, List.getElem?_append_left h]

theorem readRef_pair_first (base : Store) (a b : JsObj) :
    readRef (base ++ [a, b]) base.length = a := by
  unfold readRef
  rw [List.getD_eq_getElem?_getD, List.getElem?_append_right (Nat.le_refl _)]
  simp

theorem readRef_pair_second (base : Store) (a b : JsObj) :
    readRef (base ++ [a, b]) (base.length + 1) = b := by
  unfold readRef
  rw [List.getD_eq_getElem?_getD, List.getElem?_append_right (by omega)]
  simp

theorem writeRef_pair (base : Store) (a b a' b' : JsObj) :
    writeRef (writeRef (base ++ [a, b]) base.length a') (base.length + 1) b' =
      base ++ [a', b'] := by
  unfold writeRef
  rw [List.set_append_right _ _ (Nat.le_refl _), List.set_append_right _ _ (by omega)]
  simp

theorem writeRef_pair_first (base : Store) (a b a' : JsObj) :
    writeRef (base ++ [a, b]) base.length a' = base ++ [a', b] := by
  unfold writeRef
  rw [List.set_append_right _ _ (Nat.le_refl _)]
  simp

theorem runStepInStore_pair (step : JsObj → EnrichState → Except Str EnrichState)
    (base : Store) (contact : Nat) (hcontact : contact < base.length) (a b : JsObj) :
    runStepInStore step contact base.length (base.length + 1) (base ++ [a, b]) =
      match step (readRef base contact) { enrichedData := a, enrichmentResults := b } with
      | .ok st => .ok (base ++ [st.enrichedData, st.enrichmentResults])
      | .error message => .error (message, base ++ [a, b]) := by
  unfold runStepInStore
  rw [readRef_append_lt base _ contact hcontact, readRef_pair_first, readRef_pair_second]
  cases step (readRef base contact) { enrichedData := a, enrichmentResults := b } with
  | ok st =>
    simp only
    rw [writeRef_pair]
  | error message => rfl

/-- The call on the store in closed form: the store after the call is the store before it
followed by the two new objects. -/
theorem enrichContactInStore_eq (env : Env) (store : Store) (contact : Nat)
    (hcontact : contact < store.length) :
    enrichContactInStore env store contact =
      match enrichContact env (readRef store contact) with
      | .error message => .error message
      | .ok o =>
        .ok ({ success := o.success
               data := if o.success then store.length else contact
               error := o.error
               enrichment_details := store.length + 1 },
          store ++ [if o.success then o.data else
              (match runStep (emailStep env (readRef store contact))
                  { enrichedData := readRef store contact, enrichmentResults := [] } with
               | .error _ => readRef store contact
               | .ok st1 =>
                 match runStep (companyStep env (readRef store contact)) st1 with
                 | .error _ => st1.enrichedData
                 | .ok st2 =>
                   match runStep (businessStep env (readRef store contact)) st2 with
                   | .error _ => st2.enrichedData
                   | .ok st3 => st3.enrichedData),
            o.enrichment_details]) := by
  unfold enrichContactInStore enrichContact
  cases hv : validateRequired (readRef store contact) ["email".toList] with
  | error message => rfl
  | ok u =>
    have hlen : (store ++ [readRef store contact]).length = store.length + 1 := by simp
    have hstore : store ++ [readRef store contact] ++ [[]] =
        store ++ [readRef store contact, []] := by simp
    simp only [bind, Except.bind, pure, Except.pure, hlen, hstore]
    rw [runStepInStore_pair _ store contact hcontact]
    unfold runStep
    cases h1 : emailStep env (readRef store contact)
        { enrichedData := readRef store contact, enrichmentResults := [] } with
    | error m1 => simp
    | ok st1 =>
      simp only
      rw [runStepInStore_pair _ store contact hcontact]
      cases h2 : companyStep env (readRef store contact) st1 with
      | error m2 => simp
      | ok st2 =>
        simp only
        rw [runStepInStore_pair _ store contact hcontact]
        cases h3 : businessStep env (readRef store contact) st2 with
        | error m3 => simp
        | ok st3 =>
          simp only
          rw [runStepInStore_pair _ store contact hcontact]
          cases h4 : socialStep env (readRef store contact) st3 with
          | error m4 => simp
          | ok st4 =>
            simp only
            rw [readRef_pair_first, readRef_pair_second, writeRef_pair_first]
            simp

theorem enrichContact_failure_value (env : Env) (contact : JsObj) (o : Outcome)
    (h : enrichContact env contact = .ok o) (hfail : o.success = false) :
    o.data = contact ∧ o.error ≠ none := by
  unfold enrichContact at h
  cases hv : validateRequired contact ["email".toList] with
  | error message => rw [hv] at h; cases h
  | ok u =>
    rw [hv] at h
    simp only [bind, Except.bind, pure, Except.pure] at h
    split at h
    · injection h with h; rw [← h] at hfail; cases hfail
    · injection h with h; rw [← h]; exact ⟨rfl, by simp⟩

/-! ## Theorems: the contact object across a call -/

/-- C23: with the contact passed by reference, whenever `enrichContact` returns an outcome
with `success = false`, the outcome's `data` is the input contact itself, unchanged, and an
error message is present; in every run that returns, every object that existed before the
call, the contact included, is unchanged afterwards: on success `data` is a new object, the
copy `enrichedData`, and the writes go to it and to `enrichmentResults` only. The call on
the store returns exactly the outcome of the call on the contact's value. -/
theorem enrichContact_failure_data (env : Env) (store : Store) (contact : Nat)
    (hcontact : contact < store.length) :
    (enrichContactInStore env store contact).map derefOutcome =
      enrichContact env (readRef store contact) ∧
    (∀ o, enrichContact env (readRef store contact) = .ok o → o.success = false →
      o.data = readRef store contact ∧ o.error ≠ none) ∧
    (∀ result, enrichContactInStore env store contact = .ok result →
      (∀ ref, ref < store.length → readRef result.2 ref = readRef store ref) ∧
      readRef result.2 contact = readRef store contact ∧
      (result.1.success = false →
        result.1.data = contact ∧ readRef result.2 result.1.data = readRef store contact ∧
        result.1.error ≠ none) ∧
      (result.1.success = true →
        result.1.data = store.length ∧ result.1.data ≠ contact)) := by
  have hclosed := enrichContactInStore_eq env store contact hcontact
  refine ⟨?_, fun o ho hfail => enrichContact_failure_value env _ o ho hfail, ?_⟩
  · rw [hclosed]
    cases hvalue : enrichContact env (readRef store contact) with
    | error message => rfl
    | ok o =>
      simp only [Except.map, derefOutcome]
      have hdetails : readRef (store ++ [if o.success then o.data else
              (match runStep (emailStep env (readRef store contact))
                  { enrichedData := readRef store contact, enrichmentResults := [] } with
               | .error _ => readRef store contact
               | .ok st1 =>
                 match runStep (companyStep env (readRef store contact)) st1 with
                 | .error _ => st1.enrichedData
                 | .ok st2 =>
                   match runStep (businessStep env (readRef store contact)) st2 with
                   | .error _ => st2.enrichedData
                   | .ok st3 => st3.enrichedData),
            o.enrichment_details]) (store.length + 1) = o.enrichment_details :=
        readRef_pair_second store _ _
      rw [hdetails]
      cases hs : o.success with
      | true =>
        simp only [if_true]
        rw [readRef_pair_first]
        cases o
        simp only at hs
        rw [hs]
      | false =>
        simp only [Bool.false_eq_true, if_false]
        rw [readRef_append_lt store _ contact hcontact,
          ← (enrichContact_failure_value env _ o hvalue hs).1]
        cases o
        simp only at hs
        rw [hs]
  · intro result hresult
    rw [hclosed] at hresult
    cases hvalue : enrichContact env (readRef store contact) with
    | error message =>
      rw [hvalue] at hresult
      cases hresult
    | ok o =>
      rw [hvalue] at hresult
      simp only at hresult
      injection hresult with hresult
      rw [← hresult]
      refine ⟨fun ref href => readRef_append_lt store _ ref href,
        readRef_append_lt store _ contact hcontact, ?_, ?_⟩
      · intro hfail
        simp only at hfail
        simp only [hfail, Bool.false_eq_true, if_false]
        refine ⟨trivial, readRef_append_lt store _ contact hcontact, ?_⟩
        exact (enrichContact_failure_value env _ o hvalue hfail).2
      · intro hsuccess
        simp only at hsuccess
        simp only [hsuccess, if_true]
        exact ⟨trivial, by omega⟩

/-- C23 witness: with the local-business lookup down the call fails and `data` is the
contact's own reference; with every collaborator disabled it succeeds and `data` is the
new reference 2; in both runs the objects at references 0 and 1 are as before. -/
theorem enrichContact_failure_data_witness :
    1 < annaStore.length ∧ readRef annaStore 1 = annaContact ∧
    (∀ result, enrichContactInStore localBusinessDownEnv annaStore 1 = .ok result →
      readRef result.2 1 = annaContact) ∧
    (enrichContactInStore localBusinessDownEnv annaStore 1).toOption.map
      (fun result => (result.1.success, result.1.data, result.2.take 2)) =
      some (false, 1, annaStore) ∧
    (enrichContactInStore offlineEnv annaStore 1).toOption.map
      (fun result => (result.1.success, result.1.data, result.2.take 2)) =
      some (true, 2, annaStore) :=
  ⟨by decide, rfl,
    fun result hresult =>
      ((enrichContact_failure_data localBusinessDownEnv annaStore 1 (by decide)).2.2
        result hresult).2.1,
    rfl, rfl⟩

/-- C24 (counterexample): the second contact of the scenario is the one with the empty
email, and `enrichContact` returns no outcome for it at all: the call is rejected. -/
theorem scenario_second_contact_rejects :
    (parseCSV scenarioText).toOption.map
      (fun parsedData => convertToStandardFormat parsedData scenarioMapping) =
      some [acmeContact, betaContact] ∧
    ¬ ∃ o, enrichContact offlineEnv betaContact = .ok o := by
  refine ⟨rfl, ?_⟩
  rintro ⟨o, h⟩
  have hreject : enrichContact offlineEnv betaContact =
      .error "Missing required fields: email".toList := rfl
  rw [hreject] at h
  cases h

/-- C24 (amended): parsing the scenario text and normalizing it with the scenario mapping
yields exactly two contacts, `{ email: "annasmith@x.com", company_name: "Acme" }` and
`{ email: "", company_name: "Beta" }`. In every environment `enrichContact` rejects the
second with the message `Missing required fields: email` and returns an outcome for the
first; `enrichBatch` over the two puts the first contact's outcome in `results` and reports
the second in `errors`, at index 1 with that message. With every collaborator disabled the
first contact's outcome has `success = true`. -/
theorem scenario_end_to_end (env : Env) (options : BatchOptions) :
    (parseCSV scenarioText).toOption.map
      (fun parsedData => convertToStandardFormat parsedData scenarioMapping) =
      some [acmeContact, betaContact] ∧
    enrichContact env betaContact = .error "Missing required fields: email".toList ∧
    (∃ o, enrichContact env acmeContact = .ok o ∧
      ∃ r, enrichBatch (enrichContact env) [acmeContact, betaContact] options = some r ∧
        r.results = [o] ∧
        r.errors = [{ index := 1, contact := betaContact,
                      error := "Missing required fields: email".toList }]) ∧
    ∃ o, enrichContact offlineEnv acmeContact = .ok o ∧ o.success = true := by
  have hbeta : enrichContact env betaContact =
      .error "Missing required fields: email".toList := rfl
  obtain ⟨o, ho⟩ := enrichContact_returns env acmeContact rfl
  refine ⟨rfl, hbeta, ⟨o, ho, _, enrichBatch_spec _ _ _, ?_, ?_⟩, ⟨_, rfl, rfl⟩⟩
  · simp [List.filterMap, ho, hbeta, Except.toOption]
  · simp [List.enum, List.enumFrom, List.filterMap, rejectionEntry, ho, hbeta]

/-- C30: with every external collaborator disabled, for every contact with a non-empty
email and with non-empty strings as `first_name`, `last_name` and `company_name`,
`enrichContact` returns an outcome with `success = true` whose data holds the generated
profile URL as `linkedin_url` (whatever the input carried there), the current time as
`enrichment_timestamp` and `["company_enrichment", "social_profiles"]` as
`enrichment_sources`; every other property of the data equals that of the input contact, and
the data's keys are the input's keys together with those three. -/
theorem enrichContact_offline_frame (env : Env) (contact : JsObj) (first last company : Str)
    (hemailCheck : env.apis.emailCheck = false) (hwhois : env.apis.whois = false)
    (hlake : env.apis.lakeB2B = false) (hlocal : env.apis.localBusiness = false)
    (hscraper : env.apis.webScraper = false)
    (hemail : (getProp contact "email".toList).truthy = true)
    (hfirst : getProp contact "first_name".toList = .str first) (hfirstNe : first ≠ [])
    (hlast : getProp contact "last_name".toList = .str last) (hlastNe : last ≠ [])
    (hcompany : getProp contact "company_name".toList = .str company)
    (hcompanyNe : company ≠ []) :
    ∃ o, enrichContact env contact = .ok o ∧ o.success = true ∧ o.error = none ∧
      getProp o.data "linkedin_url".toList = .str (linkedInUrl first last) ∧
      getProp o.data "enrichment_timestamp".toList = .str env.now ∧
      getProp o.data "enrichment_sources".toList =
        .arr [.str "company_enrichment".toList, .str "social_profiles".toList] ∧
      (∀ k : Str, k ≠ "linkedin_url".toList → k ≠ "enrichment_timestamp".toList →
        k ≠ "enrichment_sources".toList → getProp o.data k = getProp contact k) ∧
      (∀ k : Str, k ∈ o.data.map Prod.fst ↔
        (k ∈ contact.map Prod.fst ∨ k = "linkedin_url".toList ∨
          k = "enrichment_timestamp".toList ∨ k = "enrichment_sources".toList)) := by
  refine ⟨_, enrichContact_offline env contact first last company hemailCheck hwhois hlake
    hlocal hscraper hemail hfirst hfirstNe hlast hlastNe hcompany hcompanyNe,
    rfl, rfl, ?_, ?_, ?_, ?_, ?_⟩
  · simp only
    rw [getProp_setProp_ne _ _ _ _ (by decide), getProp_setProp_ne _ _ _ _ (by decide),
      getProp_setProp_same]
  · simp only
    rw [getProp_setProp_ne _ _ _ _ (by decide), getProp_setProp_same]
  · simp only
    rw [getProp_setProp_same]
  · intro k h1 h2 h3
    simp only
    rw [getProp_setProp_ne _ _ _ _ (Ne.symm h3), getProp_setProp_ne _ _ _ _ (Ne.symm h2),
      getProp_setProp_ne _ _ _ _ (Ne.symm h1)]
  · intro k
    simp only [mem_keys_setProp]
    tauto

theorem enrichContact_offline_frame_witness :
    ∃ o, enrichContact offlineEnv carriedContact = .ok o ∧ o.success = true ∧
      getProp o.data "linkedin_url".toList =
        .str "https://www.linkedin.com/in/anna-smith/".toList ∧
      getProp o.data "title".toList = .str "CTO".toList := by
  obtain ⟨o, ho, hs, _, hurl, _, _, hframe, _⟩ :=
    enrichContact_offline_frame offlineEnv carriedContact "Anna".toList "Smith".toList
      "Acme".toList rfl rfl rfl rfl rfl rfl rfl (by decide) rfl (by decide) rfl (by decide)
  exact ⟨o, ho, hs, hurl,
    by rw [hframe "title".toList (by decide) (by decide) (by decide)]; rfl⟩

/-! ## Theorems: parser totality, mapping order, batch size -/

/-- C26: `parseCSVLine` returns at least one field for every line and every delimiter, the
empty line giving the single empty field; hence the only error `parseCSV` can raise is
`File appears to be empty`, and it returns a table whenever some line is not blank. -/
theorem parseCSV_only_empty_error :
    (∀ line delimiter : Str, 1 ≤ (parseCSVLine line delimiter).length) ∧
    (∀ delimiter : Str, parseCSVLine [] delimiter = [[]]) ∧
    (∀ (content message : Str), parseCSV content = .error message →
      message = "File appears to be empty".toList) ∧
    (∀ content : Str, contentLines content ≠ [] → ∃ t, parseCSV content = .ok t) := by
  refine ⟨parseCSVLine_length_pos, fun _ => rfl, ?_, ?_⟩
  · intro content message h
    by_cases hne : contentLines content = []
    · unfold parseCSV at h
      simp only [hne, List.length_nil, if_true] at h
      injection h with h
      exact h.symm
    · rw [parseCSV_eq_ok content hne] at h
      cases h
  · intro content hne
    exact ⟨_, parseCSV_eq_ok content hne⟩

theorem matchField_company (normalized : Str)
    (h : includes normalized "company".toList = true ∨
      includes normalized "org".toList = true ∨
      includes normalized "business".toList = true) :
    matchField normalized = some "email".toList ∨
    matchField normalized = some "first_name".toList ∨
    matchField normalized = some "last_name".toList ∨
    matchField normalized = some "company_name".toList := by
  have hrule : (["company".toList, "company_name".toList, "organization".toList,
      "org".toList, "business".toList, "company name".toList].any
        (fun pattern => includes normalized pattern)) = true := by
    simp only [List.any_cons, List.any_nil, Bool.or_false, Bool.or_eq_true]
    rcases h with h | h | h
    · exact Or.inl h
    · exact Or.inr (Or.inr (Or.inr (Or.inl h)))
    · exact Or.inr (Or.inr (Or.inr (Or.inr (Or.inl h))))
  unfold matchField mappingRules
  simp only [List.find?_cons]
  split
  · exact Or.inl rfl
  · split
    · exact Or.inr (Or.inl rfl)
    · split
      · exact Or.inr (Or.inr (Or.inl rfl))
      · rw [hrule]
        exact Or.inr (Or.inr (Or.inr rfl))

/-- C27: a normalized header containing `company`, `org` or `business` is matched by one of
the rules `email`, `first_name`, `last_name`, `company_name`, which precede `company_size`,
so `generateFieldMappingSuggestions` never stores such a header under `company_size`; for
the headers `["company_size"]` the result is `{ company_name: "company_size" }`, with no
`company_size` entry. -/
theorem generateFieldMappingSuggestions_company_size :
    (∀ normalized : Str,
      ("company".toList <:+: normalized ∨ "org".toList <:+: normalized ∨
        "business".toList <:+: normalized) →
      matchField normalized ≠ some "company_size".toList ∧
      (matchField normalized = some "email".toList ∨
        matchField normalized = some "first_name".toList ∨
        matchField normalized = some "last_name".toList ∨
        matchField normalized = some "company_name".toList)) ∧
    (∀ (headers : List Str) (header : Str),
      ("company".toList <:+: normalizeHeader header ∨
        "org".toList <:+: normalizeHeader header ∨
        "business".toList <:+: normalizeHeader header) →
      getProp (generateFieldMappingSuggestions headers) "company_size".toList ≠
        .str header) ∧
    normalizeHeader "company_size".toList = "company_size".toList ∧
    generateFieldMappingSuggestions ["company_size".toList] =
      [("company_name".toList, .str "company_size".toList)] ∧
    getProp (generateFieldMappingSuggestions ["company_size".toList])
      "company_size".toList = .undefined := by
  have hmain : ∀ normalized : Str,
      ("company".toList <:+: normalized ∨ "org".toList <:+: normalized ∨
        "business".toList <:+: normalized) →
      matchField normalized ≠ some "company_size".toList ∧
      (matchField normalized = some "email".toList ∨
        matchField normalized = some "first_name".toList ∨
        matchField normalized = some "last_name".toList ∨
        matchField normalized = some "company_name".toList) := by
    intro normalized h
    have h' : includes normalized "company".toList = true ∨
        includes normalized "org".toList = true ∨
        includes normalized "business".toList = true := by
      rcases h with h | h | h
      · exact Or.inl ((includes_iff _ _).mpr h)
      · exact Or.inr (Or.inl ((includes_iff _ _).mpr h))
      · exact Or.inr (Or.inr ((includes_iff _ _).mpr h))
    have hcases := matchField_company normalized h'
    refine ⟨?_, hcases⟩
    rcases hcases with hc | hc | hc | hc <;> (rw [hc]; decide)
  refine ⟨hmain, ?_, by decide, rfl, rfl⟩
  intro headers header h hEq
  unfold generateFieldMappingSuggestions at hEq
  rw [foldl_assign_lookup (fun header => matchField (normalizeHeader header))] at hEq
  cases hfind : headers.reverse.find?
      (fun header => matchField (normalizeHeader header) == some "company_size".toList) with
  | none =>
    rw [hfind] at hEq
    cases hEq
  | some found =>
    rw [hfind] at hEq
    have hfound : found = header := by
      injection hEq
    have hp := List.find?_some hfind
    rw [hfound] at hp
    have := (hmain (normalizeHeader header) h).1
    exact this (by simpa using hp)

theorem rejection_indices_sorted {α β : Type} (enrichContact : α → Except Str β)
    (l : List α) (k : Nat) :
    (((l.enumFrom k).filterMap (rejectionEntry enrichContact)).map
        (fun e => e.index)).Pairwise (fun a b => a < b) ∧
    ∀ i ∈ ((l.enumFrom k).filterMap (rejectionEntry enrichContact)).map
        (fun e => e.index), k ≤ i := by
  induction l generalizing k with
  | nil => simp
  | cons c cs ih =>
    obtain ⟨hsorted, hbound⟩ := ih (k + 1)
    rw [List.enumFrom_cons, List.filterMap_cons]
    cases hrej : rejectionEntry enrichContact (k, c) with
    | none =>
      simp only
      exact ⟨hsorted, fun i hi => Nat.le_of_succ_le (hbound i hi)⟩
    | some e =>
      have he := (rejectionEntry_some enrichContact (k, c) e hrej).1
      simp only [List.map_cons, List.pairwise_cons]
      refine ⟨⟨?_, hsorted⟩, ?_⟩
      · intro i hi
        have := hbound i hi
        rw [he]
        exact this
      · intro i hi
        rcases List.mem_cons.mp hi with hi | hi
        · rw [hi, he]
        · exact Nat.le_of_succ_le (hbound i hi)

/-- C28: for a deterministic per-contact call, every contact list and any two positive batch
sizes, both of which are used as given, `enrichBatch` returns the same result; its `results` are the fulfilled values in the
order of the contacts, and its `errors` are the rejections in the order of the contacts, with
strictly increasing indices. -/
theorem enrichBatch_batch_size_independent {α β : Type} (enrichContact : α → Except Str β)
    (contacts : List α) (b1 b2 : Nat) (h1 : 0 < b1) (h2 : 0 < b2) :
    effectiveBatchSize { batchSize := some b1 } = b1 ∧
    effectiveBatchSize { batchSize := some b2 } = b2 ∧
    enrichBatch enrichContact contacts { batchSize := some b1 } =
      enrichBatch enrichContact contacts { batchSize := some b2 } ∧
    ∃ r, enrichBatch enrichContact contacts { batchSize := some b1 } = some r ∧
      enrichBatch enrichContact contacts { batchSize := some b2 } = some r ∧
      r.results = contacts.filterMap (fun c => (enrichContact c).toOption) ∧
      r.errors = contacts.enum.filterMap (rejectionEntry enrichContact) ∧
      (r.errors.map (fun e => e.index)).Pairwise (fun a b => a < b) := by
  refine ⟨effectiveBatchSize_some b1 h1, effectiveBatchSize_some b2 h2, ?_, _,
    enrichBatch_spec enrichContact contacts _,
    enrichBatch_spec enrichContact contacts _, rfl, rfl, ?_⟩
  · rw [enrichBatch_spec, enrichBatch_spec]
  · exact (rejection_indices_sorted enrichContact contacts 0).1

theorem enrichBatchLoop_zero_size {α β : Type} (enrichContact : α → Except Str β)
    (contacts : List α) (hne : contacts ≠ []) :
    ∀ (fuel : Nat) (st : BatchState α β),
      enrichBatchLoop enrichContact contacts 0 fuel 0 st = none := by
  intro fuel
  induction fuel with
  | zero => intro st; rfl
  | succ fuel ih =>
    intro st
    have hpos : 0 < contacts.length := List.length_pos.mpr hne
    rw [enrichBatchLoop]
    simp only [hpos, if_true, Nat.add_zero]
    exact ih _

/-- C29: a batch size that is absent or 0 is replaced by 10 and a positive one is kept, so
the effective batch size is positive; while the index is below `contacts.length` one
iteration moves it up by the effective batch size, the loop stops once the index has reached
`contacts.length`, and so the loop, `enrichBatchRun` and `enrichBatch` return for every
contact list, after `⌈n / b⌉` iterations. With a step of 0 the loop would never return on a
non-empty list, which is what the replacement by 10 excludes. -/
theorem enrichBatch_terminates {α β : Type} (enrichContact : α → Except Str β)
    (contacts : List α) (options : BatchOptions) :
    ((options.batchSize = none ∨ options.batchSize = some 0) →
      effectiveBatchSize options = 10) ∧
    (∀ b, 0 < b → options.batchSize = some b → effectiveBatchSize options = b) ∧
    0 < effectiveBatchSize options ∧
    (∃ st, enrichBatchRun enrichContact contacts options = some st ∧
      st.batches.length =
        (contacts.length + effectiveBatchSize options - 1) / effectiveBatchSize options) ∧
    (∃ r, enrichBatch enrichContact contacts options = some r) ∧
    (∀ (fuel i : Nat) (st : BatchState α β), i < contacts.length →
      enrichBatchLoop enrichContact contacts (effectiveBatchSize options) (fuel + 1) i st =
        enrichBatchLoop enrichContact contacts (effectiveBatchSize options) fuel
          (i + effectiveBatchSize options)
          (settleBatch i ((contacts.drop i).take (effectiveBatchSize options))
            (((contacts.drop i).take (effectiveBatchSize options)).map enrichContact)
            { st with batches :=
                st.batches ++ [(contacts.drop i).take (effectiveBatchSize options)] })) ∧
    (∀ (fuel i : Nat) (st : BatchState α β), contacts.length ≤ i →
      enrichBatchLoop enrichContact contacts (effectiveBatchSize options) (fuel + 1) i st =
        some st) ∧
    (∀ (fuel i : Nat) (st : BatchState α β),
      contacts.length ≤ i + fuel * effectiveBatchSize options →
      ∃ final, enrichBatchLoop enrichContact contacts (effectiveBatchSize options)
        (fuel + 1) i st = some final) ∧
    (contacts ≠ [] → ∀ (fuel : Nat) (st : BatchState α β),
      enrichBatchLoop enrichContact contacts 0 fuel 0 st = none) := by
  have hpos := effectiveBatchSize_pos options
  refine ⟨?_, ?_, hpos, ?_, ?_, ?_, ?_, ?_, ?_⟩
  · intro h
    unfold effectiveBatchSize
    rcases h with h | h
    · rw [h]
    · rw [h]
      rfl
  · intro b hb h
    unfold effectiveBatchSize
    rw [h]
    simp only
    rw [if_neg (by omega)]
  · refine ⟨_, enrichBatchRun_spec enrichContact contacts options, ?_⟩
    simp
  · exact ⟨_, enrichBatch_spec enrichContact contacts options⟩
  · intro fuel i st hi
    rw [enrichBatchLoop]
    simp only [hi, if_true]
  · intro fuel i st hi
    rw [enrichBatchLoop]
    simp only [Nat.not_lt.mpr hi, if_false]
  · intro fuel i st hfuel
    exact ⟨_, enrichBatchLoop_spec enrichContact contacts _ hpos fuel i st hfuel⟩
  · intro hne
    exact enrichBatchLoop_zero_size enrichContact contacts hne

theorem enrichBatch_batch_size_independent_witness :
    enrichBatch failsOnTwelve [11, 12, 13] { batchSize := some 1 } =
      enrichBatch failsOnTwelve [11, 12, 13] { batchSize := some 2 } :=
  (enrichBatch_batch_size_independent failsOnTwelve [11, 12, 13] 1 2 (by decide)
    (by decide)).2.2.1

/-! ## Lemmas: splitting and joining a line -/

theorem parseCSVLineLoop_quote_free (d : Char) (hd : d ≠ '"') (line : Str)
    (hq : '"' ∉ line) :
    ∀ (result : List Str) (current : Str),
      parseCSVLineLoop [d] line result current false =
        result ++ (match split d line with
          | [] => []
          | piece :: pieces => trim (current ++ piece) :: pieces.map trim) := by
  induction line with
  | nil =>
    intro result current
    simp [split, parseCSVLineLoop_nil]
  | cons c cs ih =>
    intro result current
    have hc : c ≠ '"' := fun hEq => hq (by simp [hEq])
    have hcs : '"' ∉ cs := fun hMem => hq (List.mem_cons_of_mem _ hMem)
    obtain ⟨piece, pieces, hsplit⟩ : ∃ piece pieces, split d cs = piece :: pieces := by
      cases h : split d cs with
      | nil => exact absurd h (split_ne_nil d cs)
      | cons piece pieces => exact ⟨piece, pieces, rfl⟩
    by_cases hcd : c = d
    · subst hcd
      rw [parseCSVLineLoop_delimiter c cs result current hd, ih hcs]
      simp [split, hsplit]
    · rw [parseCSVLineLoop_plain [d] c cs result current false hc
        (Or.inr (by simpa using hcd)), ih hcs]
      simp [split, hsplit, hcd]

theorem parseCSVLine_quote_free (d : Char) (hd : d ≠ '"') (line : Str) (hq : '"' ∉ line) :
    parseCSVLine line [d] = (split d line).map trim := by
  unfold parseCSVLine
  rw [parseCSVLineLoop_quote_free d hd line hq]
  cases h : split d line with
  | nil => rfl
  | cons piece pieces => simp

theorem split_no_separator (d : Char) (s : Str) (h : d ∉ s) : split d s = [s] := by
  induction s with
  | nil => rfl
  | cons c cs ih =>
    have hc : c ≠ d := fun hEq => h (by simp [hEq])
    have hcs : d ∉ cs := fun hMem => h (List.mem_cons_of_mem _ hMem)
    simp [split, hc, ih hcs]

theorem split_append_separator (d : Char) (s rest : Str) (h : d ∉ s) :
    split d (s ++ d :: rest) = s :: split d rest := by
  induction s with
  | nil => simp [split]
  | cons c cs ih =>
    have hc : c ≠ d := fun hEq => h (by simp [hEq])
    have hcs : d ∉ cs := fun hMem => h (List.mem_cons_of_mem _ hMem)
    simp [split, hc, ih hcs]

theorem split_join (d : Char) (fields : List Str) (hne : fields ≠ [])
    (h : ∀ field ∈ fields, d ∉ field) : split d (join [d] fields) = fields := by
  induction fields with
  | nil => exact absurd rfl hne
  | cons x rest ih =>
    cases rest with
    | nil => exact split_no_separator d x (h x (by simp))
    | cons y rest =>
      have hx : d ∉ x := h x (by simp)
      have hrest := ih (by simp) (fun field hMem => h field (List.mem_cons_of_mem _ hMem))
      simp only [join, List.append_assoc, List.singleton_append]
      rw [split_append_separator d x _ hx, hrest]

theorem join_split (d : Char) (s : Str) : join [d] (split d s) = s := by
  induction s with
  | nil => rfl
  | cons c cs ih =>
    obtain ⟨piece, pieces, hsplit⟩ : ∃ piece pieces, split d cs = piece :: pieces := by
      cases h : split d cs with
      | nil => exact absurd h (split_ne_nil d cs)
      | cons piece pieces => exact ⟨piece, pieces, rfl⟩
    rw [hsplit] at ih
    by_cases hcd : c = d
    · subst hcd
      simp only [split, if_true, hsplit, join, List.nil_append, List.singleton_append, ih]
    · simp only [split, if_neg hcd, hsplit]
      cases pieces with
      | nil =>
        simp only [join] at ih ⊢
        rw [ih]
      | cons q qs =>
        simp only [join, List.cons_append] at ih ⊢
        rw [ih]

theorem split_pieces_no_separator (d : Char) (s : Str) :
    ∀ piece ∈ split d s, d ∉ piece := by
  induction s with
  | nil => simp [split]
  | cons c cs ih =>
    obtain ⟨piece, pieces, hsplit⟩ : ∃ piece pieces, split d cs = piece :: pieces := by
      cases h : split d cs with
      | nil => exact absurd h (split_ne_nil d cs)
      | cons piece pieces => exact ⟨piece, pieces, rfl⟩
    rw [hsplit] at ih
    by_cases hcd : c = d
    · subst hcd
      simp only [split, if_true, hsplit]
      intro q hq
      rcases List.mem_cons.mp hq with hq | hq
      · rw [hq]
        simp
      · exact ih q hq
    · simp only [split, if_neg hcd, hsplit]
      intro q hq
      rcases List.mem_cons.mp hq with hq | hq
      · rw [hq]
        intro hMem
        rcases List.mem_cons.mp hMem with hMem | hMem
        · exact hcd hMem.symm
        · exact ih piece (by simp) hMem
      · exact ih q (List.mem_cons_of_mem _ hq)

theorem split_pieces_subset (d : Char) (s : Str) :
    ∀ piece ∈ split d s, ∀ c ∈ piece, c ∈ s := by
  induction s with
  | nil => simp [split]
  | cons c cs ih =>
    obtain ⟨piece, pieces, hsplit⟩ : ∃ piece pieces, split d cs = piece :: pieces := by
      cases h : split d cs with
      | nil => exact absurd h (split_ne_nil d cs)
      | cons piece pieces => exact ⟨piece, pieces, rfl⟩
    rw [hsplit] at ih
    by_cases hcd : c = d
    · subst hcd
      simp only [split, if_true, hsplit]
      intro q hq x hx
      rcases List.mem_cons.mp hq with hq | hq
      · rw [hq] at hx
        cases hx
      · exact List.mem_cons_of_mem _ (ih q hq x hx)
    · simp only [split, if_neg hcd, hsplit]
      intro q hq x hx
      rcases List.mem_cons.mp hq with hq | hq
      · rw [hq] at hx
        rcases List.mem_cons.mp hx with hx | hx
        · rw [hx]
          simp
        · exact List.mem_cons_of_mem _ (ih piece (by simp) x hx)
      · exact List.mem_cons_of_mem _ (ih q (List.mem_cons_of_mem _ hq) x hx)

theorem trim_sublist (s : Str) : (trim s).Sublist s := by
  unfold trim trimEnd trimStart
  have h1 : ((List.dropWhile isJsWhitespace s).reverse.dropWhile isJsWhitespace).Sublist
      (List.dropWhile isJsWhitespace s).reverse := List.dropWhile_sublist _
  have h2 := h1.reverse
  rw [List.reverse_reverse] at h2
  exact h2.trans (List.dropWhile_sublist _)

theorem count_dropWhile (c : Char) (s : Str) (hc : isJsWhitespace c = false) :
    (s.dropWhile isJsWhitespace).count c = s.count c := by
  induction s with
  | nil => rfl
  | cons x xs ih =>
    by_cases hx : isJsWhitespace x = true
    · have hne : c ≠ x := fun hEq => by rw [← hEq, hc] at hx; cases hx
      rw [List.dropWhile_cons_of_pos hx, ih, List.count_cons_of_ne hne]
    · rw [List.dropWhile_cons_of_neg hx]

theorem count_trim (c : Char) (s : Str) (hc : isJsWhitespace c = false) :
    (trim s).count c = s.count c := by
  unfold trim trimEnd trimStart
  rw [List.count_reverse, count_dropWhile c _ hc, List.count_reverse, count_dropWhile c _ hc]

theorem mem_join (sep : Str) (fields : List Str) (c : Char) (h : c ∈ join sep fields) :
    c ∈ sep ∨ ∃ field ∈ fields, c ∈ field := by
  induction fields with
  | nil => cases h
  | cons x rest ih =>
    cases rest with
    | nil => exact Or.inr ⟨x, by simp, h⟩
    | cons y rest =>
      simp only [join, List.mem_append] at h
      rcases h with (h | h) | h
      · exact Or.inr ⟨x, by simp, h⟩
      · exact Or.inl h
      · rcases ih h with h | ⟨field, hMem, hc⟩
        · exact Or.inl h
        · exact Or.inr ⟨field, List.mem_cons_of_mem _ hMem, hc⟩

theorem count_join_map_le (sep : Str) (g : Str → Str) (c : Char) (fields : List Str)
    (h : ∀ field ∈ fields, (g field).count c ≤ field.count c) :
    (join sep (fields.map g)).count c ≤ (join sep fields).count c := by
  induction fields with
  | nil => exact Nat.le_refl _
  | cons x rest ih =>
    cases rest with
    | nil => exact h x (by simp)
    | cons y rest =>
      have hx := h x (by simp)
      have hrest := ih (fun field hMem => h field (List.mem_cons_of_mem _ hMem))
      simp only [List.map_cons, join, List.count_append] at hrest ⊢
      omega

theorem count_join_map_eq (sep : Str) (g : Str → Str) (c : Char) (fields : List Str)
    (h : ∀ field ∈ fields, (g field).count c = field.count c) :
    (join sep (fields.map g)).count c = (join sep fields).count c := by
  induction fields with
  | nil => rfl
  | cons x rest ih =>
    cases rest with
    | nil => exact h x (by simp)
    | cons y rest =>
      have hx := h x (by simp)
      have hrest := ih (fun field hMem => h field (List.mem_cons_of_mem _ hMem))
      simp only [List.map_cons, join, List.count_append] at hrest ⊢
      omega

theorem detectCSVDelimiter_transfer (line line' : Str)
    (hcomma : line'.count ',' = line.count ',')
    (hsemicolon : line'.count ';' = line.count ';')
    (hpipe : line'.count '|' = line.count '|')
    (htabLe : line'.count '\t' ≤ line.count '\t')
    (htab : detectCSVDelimiter line = ['\t'] → line'.count '\t' = line.count '\t') :
    detectCSVDelimiter line' = detectCSVDelimiter line := by
  rw [detectCSVDelimiter_cases line] at htab ⊢
  rw [detectCSVDelimiter_cases line', hcomma, hsemicolon, hpipe]
  split_ifs at htab ⊢ <;>
    first
    | rfl
    | (exfalso; omega)
    | (exfalso; have := htab rfl; omega)

/-! ## Theorems: delimiter inference on a re-joined header -/

/-- C25 (counterexample): the header line `"a,b",c` has delimiter `,` and headers
`a,b` and `c`; joined with `,` they give `a,b,c`, which splits into three headers. -/
theorem delimiter_inference_requoted :
    detectCSVDelimiter "\"a,b\",c".toList = ",".toList ∧
    parseCSVLine "\"a,b\",c".toList ",".toList = ["a,b".toList, "c".toList] ∧
    join ",".toList ["a,b".toList, "c".toList] = "a,b,c".toList ∧
    parseCSVLine "a,b,c".toList ",".toList = ["a".toList, "b".toList, "c".toList] ∧
    parseCSVLine
      (join (detectCSVDelimiter "\"a,b\",c".toList)
        (parseCSVLine "\"a,b\",c".toList (detectCSVDelimiter "\"a,b\",c".toList)))
      (detectCSVDelimiter "\"a,b\",c".toList) ≠
      parseCSVLine "\"a,b\",c".toList (detectCSVDelimiter "\"a,b\",c".toList) := by
  decide

/-- C25 (amended): for every header line `L` without a double quote, with
`d = detectCSVDelimiter(L)` and `H = parseCSVLine(L, d)`, the line `L'` obtained by joining
`H` with `d` satisfies `detectCSVDelimiter(L') = d` and `parseCSVLine(L', d) = H`. -/
theorem delimiter_inference_idempotent (line : Str) (hq : '"' ∉ line) :
    detectCSVDelimiter
      (join (detectCSVDelimiter line) (parseCSVLine line (detectCSVDelimiter line))) =
      detectCSVDelimiter line ∧
    parseCSVLine
      (join (detectCSVDelimiter line) (parseCSVLine line (detectCSVDelimiter line)))
      (detectCSVDelimiter line) =
      parseCSVLine line (detectCSVDelimiter line) := by
  obtain ⟨d, hd, hmem, -, -⟩ := detectCSVDelimiter_first_max_aux line
  have hdq : d ≠ '"' := by
    intro hEq
    rw [hEq] at hmem
    revert hmem
    decide
  rw [hd, parseCSVLine_quote_free d hdq line hq]
  have hfieldsNoSep : ∀ field ∈ (split d line).map trim, d ∉ field := by
    intro field hMem
    obtain ⟨piece, hpiece, rfl⟩ := List.mem_map.mp hMem
    exact fun h => split_pieces_no_separator d line piece hpiece ((trim_sublist piece).subset h)
  have hfieldsNoQuote : ∀ field ∈ (split d line).map trim, '"' ∉ field := by
    intro field hMem
    obtain ⟨piece, hpiece, rfl⟩ := List.mem_map.mp hMem
    exact fun h => hq (split_pieces_subset d line piece hpiece _ ((trim_sublist piece).subset h))
  have hq' : '"' ∉ join [d] ((split d line).map trim) := by
    intro h
    rcases mem_join _ _ _ h with h | ⟨field, hMem, hc⟩
    · exact hdq (List.mem_singleton.mp h).symm
    · exact hfieldsNoQuote field hMem hc
  have hle : ∀ c : Char,
      (join [d] ((split d line).map trim)).count c ≤ line.count c := by
    intro c
    have h := count_join_map_le [d] trim c (split d line)
      (fun piece _ => (trim_sublist piece).count_le c)
    rwa [join_split] at h
  have heq : ∀ c : Char, isJsWhitespace c = false →
      (join [d] ((split d line).map trim)).count c = line.count c := by
    intro c hc
    have h := count_join_map_eq [d] trim c (split d line)
      (fun piece _ => count_trim c piece hc)
    rwa [join_split] at h
  have heqd : (join [d] ((split d line).map trim)).count d = line.count d := by
    have h := count_join_map_eq [d] trim d (split d line) (fun piece hpiece => by
      have h0 : piece.count d = 0 :=
        List.count_eq_zero.mpr (split_pieces_no_separator d line piece hpiece)
      have hle0 := (trim_sublist piece).count_le d
      omega)
    rwa [join_split] at h
  constructor
  · have htransfer := detectCSVDelimiter_transfer line
      (join [d] ((split d line).map trim)) (heq ',' (by decide)) (heq ';' (by decide))
      (heq '|' (by decide)) (hle '\t')
    rw [hd] at htransfer
    apply htransfer
    intro htab
    have : d = '\t' := by
      injection htab
    rw [this] at heqd
    rw [this]
    exact heqd
  · rw [parseCSVLine_quote_free d hdq _ hq',
      split_join d _ (by simpa using split_ne_nil d line) hfieldsNoSep, List.map_map]
    apply List.map_congr_left
    intro piece _
    exact trim_idempotent piece

theorem delimiter_inference_idempotent_witness :
    detectCSVDelimiter
      (join (detectCSVDelimiter "name ;\temail; phone".toList)
        (parseCSVLine "name ;\temail; phone".toList
          (detectCSVDelimiter "name ;\temail; phone".toList))) = ";".toList ∧
    parseCSVLine
      (join (detectCSVDelimiter "name ;\temail; phone".toList)
        (parseCSVLine "name ;\temail; phone".toList
          (detectCSVDelimiter "name ;\temail; phone".toList)))
      (detectCSVDelimiter "name ;\temail; phone".toList) =
      ["name".toList, "email".toList, "phone".toList] :=
  delimiter_inference_idempotent "name ;\temail; phone".toList (by decide)

end ResellerPortal
